import Mathlib

/-!
# Stored scripts of the Elasticsearch provider

A verification development for the stored-script resource:
`internal/elasticsearch/script/stored_script.go` (the resource functions
`resourceStoredScriptPut`, `resourceStoredScriptRead` and
`resourceStoredScriptDelete`) and `internal/clients/script.go` (the client
methods `PutElasticsearchStoredScript` and `GetElasticsearchStoredScript`).

The resource functions are embedded as functions that pass the resource data
and the list of requests issued to the remote store.  The JSON library, the
diagnostics of the plugin SDK and the declarations of the provider that the
two files use are modelled in the first sections.
-/

namespace Elasticstack


set_option maxRecDepth 100000
set_option exponentiation.threshold 2000

/-! ## JSON documents

`encoding/json` is used by the provider to turn the `params` and
`search_template` strings into structured values (`json.Unmarshal` into a
`map[string]interface{}`) and back (`json.Marshal`).  The library is modelled
here by a decoder and an encoder over character lists.  A number is decoded
into a `float64`: the decimal of the document is rounded to the nearest
double, and a decimal beyond the largest double is refused.  A double is
kept here as the exact decimal `mantissa * 10 ^ exponent` it stands for, with
a sign that keeps the negative zero apart, and is written by the encoder as
the shortest decimal that reads back to it. -/

/-- A decoded JSON value, as `encoding/json` stores it in an `interface{}`. -/
inductive JVal where
  | null
  | bool (b : Bool)
  | num (negative : Bool) (mantissa : Nat) (exponent : Int)
  | str (s : String)
  | arr (items : List JVal)
  | obj (fields : List (String × JVal))

/-- JSON insignificant whitespace. -/
def isSpace (c : Char) : Bool :=
  c.toNat = 32 || c.toNat = 9 || c.toNat = 13 || c.toNat = 10

/-- Drops leading whitespace. -/
def skipSpace : List Char → List Char
  | [] => []
  | c :: cs => if isSpace c then skipSpace cs else c :: cs

/-- Decimal digit test. -/
def isDigit (c : Char) : Bool := decide (48 ≤ c.toNat) && decide (c.toNat ≤ 57)

/-- Value of a decimal digit. -/
def digitVal (c : Char) : Nat := c.toNat - 48

/-- The character of a decimal digit. -/
def digitChar (d : Nat) : Char := Char.ofNat (48 + d)

/-- Reads a run of decimal digits onto an accumulator, counting them. -/
def readDigits : List Char → Nat → Nat → Nat × Nat × List Char
  | [], acc, cnt => (acc, cnt, [])
  | c :: cs, acc, cnt =>
    if isDigit c then readDigits cs (acc * 10 + digitVal c) (cnt + 1) else (acc, cnt, c :: cs)

/-- Optional fraction of a number: the digits extend the mantissa. -/
def readFraction (ip : Nat) : List Char → Option (Nat × Nat × List Char)
  | [] => some (ip, 0, [])
  | c :: r =>
    if c = '.' then
      match r with
      | [] => none
      | d :: _ => if isDigit d then some (readDigits r ip 0) else none
    else some (ip, 0, c :: r)

/-- Optional exponent of a number. -/
def readExponent : List Char → Option (Int × List Char)
  | [] => some (0, [])
  | c :: r =>
    if c = 'e' ∨ c = 'E' then
      match r with
      | [] => none
      | s :: r1 =>
        if s = '-' then
          match r1 with
          | [] => none
          | d :: _ => if isDigit d then some (-((readDigits r1 0 0).1 : Int), (readDigits r1 0 0).2.2) else none
        else if s = '+' then
          match r1 with
          | [] => none
          | d :: _ => if isDigit d then some (((readDigits r1 0 0).1 : Int), (readDigits r1 0 0).2.2) else none
        else if isDigit s then some (((readDigits r 0 0).1 : Int), (readDigits r 0 0).2.2)
        else none
    else some (0, c :: r)

/-- Number after the optional minus sign. -/
def parseUnsigned (neg : Bool) : List Char → Option (JVal × List Char)
  | [] => none
  | c :: r =>
    if isDigit c then
      let ip : Nat × List Char :=
        if c = '0' then (0, r) else ((readDigits (c :: r) 0 0).1, (readDigits (c :: r) 0 0).2.2)
      match readFraction ip.1 ip.2 with
      | none => none
      | some (mant, fracLen, r2) =>
        match readExponent r2 with
        | none => none
        | some (ex, r3) =>
          some (JVal.num neg mant (ex - (fracLen : Int)), r3)
    else none

/-- A JSON number token. -/
def parseNumber : List Char → Option (JVal × List Char)
  | [] => none
  | c :: r => if c = '-' then parseUnsigned true r else parseUnsigned false (c :: r)

/-- Value of a hexadecimal digit. -/
def hexVal (c : Char) : Option Nat :=
  if 48 ≤ c.toNat ∧ c.toNat ≤ 57 then some (c.toNat - 48)
  else if 97 ≤ c.toNat ∧ c.toNat ≤ 102 then some (c.toNat - 87)
  else if 65 ≤ c.toNat ∧ c.toNat ≤ 70 then some (c.toNat - 55)
  else none

/-- Value of four hexadecimal digits. -/
def hex4 (a b c d : Char) : Option Nat :=
  match hexVal a, hexVal b, hexVal c, hexVal d with
  | some x, some y, some z, some w => some (((x * 16 + y) * 16 + z) * 16 + w)
  | _, _, _, _ => none

/-- The one-letter escapes of a JSON string. -/
def simpleEscape (e : Char) : Option Char :=
  if e = '"' then some '"'
  else if e = '\\' then some '\\'
  else if e = '/' then some '/'
  else if e = 'b' then some (Char.ofNat 8)
  else if e = 'f' then some (Char.ofNat 12)
  else if e = 'n' then some '\n'
  else if e = 'r' then some '\r'
  else if e = 't' then some '\t'
  else none

/-- Prepends a decoded character to the result of the rest of the string. -/
def consChar (c : Char) : Option (List Char × List Char) → Option (List Char × List Char)
  | none => none
  | some (s, r) => some (c :: s, r)

/-- The replacement character that stands for an unpaired surrogate. -/
def replacementChar : Char := Char.ofNat 0xFFFD

/-- The low surrogate escape that may follow a high surrogate. -/
def lowSurrogate : List Char → Option (Nat × List Char)
  | b :: u :: a1 :: b1 :: c1 :: d1 :: r =>
    if b = '\\' ∧ u = 'u' then
      match hex4 a1 b1 c1 d1 with
      | some n => if 0xDC00 ≤ n ∧ n < 0xE000 then some (n, r) else none
      | none => none
    else none
  | _ => none

/-- Body of a JSON string, after the opening quote, up to the closing one. -/
def parseStringBody : Nat → List Char → Option (List Char × List Char)
  | 0, _ => none
  | _ + 1, [] => none
  | f + 1, c :: cs =>
    if c = '"' then some ([], cs)
    else if c = '\\' then
      match cs with
      | [] => none
      | e :: cs1 =>
        if e = 'u' then
          match cs1 with
          | a :: b :: c2 :: d :: cs2 =>
            match hex4 a b c2 d with
            | none => none
            | some n =>
              if 0xD800 ≤ n ∧ n < 0xDC00 then
                match lowSurrogate cs2 with
                | some (n2, cs3) =>
                  consChar (Char.ofNat (0x10000 + (n - 0xD800) * 0x400 + (n2 - 0xDC00)))
                    (parseStringBody f cs3)
                | none => consChar replacementChar (parseStringBody f cs2)
              else if 0xDC00 ≤ n ∧ n < 0xE000 then
                consChar replacementChar (parseStringBody f cs2)
              else consChar (Char.ofNat n) (parseStringBody f cs2)
          | _ => none
        else
          match simpleEscape e with
          | some ch => consChar ch (parseStringBody f cs1)
          | none => none
    else if c.toNat < 32 then none
    else consChar c (parseStringBody f cs)

/-- Removes a literal's remaining letters. -/
def stripLit : List Char → List Char → Option (List Char)
  | [], cs => some cs
  | _ :: _, [] => none
  | l :: ls, c :: cs => if c = l then stripLit ls cs else none

mutual
/-- A JSON value at the head of the input; the input starts at the value. -/
def parseValue : Nat → List Char → Option (JVal × List Char)
  | 0, _ => none
  | _ + 1, [] => none
  | f + 1, c :: r =>
    if c = '"' then
      match parseStringBody (r.length + 1) r with
      | some (s, r1) => some (JVal.str (String.mk s), r1)
      | none => none
    else if c = '[' then
      match skipSpace r with
      | [] => none
      | c1 :: r1 =>
        if c1 = ']' then some (JVal.arr [], r1)
        else
          match parseElems f (c1 :: r1) with
          | some (xs, r2) => some (JVal.arr xs, r2)
          | none => none
    else if c = '{' then
      match skipSpace r with
      | [] => none
      | c1 :: r1 =>
        if c1 = '}' then some (JVal.obj [], r1)
        else
          match parseMembers f (c1 :: r1) with
          | some (kvs, r2) => some (JVal.obj kvs, r2)
          | none => none
    else if c = 't' then
      match stripLit ['r', 'u', 'e'] r with
      | some r1 => some (JVal.bool true, r1)
      | none => none
    else if c = 'f' then
      match stripLit ['a', 'l', 's', 'e'] r with
      | some r1 => some (JVal.bool false, r1)
      | none => none
    else if c = 'n' then
      match stripLit ['u', 'l', 'l'] r with
      | some r1 => some (JVal.null, r1)
      | none => none
    else parseNumber (c :: r)
/-- The elements of a non-empty array, up to the closing bracket. -/
def parseElems : Nat → List Char → Option (List JVal × List Char)
  | 0, _ => none
  | f + 1, cs =>
    match parseValue f cs with
    | none => none
    | some (v, r) =>
      match skipSpace r with
      | [] => none
      | c :: r1 =>
        if c = ',' then
          match parseElems f (skipSpace r1) with
          | some (vs, r2) => some (v :: vs, r2)
          | none => none
        else if c = ']' then some ([v], r1)
        else none
/-- The members of a non-empty object, up to the closing brace. -/
def parseMembers : Nat → List Char → Option (List (String × JVal) × List Char)
  | 0, _ => none
  | _ + 1, [] => none
  | f + 1, q :: r =>
    if q = '"' then
      match parseStringBody (r.length + 1) r with
      | none => none
      | some (k, r1) =>
        match skipSpace r1 with
        | [] => none
        | col :: r2 =>
          if col = ':' then
            match parseValue f (skipSpace r2) with
            | none => none
            | some (v, r3) =>
              match skipSpace r3 with
              | [] => none
              | c :: r4 =>
                if c = ',' then
                  match parseMembers f (skipSpace r4) with
                  | some (kvs, r5) => some ((String.mk k, v) :: kvs, r5)
                  | none => none
                else if c = '}' then some ([(String.mk k, v)], r4)
                else none
          else none
    else none
end

/-- The syntax tree of a whole document, surrounded by optional whitespace. -/
def parseRaw (s : String) : Option JVal :=
  match parseValue (s.data.length + 1) (skipSpace s.data) with
  | none => none
  | some (v, r) => if skipSpace r = [] then some v else none

/-! ### Numbers as `float64`

`encoding/json` converts a number of the document with
`strconv.ParseFloat(s, 64)`.  A finite double is `mant * 2 ^ (j - 1074)` with
`mant < 2 ^ 53`, and `2 ^ 52 ≤ mant` unless `j = 0`; the largest one has
`j = 2045`.  The decimal `m * 10 ^ e` is the fraction
`decNum m e / decDen e`. -/

/-- Number of binary digits of a natural number, read 32 digits at a time. -/
def bitLenAux : Nat → Nat → Nat
  | 0, _ => 0
  | f + 1, n =>
    if n = 0 then 0
    else if n < 4294967296 then bitLenAux f (n / 2) + 1
    else bitLenAux f (n / 4294967296) + 32

/-- Number of binary digits of a natural number; zero has none. -/
def bitLen (n : Nat) : Nat := bitLenAux n n

/-- Numerator of the decimal `m * 10 ^ e`. -/
def decNum (m : Nat) (e : Int) : Nat := m * 10 ^ e.toNat

/-- Denominator of the decimal `m * 10 ^ e`. -/
def decDen (e : Int) : Nat := 10 ^ (-e).toNat

/-- Rounds the fraction `P / q` to 53 significant binary digits, to nearest
and to even on a tie: the result `(mant, k)` stands for `mant * 2 ^ k`. -/
def roundScaled (P q : Nat) : Nat × Nat :=
  let k := bitLen (P / q) - 53
  let d := q <<< k
  let m0 := P / d
  let r := P % d
  let m1 := if d < 2 * r ∨ (2 * r = d ∧ m0 % 2 = 1) then m0 + 1 else m0
  if m1 = 2 ^ 53 then (2 ^ 52, k + 1) else (m1, k)

/-- Binary digits below the unit of the smallest double, `2 ^ (-1074)`. -/
def scaleBits : Nat := 1074

/-- The double nearest to the decimal `m * 10 ^ e`, as `strconv.ParseFloat`
gives it: `(mant, j)` stands for `mant * 2 ^ (j - 1074)`.  A decimal that
rounds beyond the largest double has none: `ParseFloat` reports a range
error.  A decimal below the smallest double rounds to zero without an
error.  The exponent of the document is taken in full; `strconv` stops
reading an exponent beyond 10000, which differs only for a mantissa of
thousands of digits. -/
def roundFloat (m : Nat) (e : Int) : Option (Nat × Nat) :=
  if (roundScaled (decNum m e <<< scaleBits) (decDen e)).2 ≤ 2045 then
    some (roundScaled (decNum m e <<< scaleBits) (decDen e))
  else none

/-- Removes trailing decimal zeros of a mantissa into the exponent. -/
def stripZeros : Nat → Nat → Int → Nat × Int
  | 0, m, e => (m, e)
  | f + 1, m, e => if m % 10 = 0 then stripZeros f (m / 10) (e + 1) else (m, e)

/-- The decimal without trailing zeros in its mantissa; zero is `0 * 10 ^ 0`. -/
def normDecimal (m : Nat) (e : Int) : Nat × Int :=
  if m = 0 then (0, 0) else stripZeros m m e

/-- The exact decimal of the double `mant * 2 ^ (j - 1074)`. -/
def floatDecimal (mant j : Nat) : Nat × Int :=
  if mant = 0 then (0, 0)
  else
    normDecimal ((mant <<< (j - scaleBits)) * 5 ^ (scaleBits - j))
      (-((scaleBits - j : Nat) : Int))

/-- The exact decimal of the double a decimal is rounded to; a decimal out of
range is left as it is. -/
def normNumber (m : Nat) (e : Int) : Nat × Int :=
  match roundFloat m e with
  | some f => floatDecimal f.1 f.2
  | none => (m, e)

/-- Stores a key in a map kept as a list sorted by key; an existing entry is replaced. -/
def putField (k : String) (v : JVal) : List (String × JVal) → List (String × JVal)
  | [] => [(k, v)]
  | (k1, v1) :: t =>
    if k.data < k1.data then (k, v) :: (k1, v1) :: t
    else if k = k1 then (k, v) :: t
    else (k1, v1) :: putField k v t

mutual
/-- The Go value of a syntax tree: object members are stored in a map, a
later duplicate replacing an earlier one, and a number is the double it is
rounded to. -/
def normVal : JVal → JVal
  | JVal.null => JVal.null
  | JVal.bool b => JVal.bool b
  | JVal.num neg m e => JVal.num neg (normNumber m e).1 (normNumber m e).2
  | JVal.str s => JVal.str s
  | JVal.arr xs => JVal.arr (normElems xs)
  | JVal.obj kvs => JVal.obj (normMembers kvs [])
/-- Values of the elements of an array. -/
def normElems : List JVal → List JVal
  | [] => []
  | v :: vs => normVal v :: normElems vs
/-- Stores the members of an object into a map, in document order. -/
def normMembers : List (String × JVal) → List (String × JVal) → List (String × JVal)
  | [], acc => acc
  | (k, v) :: rest, acc => normMembers rest (putField k (normVal v) acc)
end

mutual
/-- Nesting of arrays and objects in a syntax tree. -/
def depth : JVal → Nat
  | JVal.arr xs => depthElems xs + 1
  | JVal.obj kvs => depthMembers kvs + 1
  | _ => 0
/-- Deepest nesting among the elements of an array. -/
def depthElems : List JVal → Nat
  | [] => 0
  | v :: vs => max (depth v) (depthElems vs)
/-- Deepest nesting among the members of an object. -/
def depthMembers : List (String × JVal) → Nat
  | [] => 0
  | (_, v) :: kvs => max (depth v) (depthMembers kvs)
end

/-- The nesting the scanner of `encoding/json` allows (`maxNestingDepth`); a
document nested deeper is refused with `exceeded max depth`. -/
def maxNestingDepth : Nat := 10000

mutual
/-- The numbers of a syntax tree, in document order. -/
def numbersOf : JVal → List (Nat × Int)
  | JVal.num _ m e => [(m, e)]
  | JVal.arr xs => numbersOfElems xs
  | JVal.obj kvs => numbersOfMembers kvs
  | _ => []
/-- The numbers of the elements of an array. -/
def numbersOfElems : List JVal → List (Nat × Int)
  | [] => []
  | v :: vs => numbersOf v ++ numbersOfElems vs
/-- The numbers of the members of an object. -/
def numbersOfMembers : List (String × JVal) → List (Nat × Int)
  | [] => []
  | (_, v) :: kvs => numbersOf v ++ numbersOfMembers kvs
end

/-- The decimal rounds to a finite double: it is in the range of `float64`. -/
def inRange (m : Nat) (e : Int) : Bool := (roundFloat m e).isSome

/-- Every number of a syntax tree is in the range of `float64`. -/
def rangeOk (v : JVal) : Bool := (numbersOf v).all (fun n => inRange n.1 n.2)

/-- Decoding of a document into an `interface{}` (`json.Unmarshal`): the
document is well formed, nested no deeper than the scanner allows, and all
its numbers are in the range of `float64`. -/
def parseJSON (s : String) : Option JVal :=
  match parseRaw s with
  | none => none
  | some v =>
    if depth v ≤ maxNestingDepth ∧ rangeOk v = true then some (normVal v) else none

/-- Digits of a natural number, least significant first. -/
def natDigitsRev : Nat → Nat → List Char
  | 0, n => [digitChar (n % 10)]
  | f + 1, n => if n < 10 then [digitChar n] else digitChar (n % 10) :: natDigitsRev f (n / 10)

/-- Decimal representation of a natural number. -/
def natDigits (n : Nat) : List Char := (natDigitsRev n n).reverse

/-- Decimal representation of an integer. -/
def intDigits (i : Int) : List Char :=
  if i < 0 then '-' :: natDigits i.natAbs else natDigits i.natAbs

/-- Order of two doubles that are not negative. -/
def floatLt (a b : Nat × Nat) : Bool := a.2 < b.2 || (a.2 == b.2 && a.1 < b.1)

/-- The shortest decimal that `strconv.ParseFloat` reads back to the double
`f`, found among the decimals that keep the leading digits of the exact
decimal `m * 10 ^ e` of `f` and drop its last `k` digits, for `k` from the
number of digits of `m` down to none.  Of the two decimals next to the exact
one, the nearer one is taken when both read back to `f`, the even one on a
tie. -/
def shortestDecimal (m : Nat) (e : Int) (f : Nat × Nat) : Nat → Nat × Int
  | 0 => (m, e)
  | k + 1 =>
    let lo := m / 10 ^ (k + 1)
    let r := m % 10 ^ (k + 1)
    let okLo : Bool := decide (lo ≠ 0) && decide (roundFloat lo (e + (k + 1 : Nat)) = some f)
    let okHi : Bool := decide (roundFloat (lo + 1) (e + (k + 1 : Nat)) = some f)
    if okLo && okHi then
      if 2 * r < 10 ^ (k + 1) ∨ (2 * r = 10 ^ (k + 1) ∧ lo % 2 = 0) then (lo, e + (k + 1 : Nat))
      else (lo + 1, e + (k + 1 : Nat))
    else if okLo then (lo, e + (k + 1 : Nat))
    else if okHi then (lo + 1, e + (k + 1 : Nat))
    else shortestDecimal m e f k

/-- Layout of `strconv` for the format `f`: the digits `ds` with the decimal
point after the first `dp` of them, padded with zeros. -/
def formatF (ds : List Char) (dp : Int) : List Char :=
  if dp ≤ 0 then '0' :: '.' :: (List.replicate (-dp).toNat '0' ++ ds)
  else if dp.toNat < ds.length then ds.take dp.toNat ++ '.' :: ds.drop dp.toNat
  else ds ++ List.replicate (dp.toNat - ds.length) '0'

/-- Layout of `strconv` for the format `e`, with the exponent as
`encoding/json` leaves it: a sign and no leading zero. -/
def formatE (ds : List Char) (dp : Int) : List Char :=
  match ds with
  | [] => []
  | d :: rest =>
    d :: ((if rest = [] then [] else '.' :: rest)
      ++ 'e' :: (if dp - 1 < 0 then '-' else '+') :: natDigits (dp - 1).natAbs)

/-- The double `1e-6`, below which `encoding/json` uses the format `e`. -/
def smallFloat : Nat × Nat := (roundFloat 1 (-6)).getD (0, 0)

/-- The double `1e21`, from which on `encoding/json` uses the format `e`. -/
def largeFloat : Nat × Nat := (roundFloat 1 21).getD (0, 0)

/-- Text that `json.Marshal` gives the double `f`, which is not zero: the
shortest decimal that reads back to it, in the format `e` when the double is
below `1e-6` or not below `1e21`, in the format `f` otherwise. -/
def printFloat (f : Nat × Nat) : List Char :=
  let x := floatDecimal f.1 f.2
  let c := shortestDecimal x.1 x.2 f (natDigits x.1).length
  if floatLt f smallFloat || !(floatLt f largeFloat) then
    formatE (natDigits c.1) (((natDigits c.1).length : Int) + c.2)
  else formatF (natDigits c.1) (((natDigits c.1).length : Int) + c.2)

/-- Text of a number without its sign: the text of the double the decimal
is rounded to, `0` for zero.  A decimal outside the range of `float64` is no
Go value; it is written with its mantissa and exponent. -/
def unsignedText (m : Nat) (e : Int) : List Char :=
  match roundFloat m e with
  | none => natDigits m ++ (if e = 0 then [] else 'e' :: intDigits e)
  | some f => if f.1 = 0 then ['0'] else printFloat f

/-- Text of a number as `json.Marshal` writes it: the sign, then the text of
the double. -/
def printNumber (neg : Bool) (m : Nat) (e : Int) : List Char :=
  (if neg then ['-'] else []) ++ unsignedText m e

/-- A hexadecimal digit, lower case. -/
def hexDigit (d : Nat) : Char := if d < 10 then Char.ofNat (48 + d) else Char.ofNat (87 + d)

/-- Text of one character of a string. -/
def escapeChar (c : Char) : List Char :=
  if c = '"' then ['\\', '"']
  else if c = '\\' then ['\\', '\\']
  else if c = '\n' then ['\\', 'n']
  else if c = '\r' then ['\\', 'r']
  else if c = '\t' then ['\\', 't']
  else if c.toNat < 32 ∨ c = '<' ∨ c = '>' ∨ c = '&' ∨ c.toNat = 0x2028 ∨ c.toNat = 0x2029 then
    ['\\', 'u', hexDigit (c.toNat / 4096), hexDigit (c.toNat / 256 % 16),
      hexDigit (c.toNat / 16 % 16), hexDigit (c.toNat % 16)]
  else [c]

/-- Text of a string, with both quotes. -/
def printString (s : List Char) : List Char :=
  '"' :: (s.flatMap escapeChar ++ ['"'])

mutual
/-- Text of a value, compact. -/
def printVal : JVal → List Char
  | JVal.null => ['n', 'u', 'l', 'l']
  | JVal.bool b => if b then ['t', 'r', 'u', 'e'] else ['f', 'a', 'l', 's', 'e']
  | JVal.num neg m e => printNumber neg m e
  | JVal.str s => printString s.data
  | JVal.arr xs => '[' :: printElems xs
  | JVal.obj kvs => '{' :: printMembers kvs
/-- Text of the elements of an array and the closing bracket. -/
def printElems : List JVal → List Char
  | [] => [']']
  | [v] => printVal v ++ [']']
  | v :: w :: rest => printVal v ++ ',' :: printElems (w :: rest)
/-- Text of the members of an object and the closing brace. -/
def printMembers : List (String × JVal) → List Char
  | [] => ['}']
  | [(k, v)] => printString k.data ++ ':' :: printVal v ++ ['}']
  | (k, v) :: kv :: rest => printString k.data ++ ':' :: printVal v ++ ',' :: printMembers (kv :: rest)
end

/-! ## Diagnostics

`diag.Diagnostics` of the plugin SDK: a list of diagnostics, the nil slice
being the empty list. -/

/-- Severity of a diagnostic. -/
inductive Severity where
  | Error
  | Warning

/-- One diagnostic. -/
structure Diagnostic where
  Severity : Severity
  Summary : String
  Detail : String

/-- The method `Diagnostics.HasError`: some diagnostic has severity `Error`. -/
def HasError (diags : List Diagnostic) : Bool :=
  diags.any (fun dg => match dg.Severity with
    | Severity.Error => true
    | Severity.Warning => false)

/-- The function `diag.FromErr`: one error diagnostic with the message of the error. -/
def FromErr (err : String) : List Diagnostic :=
  [{ Severity := Severity.Error, Summary := err, Detail := "" }]

/-! ## Data model

The package internal/models is not among the sources, and the two files do
not type against one declaration of it as they are written.  The reading
taken here:

* `Script.Lang` and `Script.ScriptSource` are assigned a string (lines 101
  and 106 of stored_script.go) and compared with nil (lines 165 and 168), so
  each holds a string or nothing.  Line 169 puts `ScriptSource` into a
  `map[string]string`, which types under no declaration that lines 106 and
  168 type under; it is read as storing the string the field holds.
* `StoredScript.Script` is compared with nil (line 162) and line 179 marshals
  `storedScript.Params`: both type when `StoredScript` embeds `*Script`, and
  then `storedScript.Params` is the field `Params` of `storedScript.Script`,
  the one line 178 tests.
* Line 149 calls `client.GetElasticsearchScript`; the client declares
  `GetElasticsearchStoredScript`, which is the method taken. -/

/-- Modelled from the spec: `models.Script` is declared in internal/models,
outside the sources.  The spec gives it a `lang`, an optional literal
`scriptSource`, an optional structured `searchTemplateSource` and optional
structured `params`; the code tests each field against nil, so each is an
option.  A nil map stored in a structured field is the value `JVal.null`. -/
structure Script where
  Lang : Option String
  ScriptSource : Option String
  SearchTemplateSource : Option JVal
  Params : Option JVal

/-- Modelled from the spec: `models.StoredScript` is declared in
internal/models, outside the sources: a `name` and an optional `script`, the
embedded `*Script`. -/
structure StoredScript where
  Name : String
  Script : Option Script

/-- The `source` block of the declared configuration: a map with the keys
`script` and `search_template`; `none` is a key that is not in the map. -/
structure DeclaredSource where
  script : Option String
  search_template : Option String

/-- The `script` block of the declared configuration: a map with the keys
`lang`, `source` and `params`.  The value of `source` is a `[]interface{}`
whose elements are maps or nil; the schema allows one element, and the SDK
hands a nil element for a block in which nothing is set. -/
structure DeclaredScript where
  lang : Option String
  source : Option (List (Option DeclaredSource))
  params : Option String

/-- The `schema.ResourceData` fields the resource reads and writes.  The
value of `script` is a `[]interface{}` whose elements are maps or nil; the
empty list is the zero value, for which `d.GetOk` answers false. -/
structure ResourceData where
  id : String
  name : String
  script : List (Option DeclaredScript)

/-- Modelled from the spec: `clients.CompositeId` is declared outside the
sources.  `ResourceId` is the field the resource functions read; `ClusterId`
stands for the connection scope of the spec. -/
structure CompositeId where
  ClusterId : String
  ResourceId : String

/-- Modelled from the spec: `CompositeId.String` is declared outside the
sources; the spec writes a composed id as `<scope>/<name>`. -/
def CompositeId.String (c : CompositeId) : String :=
  c.ClusterId ++ "/" ++ c.ResourceId

/-- A response of the remote store. -/
structure Response where
  StatusCode : Nat
  Body : String

/-- A request issued to the remote store.  `put` and `get` are the transport
calls of the two client methods; `delete` is the call of the client's delete
method, with the resource name it is given. -/
inductive Call where
  | put (name : String) (body : String)
  | get (id : String)
  | delete (id : String)

/-- The API client.  `PutScript` and `GetScript` are the transport calls of
`a.es`; a response may depend on the requests issued so far.  `ID` and
`DeleteElasticsearchStoredScript` are methods declared outside the sources. -/
structure ApiClient where
  PutScript : List Call → String → String → Except String Response
  GetScript : List Call → String → Except String Response
  ID : String → CompositeId × List Diagnostic
  DeleteElasticsearchStoredScript : List Call → String → List Diagnostic

/-- What the resource functions use and the sources do not declare:
`clients.NewApiClient`, `clients.CompositeIdFromStr`, `utils.CheckError` and
the JSON form of `models.StoredScript`. -/
structure Env where
  NewApiClient : Except String ApiClient
  CompositeIdFromStr : String → CompositeId × List Diagnostic
  CheckError : Response → String → List Diagnostic
  marshalStoredScript : StoredScript → Except String String
  decodeStoredScript : String → Except String StoredScript

/-- How a step of the encoding ends when it yields no value: with an error
that the function returns as a diagnostic, or with a run-time panic. -/
inductive Failure where
  | error (err : String)
  | panic (msg : String)

/-- Outcome of a resource function: it returns, or it panics after the
requests of `log` have been issued. -/
inductive Run (α : Type) where
  | returned (a : α)
  | panicked (msg : String) (log : List Call)

/-! ## encoding/json entry points -/

/-- Text produced by `json.Marshal`; map keys are written in sorted order. -/
def marshalText (v : JVal) : String := String.mk (printVal (normVal v))

/-- The function `json.Marshal` on a decoded value; it does not fail on such a value. -/
def jsonMarshal (v : JVal) : Except String String := Except.ok (marshalText v)

/-- Stands for the text of a `json.SyntaxError`.  Go's text names the
character the scanner stopped at and what it was looking for, or is
`unexpected end of JSON input`; the one text here stands for all of them. -/
def syntaxErrorText : String := "invalid character in JSON input"

/-- Text of the `json.UnmarshalTypeError` for a document that is not an object. -/
def typeErrorText (kind : String) : String :=
  "json: cannot unmarshal " ++ kind ++ " into Go value of type map[string]interface \x7b\x7d"

/-- Characters a number of a document is made of. -/
def isNumberChar (c : Char) : Bool :=
  isDigit c || c = '-' || c = '+' || c = '.' || c = 'e' || c = 'E'

/-- The numbers of a well-formed document as they are written, in document
order.  The flags tell whether the scan is inside a string and after a
backslash; `cur` holds the characters of the number being read, last first. -/
def numberTexts : List Char → Bool → Bool → List Char → List String
  | [], _, _, cur => if cur = [] then [] else [String.mk cur.reverse]
  | c :: cs, inString, escaped, cur =>
    if inString then
      if escaped then numberTexts cs true false []
      else if c = '\\' then numberTexts cs true true []
      else if c = '"' then numberTexts cs false false []
      else numberTexts cs true false []
    else if cur = [] then
      if c = '"' then numberTexts cs true false []
      else if c = '-' ∨ isDigit c = true then numberTexts cs false false [c]
      else numberTexts cs false false []
    else if isNumberChar c then numberTexts cs false false (c :: cur)
    else if c = '"' then String.mk cur.reverse :: numberTexts cs true false []
    else String.mk cur.reverse :: numberTexts cs false false []

/-- The text of the first number that is outside the range of `float64`. -/
def firstOutOfRange : List (Nat × Int) → List String → Option String
  | (m, e) :: ns, t :: ts => if inRange m e then firstOutOfRange ns ts else some t
  | _, _ => none

/-- Text of the `json.UnmarshalTypeError` for a number outside the range of
`float64`: it quotes the first such number of the document. -/
def rangeErrorText (s : String) (raw : JVal) : String :=
  match firstOutOfRange (numbersOf raw) (numberTexts s.data false false []) with
  | some t => "json: cannot unmarshal number " ++ t ++ " into Go value of type float64"
  | none => "json: cannot unmarshal number into Go value of type float64"

/-- The function `json.Unmarshal` into a `map[string]interface{}`.  The
document is checked first: it is well formed and nested no deeper than the
scanner allows.  Then an object fills the map, `null` leaves a nil map, and
any other value is a type error; a number of the object outside the range of
`float64` is a type error as well. -/
def jsonUnmarshalMap (s : String) : Except String JVal :=
  match parseRaw s with
  | none => Except.error syntaxErrorText
  | some raw =>
    if maxNestingDepth < depth raw then Except.error "exceeded max depth"
    else
      match raw with
      | JVal.null => Except.ok JVal.null
      | JVal.obj kvs =>
        if rangeOk (JVal.obj kvs) = true then Except.ok (normVal (JVal.obj kvs))
        else Except.error (rangeErrorText s (JVal.obj kvs))
      | JVal.arr _ => Except.error (typeErrorText "array")
      | JVal.str _ => Except.error (typeErrorText "string")
      | JVal.num _ _ _ => Except.error (typeErrorText "number")
      | JVal.bool _ => Except.error (typeErrorText "bool")

/-! ## The codec of internal/elasticsearch/script/stored_script.go -/

/-- The expression `v.([]interface{})[0].(map[string]interface{})` of lines
99 and 104: the first element of the list, which is a map.  An empty list
and a nil element make it panic. -/
def firstBlock {α : Type} : List (Option α) → Except Failure α
  | [] => Except.error (Failure.panic "runtime error: index out of range [0] with length 0")
  | none :: _ =>
    Except.error
      (Failure.panic "interface conversion: interface \x7b\x7d is nil, not map[string]interface \x7b\x7d")
  | some block :: _ => Except.ok block

/-- The `source` part of the encoding in `resourceStoredScriptPut`, on the
map of the source block. -/
def encodeSource (definedSource : DeclaredSource) (script : Script) : Except Failure Script :=
  let script1 : Script :=
    match definedSource.script with
    | some scriptSource => { script with ScriptSource := some scriptSource }
    | none => script
  match definedSource.search_template with
  | some searchTemplateSource =>
    if searchTemplateSource ≠ "" then
      match jsonUnmarshalMap searchTemplateSource with
      | Except.error err => Except.error (Failure.error err)
      | Except.ok searchTemplateSourceObject =>
        Except.ok { script1 with SearchTemplateSource := some searchTemplateSourceObject }
    else Except.ok script1
  | none => Except.ok script1

/-- The `params` part of the encoding in `resourceStoredScriptPut`. -/
def encodeParams (definedScript : DeclaredScript) (script : Script) : Except Failure Script :=
  match definedScript.params with
  | some params =>
    if params ≠ "" then
      match jsonUnmarshalMap params with
      | Except.error err => Except.error (Failure.error err)
      | Except.ok paramsObject => Except.ok { script with Params := some paramsObject }
    else Except.ok script
  | none => Except.ok script

/-- The encoding step of `resourceStoredScriptPut`: the `models.Script` built
from the declared `script` block. -/
def encodeScript (definedScript : DeclaredScript) : Except Failure Script :=
  let script0 : Script :=
    { Lang := none, ScriptSource := none, SearchTemplateSource := none, Params := none }
  let script1 : Script :=
    match definedScript.lang with
    | some lang => { script0 with Lang := some lang }
    | none => script0
  let sourced : Except Failure Script :=
    match definedScript.source with
    | some source =>
      match firstBlock source with
      | Except.error f => Except.error f
      | Except.ok definedSource => encodeSource definedSource script1
    | none => Except.ok script1
  match sourced with
  | Except.error f => Except.error f
  | Except.ok script2 => encodeParams definedScript script2

/-- The `storedScript` that `resourceStoredScriptPut` passes to the client:
its name is set, the encoded `script` is built and not stored in it. -/
def buildStoredScript (d : ResourceData) : Except Failure StoredScript :=
  let storedScript : StoredScript := { Name := d.name, Script := none }
  match d.script with
  | [] => Except.ok storedScript
  | v :: vs =>
    match firstBlock (v :: vs) with
    | Except.error f => Except.error f
    | Except.ok definedScript =>
      match encodeScript definedScript with
      | Except.error f => Except.error f
      | Except.ok _ => Except.ok storedScript

/-- The rendering in `resourceStoredScriptRead`: the declared shape of a
`models.Script`.  Line 179 marshals `storedScript.Params`, which is the field
`Params` of the script that is rendered. -/
def renderScript (s : Script) : Except String DeclaredScript :=
  let b0 : DeclaredScript := { lang := none, source := none, params := none }
  let b1 : DeclaredScript :=
    match s.Lang with
    | some lang => { b0 with lang := some lang }
    | none => b0
  let b2 : DeclaredScript :=
    match s.ScriptSource with
    | some scriptSource =>
      { b1 with source := some [some { script := some scriptSource, search_template := none }] }
    | none => b1
  let templated : Except String DeclaredScript :=
    match s.SearchTemplateSource with
    | some searchTemplateSource =>
      match jsonMarshal searchTemplateSource with
      | Except.error err => Except.error err
      | Except.ok source =>
        Except.ok
          { b2 with source := some [some { script := none, search_template := some source }] }
    | none => Except.ok b2
  match templated with
  | Except.error err => Except.error err
  | Except.ok b3 =>
    match s.Params with
    | some paramsValue =>
      match jsonMarshal paramsValue with
      | Except.error err => Except.error err
      | Except.ok params => Except.ok { b3 with params := some params }
    | none => Except.ok b3

/-! ## internal/clients/script.go -/

/-- The method `ApiClient.PutElasticsearchStoredScript`: marshals the stored
script, sends it under its name, and returns the diagnostics of `CheckError`
when they hold an error, nil otherwise.  The request is added to the log. -/
def PutElasticsearchStoredScript (env : Env) (a : ApiClient) (script : StoredScript)
    (log : List Call) : List Diagnostic × List Call :=
  match env.marshalStoredScript script with
  | Except.error err => (FromErr err, log)
  | Except.ok scriptBytes =>
    match a.PutScript log script.Name scriptBytes with
    | Except.error err => (FromErr err, log ++ [Call.put script.Name scriptBytes])
    | Except.ok res =>
      if HasError (env.CheckError res "Unable to create or update a stored script") then
        (env.CheckError res "Unable to create or update a stored script",
          log ++ [Call.put script.Name scriptBytes])
      else ([], log ++ [Call.put script.Name scriptBytes])

/-- The method `ApiClient.GetElasticsearchStoredScript`: a 404 yields no stored
script and an error diagnostic; any other response goes through `CheckError`
and is then decoded.  The request is added to the log. -/
def GetElasticsearchStoredScript (env : Env) (a : ApiClient) (scriptId : String)
    (log : List Call) : (Option StoredScript × List Diagnostic) × List Call :=
  match a.GetScript log scriptId with
  | Except.error err => ((none, FromErr err), log ++ [Call.get scriptId])
  | Except.ok res =>
    if res.StatusCode = 404 then
      ((none, [{ Severity := Severity.Error,
                 Summary := "Unable to find a stored script in the cluster.",
                 Detail := "Unable to get stored script: '" ++ scriptId ++ "' from the cluster." }]),
        log ++ [Call.get scriptId])
    else if HasError (env.CheckError res "Unable to get a stored script.") then
      ((none, env.CheckError res "Unable to get a stored script."), log ++ [Call.get scriptId])
    else
      match env.decodeStoredScript res.Body with
      | Except.error err => ((none, FromErr err), log ++ [Call.get scriptId])
      | Except.ok storedScript => ((some storedScript, []), log ++ [Call.get scriptId])

/-! ## The resource functions of internal/elasticsearch/script/stored_script.go -/

/-- The function `resourceStoredScriptRead`.  The source names the fetch
`GetElasticsearchScript`; the client declares `GetElasticsearchStoredScript`,
which is the one called here.  A nil stored script with nil diagnostics clears
the id; a nil stored script with diagnostics that hold no error would be
dereferenced, which is the last case of the first branch: the client never
returns such a pair, so the case is not reached.  `d.Set` is taken to
succeed. -/
def resourceStoredScriptRead (env : Env) (d : ResourceData) (log : List Call) :
    List Diagnostic × ResourceData × List Call :=
  match env.NewApiClient with
  | Except.error err => (FromErr err, d, log)
  | Except.ok client =>
    if HasError (env.CompositeIdFromStr d.id).2 then ((env.CompositeIdFromStr d.id).2, d, log)
    else
      let storedScriptId := (env.CompositeIdFromStr d.id).1.ResourceId
      match GetElasticsearchStoredScript env client storedScriptId log with
      | ((none, diags), log1) =>
        if diags.isEmpty then (diags, { d with id := "" }, log1)
        else if HasError diags then (diags, d, log1)
        else (FromErr "invalid memory address or nil pointer dereference", d, log1)
      | ((some storedScript, diags), log1) =>
        if HasError diags then (diags, d, log1)
        else
          match storedScript.Script with
          | some script =>
            match renderScript script with
            | Except.error err => (FromErr err, { d with name := storedScriptId }, log1)
            | Except.ok rendered =>
              (diags, { d with name := storedScriptId, script := [some rendered] }, log1)
          | none => (diags, { d with name := storedScriptId }, log1)

/-- The function `resourceStoredScriptPut`: builds the stored script, writes
it, sets the id to the composed id and reads the resource back.  A panic of
the encoding ends the function before any request is issued. -/
def resourceStoredScriptPut (env : Env) (d : ResourceData) (log : List Call) :
    Run (List Diagnostic × ResourceData × List Call) :=
  match env.NewApiClient with
  | Except.error err => Run.returned (FromErr err, d, log)
  | Except.ok client =>
    if HasError (client.ID d.name).2 then Run.returned ((client.ID d.name).2, d, log)
    else
      match buildStoredScript d with
      | Except.error (Failure.error err) => Run.returned (FromErr err, d, log)
      | Except.error (Failure.panic msg) => Run.panicked msg log
      | Except.ok storedScript =>
        match PutElasticsearchStoredScript env client storedScript log with
        | (diags, log1) =>
          if HasError diags then Run.returned (diags, d, log1)
          else
            Run.returned
              (resourceStoredScriptRead env { d with id := (client.ID d.name).1.String } log1)

/-- The function `resourceStoredScriptDelete`: parses the id, calls the
client's delete with the parsed resource name, and clears the id when the
delete reports no error. -/
def resourceStoredScriptDelete (env : Env) (d : ResourceData) (log : List Call) :
    List Diagnostic × ResourceData × List Call :=
  match env.NewApiClient with
  | Except.error err => (FromErr err, d, log)
  | Except.ok client =>
    if HasError (env.CompositeIdFromStr d.id).2 then ((env.CompositeIdFromStr d.id).2, d, log)
    else
      let resourceId := (env.CompositeIdFromStr d.id).1.ResourceId
      let diags := client.DeleteElasticsearchStoredScript log resourceId
      if HasError diags then (diags, d, log ++ [Call.delete resourceId])
      else ((env.CompositeIdFromStr d.id).2, { d with id := "" }, log ++ [Call.delete resourceId])

/-! ## Normal form of the encoding -/

/-- A string field that is present and not empty. -/
def populated : Option String → Option String
  | some t => if t ≠ "" then some t else none
  | none => none

/-- The map of the source block, when the block is there as a map. -/
def sourceMap (d : DeclaredScript) : Option DeclaredSource :=
  match d.source with
  | some (some definedSource :: _) => some definedSource
  | _ => none

/-- The panic of the encoding on the source block: the key is there and its
list is empty or starts with a nil element. -/
def sourceFailure (d : DeclaredScript) : Option Failure :=
  match d.source with
  | some source =>
    match firstBlock source with
    | Except.error f => some f
    | Except.ok _ => none
  | none => none

/-- The populated `search_template` string of a declared block. -/
def templateOf (d : DeclaredScript) : Option String :=
  match sourceMap d with
  | some definedSource => populated definedSource.search_template
  | none => none

/-- The populated `params` string of a declared block. -/
def paramsOf (d : DeclaredScript) : Option String := populated d.params

/-- The `script` key of the source block of a declared block. -/
def literalOf (d : DeclaredScript) : Option String :=
  match sourceMap d with
  | some definedSource => definedSource.script
  | none => none

/-- The structured value of a string field: unset when the field is not
populated, decoded into a map when it is. -/
def fieldValue : Option String → Except String (Option JVal)
  | none => Except.ok none
  | some t =>
    match jsonUnmarshalMap t with
    | Except.error err => Except.error err
    | Except.ok v => Except.ok (some v)

/-- The encoding, field by field. -/
def encodeFields (d : DeclaredScript) : Except Failure Script :=
  match sourceFailure d with
  | some f => Except.error f
  | none =>
    match fieldValue (templateOf d) with
    | Except.error err => Except.error (Failure.error err)
    | Except.ok tv =>
      match fieldValue (paramsOf d) with
      | Except.error err => Except.error (Failure.error err)
      | Except.ok pv =>
        Except.ok { Lang := d.lang, ScriptSource := literalOf d, SearchTemplateSource := tv,
                    Params := pv }

/-- The document decodes into a `map[string]interface{}`: it is well formed,
nested no deeper than the decoder allows, its numbers are in the range of
`float64`, and it is an object or `null`. -/
def DecodesToMap (s : String) : Prop :=
  parseJSON s = some JVal.null ∨ ∃ kvs, parseJSON s = some (JVal.obj kvs)

/-- Splits an id at every `/`. -/
def splitSlash : List Char → List (List Char)
  | [] => [[]]
  | c :: cs =>
    if c = '/' then [] :: splitSlash cs
    else
      match splitSlash cs with
      | [] => [[c]]
      | p :: ps => (c :: p) :: ps

/-- Modelled from the spec: `clients.CompositeIdFromStr` is declared outside
the sources.  The spec writes an id as `<scope>/<name>` and has the parse
fail when that separator structure cannot be recovered. -/
def specCompositeIdFromStr (id : String) : CompositeId × List Diagnostic :=
  match splitSlash id.data with
  | [a, b] => ({ ClusterId := String.mk a, ResourceId := String.mk b }, [])
  | _ =>
    ({ ClusterId := "", ResourceId := "" },
      [{ Severity := Severity.Error, Summary := "Wrong resource ID.",
         Detail := "Resource ID must have following format: <cluster_uuid>/<resource identifier>" }])

/-- Modelled from the spec: `utils.CheckError` is declared outside the
sources.  The spec: success is any 2xx, and a non-2xx body is surfaced as the
remote-reported error detail. -/
def specCheckError (res : Response) (msg : String) : List Diagnostic :=
  if 200 ≤ res.StatusCode ∧ res.StatusCode < 300 then []
  else [{ Severity := Severity.Error, Summary := msg, Detail := res.Body }]

/-- A member of an object when the value is set. -/
def optMember (k : String) : Option JVal → List (String × JVal)
  | some v => [(k, v)]
  | none => []

/-- Modelled from the spec: the wire form of `models.Script`, with the keys
`lang`, `script` for the literal form, `source` for the template form, and
`params`. -/
def wireScript (sc : Script) : JVal :=
  JVal.obj (optMember "lang" (sc.Lang.map JVal.str)
    ++ optMember "script" (sc.ScriptSource.map JVal.str)
    ++ optMember "source" sc.SearchTemplateSource
    ++ optMember "params" sc.Params)

/-- Modelled from the spec: the request body nests the script under the key `script`. -/
def specMarshalStoredScript (st : StoredScript) : Except String String :=
  match st.Script with
  | some sc => jsonMarshal (JVal.obj [("script", wireScript sc)])
  | none => jsonMarshal (JVal.obj [("script", JVal.null)])

/-- Value of a key of an object. -/
def member (k : String) : List (String × JVal) → Option JVal
  | [] => none
  | (k1, v) :: rest => if k1 = k then some v else member k rest

/-- A string member of an object. -/
def stringMember (k : String) (kvs : List (String × JVal)) : Option String :=
  match member k kvs with
  | some (JVal.str s) => some s
  | _ => none

/-- Modelled from the spec: decoding of a response body into
`models.StoredScript`; a key that is absent leaves its field unset. -/
def specDecodeStoredScript (body : String) : Except String StoredScript :=
  match parseJSON body with
  | some (JVal.obj kvs) =>
    match member "script" kvs with
    | some (JVal.obj fs) =>
      Except.ok
        { Name := ""
          Script := some
            { Lang := stringMember "lang" fs, ScriptSource := stringMember "script" fs,
              SearchTemplateSource := member "source" fs, Params := member "params" fs } }
    | _ => Except.ok { Name := "", Script := none }
  | _ => Except.error "unexpected end of JSON input"

/-- The body the store holds under a name after the requests issued so far. -/
def storedBody (name : String) : List Call → Option String → Option String
  | [], st => st
  | Call.put n b :: rest, st => storedBody name rest (if n = name then some b else st)
  | Call.delete n :: rest, st => storedBody name rest (if n = name then none else st)
  | Call.get _ :: rest, st => storedBody name rest st

/-- A store that keeps the last body written under each name. -/
def demoClient : ApiClient :=
  { PutScript := fun _ _ _ => Except.ok { StatusCode := 200, Body := "\x7b\"acknowledged\":true\x7d" }
    GetScript := fun log id =>
      match storedBody id log none with
      | some b => Except.ok { StatusCode := 200, Body := b }
      | none => Except.ok { StatusCode := 404, Body := "\x7b\"found\":false\x7d" }
    ID := fun name => ({ ClusterId := "cluster", ResourceId := name }, [])
    DeleteElasticsearchStoredScript := fun _ _ => [] }

/-- The environment of the concrete store. -/
def demoEnv : Env :=
  { NewApiClient := Except.ok demoClient
    CompositeIdFromStr := specCompositeIdFromStr
    CheckError := specCheckError
    marshalStoredScript := specMarshalStoredScript
    decodeStoredScript := specDecodeStoredScript }

/-- A declared script block with a literal script. -/
def literalBlock : DeclaredScript :=
  { lang := some "painless"
    source := some [some { script := some "Math.log(_score * 2) + params.my_modifier",
                           search_template := some "" }]
    params := some "\x7b\"my_modifier\": 2\x7d" }

/-- A declared script block with a search template; the `script` key holds the empty string. -/
def templateBlock : DeclaredScript :=
  { lang := some "mustache"
    source := some [some { script := some "",
                           search_template := some "\x7b\"query\":\x7b\"match\":\x7b\"f\":\"\x7b\x7bv\x7d\x7d\"\x7d\x7d\x7d" }]
    params := some "\x7b\x7d" }

/-- A declared script block that supplies both source variants. -/
def bothBlock : DeclaredScript :=
  { lang := some "mustache"
    source := some [some { script := some "1 + 1", search_template := some "\x7b\"query\":\x7b\x7d\x7d" }]
    params := some "\x7b\x7d" }

/-- A declared script block that supplies no source variant. -/
def neitherBlock : DeclaredScript :=
  { lang := some "painless"
    source := some [some { script := some "", search_template := some "" }]
    params := some "\x7b\x7d" }

/-- A declared script block whose params string is empty. -/
def noParamsBlock : DeclaredScript :=
  { lang := some "painless"
    source := some [some { script := some "1 + 1", search_template := some "" }]
    params := some "" }

/-- A declared script block whose search template is a JSON array. -/
def arrayTemplateBlock : DeclaredScript :=
  { lang := some "mustache"
    source := some [some { script := some "", search_template := some "[1]" }]
    params := some "\x7b\x7d" }

/-- A declared configuration that has not been created. -/
def newData : ResourceData := { id := "", name := "sum_script", script := [some literalBlock] }

/-- A recorded resource. -/
def knownData : ResourceData :=
  { id := "cluster/sum_script", name := "sum_script", script := [some literalBlock] }

/-- A recorded resource whose id has no separator. -/
def brokenData : ResourceData :=
  { id := "sum_script", name := "sum_script", script := [some literalBlock] }

/-- A declared script block whose params hold a fraction and an integer. -/
def rateBlock : DeclaredScript :=
  { lang := some "painless"
    source := some [some { script := some "doc['price'].value * params.rate",
                           search_template := none }]
    params := some "\x7b\"size\": 100, \"rate\": 0.1\x7d" }

/-- A declared script block whose source block has nothing set: the list of
the `source` key holds a nil element. -/
def emptySourceBlock : DeclaredScript :=
  { lang := some "painless"
    source := some [none]
    params := some "\x7b\x7d" }

/-- A declared script block whose params hold a number beyond the largest double. -/
def hugeNumberBlock : DeclaredScript :=
  { lang := some "painless"
    source := some [some { script := some "1 + 1", search_template := some "" }]
    params := some "\x7b\"a\":1e400\x7d" }

/-- A declared script block whose search template holds a number beyond the
largest double. -/
def hugeTemplateBlock : DeclaredScript :=
  { lang := some "mustache"
    source := some [some { script := some "", search_template := some "\x7b\"size\":1e400\x7d" }]
    params := some "\x7b\x7d" }

/-- A store that refuses every write with status 500. -/
def refusingClient : ApiClient :=
  { PutScript := fun _ _ _ => Except.ok { StatusCode := 500, Body := "\x7b\"error\":\"rejected\"\x7d" }
    GetScript := fun _ _ => Except.ok { StatusCode := 404, Body := "\x7b\"found\":false\x7d" }
    ID := fun name => ({ ClusterId := "cluster", ResourceId := name }, [])
    DeleteElasticsearchStoredScript := fun _ _ => [] }

/-- The environment of the store that refuses every write. -/
def refusingEnv : Env :=
  { NewApiClient := Except.ok refusingClient
    CompositeIdFromStr := specCompositeIdFromStr
    CheckError := specCheckError
    marshalStoredScript := specMarshalStoredScript
    decodeStoredScript := specDecodeStoredScript }

/-- A store whose transport fails on every write. -/
def unreachableClient : ApiClient :=
  { PutScript := fun _ _ _ => Except.error "dial tcp: connection refused"
    GetScript := fun _ _ => Except.error "dial tcp: connection refused"
    ID := fun name => ({ ClusterId := "cluster", ResourceId := name }, [])
    DeleteElasticsearchStoredScript := fun _ _ => [] }

/-- The environment of the store that cannot be reached. -/
def unreachableEnv : Env :=
  { NewApiClient := Except.ok unreachableClient
    CompositeIdFromStr := specCompositeIdFromStr
    CheckError := specCheckError
    marshalStoredScript := specMarshalStoredScript
    decodeStoredScript := specDecodeStoredScript }

/-! ## Predicates and measures of the proofs -/

/-- The next character does not continue a run of digits. -/
def DigitsEnd (rest : List Char) : Prop := ∀ c t, rest = c :: t → isDigit c = false

/-- A finite double: at most 53 binary digits, all 53 of them unless the exponent is
the lowest one, and an exponent up to the highest one. -/
def IsFloat (mant j : Nat) : Prop := mant < 2 ^ 53 ∧ (2 ^ 52 ≤ mant ∨ j = 0) ∧ j ≤ 2045

/-- The next character does not continue a number. -/
def NumEnd (rest : List Char) : Prop :=
  ∀ c t, rest = c :: t → isDigit c = false ∧ c ≠ '.' ∧ c ≠ 'e' ∧ c ≠ 'E'

/-- Text of the exponent of a number that is written with its mantissa. -/
def expText (e : Int) : List Char := if e = 0 then [] else 'e' :: intDigits e

/-- The decimal the decoder reads from the text of the double `f`, which is
not zero: the shortest decimal as it is written, with the zeros that pad it
in the format `f` taken into the mantissa. -/
def readBack (f : Nat × Nat) : Nat × Int :=
  if floatLt f smallFloat || !(floatLt f largeFloat) then
    shortestDecimal (floatDecimal f.1 f.2).1 (floatDecimal f.1 f.2).2 f
      (natDigits (floatDecimal f.1 f.2).1).length
  else if 0 ≤ (shortestDecimal (floatDecimal f.1 f.2).1 (floatDecimal f.1 f.2).2 f
      (natDigits (floatDecimal f.1 f.2).1).length).2 then
    ((shortestDecimal (floatDecimal f.1 f.2).1 (floatDecimal f.1 f.2).2 f
        (natDigits (floatDecimal f.1 f.2).1).length).1
      * 10 ^ (shortestDecimal (floatDecimal f.1 f.2).1 (floatDecimal f.1 f.2).2 f
        (natDigits (floatDecimal f.1 f.2).1).length).2.toNat, 0)
  else
    shortestDecimal (floatDecimal f.1 f.2).1 (floatDecimal f.1 f.2).2 f
      (natDigits (floatDecimal f.1 f.2).1).length

/-- The decimal the decoder reads from the text of a number. -/
def rereadNumber (m : Nat) (e : Int) : Nat × Int :=
  match roundFloat m e with
  | none => (m, e)
  | some f => if f.1 = 0 then (0, 0) else readBack f

mutual
/-- The syntax tree the decoder builds from the text of a value: a number is
the decimal read from its text. -/
def reread : JVal → JVal
  | JVal.null => JVal.null
  | JVal.bool b => JVal.bool b
  | JVal.num neg m e => JVal.num neg (rereadNumber m e).1 (rereadNumber m e).2
  | JVal.str s => JVal.str s
  | JVal.arr xs => JVal.arr (rereadElems xs)
  | JVal.obj kvs => JVal.obj (rereadMembers kvs)
/-- The syntax trees of the elements of an array. -/
def rereadElems : List JVal → List JVal
  | [] => []
  | v :: vs => reread v :: rereadElems vs
/-- The syntax trees of the members of an object. -/
def rereadMembers : List (String × JVal) → List (String × JVal)
  | [] => []
  | (k, v) :: kvs => (k, reread v) :: rereadMembers kvs
end

mutual
/-- Number of nodes of a value: the fuel its decoding needs. -/
def jsize : JVal → Nat
  | JVal.null => 1
  | JVal.bool _ => 1
  | JVal.num _ _ _ => 1
  | JVal.str _ => 1
  | JVal.arr xs => 1 + jsizeElems xs
  | JVal.obj kvs => 1 + jsizeMembers kvs
/-- Nodes of the elements of an array. -/
def jsizeElems : List JVal → Nat
  | [] => 0
  | v :: vs => 1 + jsize v + jsizeElems vs
/-- Nodes of the members of an object. -/
def jsizeMembers : List (String × JVal) → Nat
  | [] => 0
  | (_, v) :: kvs => 1 + jsize v + jsizeMembers kvs
end

/-- What follows an element of an array. -/
def elemsTail : List JVal → List Char
  | [] => [']']
  | w :: rest => ',' :: printElems (w :: rest)

/-- What follows a member of an object. -/
def membersTail : List (String × JVal) → List Char
  | [] => ['}']
  | kv :: rest => ',' :: printMembers (kv :: rest)

/-- First characters of the text of a value. -/
def ValueStart (c : Char) : Prop :=
  c = '"' ∨ c = '[' ∨ c = '{' ∨ c = 't' ∨ c = 'f' ∨ c = 'n' ∨ c = '-' ∨ isDigit c = true

/-- Keys strictly ascending. -/
def SortedKeys (kvs : List (String × JVal)) : Prop :=
  kvs.Pairwise (fun a b => a.1.data < b.1.data)

/-- The decimal is the exact decimal of a double. -/
def CanonNumber (m : Nat) (e : Int) : Prop :=
  inRange m e = true ∧ normNumber m e = (m, e)

mutual
/-- A value in the form the decoder produces: every number is the exact
decimal of a double, members are sorted by key. -/
def Canon : JVal → Prop
  | JVal.null => True
  | JVal.bool _ => True
  | JVal.num _ m e => CanonNumber m e
  | JVal.str _ => True
  | JVal.arr xs => CanonElems xs
  | JVal.obj kvs => CanonMembers kvs ∧ SortedKeys kvs
/-- All elements are canonical. -/
def CanonElems : List JVal → Prop
  | [] => True
  | v :: vs => Canon v ∧ CanonElems vs
/-- All member values are canonical. -/
def CanonMembers : List (String × JVal) → Prop
  | [] => True
  | (_, v) :: kvs => Canon v ∧ CanonMembers kvs
end

/-- Every number of the list is in the range of `float64`. -/
def AllInRange (ns : List (Nat × Int)) : Prop := ∀ n ∈ ns, inRange n.1 n.2 = true

/-! ## Decimal digits -/

theorem isDigit_digitChar (d : Nat) (h : d < 10) : isDigit (digitChar d) = true := by
  interval_cases d <;> decide

theorem digitVal_digitChar (d : Nat) (h : d < 10) : digitVal (digitChar d) = d := by
  interval_cases d <;> decide

theorem digitChar_ne_zero (d : Nat) (h0 : 0 < d) (h : d < 10) : digitChar d ≠ '0' := by
  interval_cases d <;> decide

theorem readDigits_append (ds : List Char) (hds : ∀ c ∈ ds, isDigit c = true) :
    ∀ (rest : List Char) (acc cnt : Nat), DigitsEnd rest →
      readDigits (ds ++ rest) acc cnt
        = (ds.foldl (fun a c => a * 10 + digitVal c) acc, cnt + ds.length, rest) := by
  induction ds with
  | nil =>
    intro rest acc cnt hrest
    cases rest with
    | nil => simp [readDigits]
    | cons c t => simp [readDigits, hrest c t rfl]
  | cons d ds ih =>
    intro rest acc cnt hrest
    have hd : isDigit d = true := hds d (List.mem_cons_self _ _)
    have ih2 := ih (fun c hc => hds c (List.mem_cons_of_mem _ hc)) rest (acc * 10 + digitVal d) (cnt + 1) hrest
    simp [readDigits, hd, ih2]
    omega

theorem natDigitsRev_digits : ∀ (f n : Nat) (c : Char), c ∈ natDigitsRev f n → isDigit c = true := by
  intro f
  induction f with
  | zero =>
    intro n c hc
    simp [natDigitsRev] at hc
    subst hc
    exact isDigit_digitChar _ (Nat.mod_lt _ (by decide))
  | succ f ih =>
    intro n c hc
    unfold natDigitsRev at hc
    split at hc
    · simp at hc
      subst hc
      exact isDigit_digitChar _ (by assumption)
    · simp at hc
      rcases hc with hc | hc
      · subst hc
        exact isDigit_digitChar _ (Nat.mod_lt _ (by decide))
      · exact ih _ _ hc

theorem natDigitsRev_value : ∀ (f n : Nat), n ≤ f →
    (natDigitsRev f n).foldr (fun c a => a * 10 + digitVal c) 0 = n := by
  intro f
  induction f with
  | zero =>
    intro n hn
    have : n = 0 := by omega
    subst this
    decide
  | succ f ih =>
    intro n hn
    unfold natDigitsRev
    split
    · simp [digitVal_digitChar _ (by assumption)]
    · simp only [List.foldr_cons]
      rw [ih (n / 10) (by omega), digitVal_digitChar _ (Nat.mod_lt _ (by decide))]
      omega

theorem natDigits_digits (n : Nat) (c : Char) (hc : c ∈ natDigits n) : isDigit c = true := by
  unfold natDigits at hc
  exact natDigitsRev_digits n n c (List.mem_reverse.mp hc)

theorem natDigits_value (n acc : Nat) (hacc : acc = 0) :
    (natDigits n).foldl (fun a c => a * 10 + digitVal c) acc = n := by
  subst hacc
  unfold natDigits
  rw [List.foldl_reverse]
  exact natDigitsRev_value n n (Nat.le_refl _)

theorem natDigitsRev_last : ∀ (f n : Nat), 0 < n → n ≤ f →
    ∃ ds c, natDigitsRev f n = ds ++ [c] ∧ c ≠ '0' ∧ isDigit c = true := by
  intro f
  induction f with
  | zero => intro n h0 hn; omega
  | succ f ih =>
    intro n h0 hn
    unfold natDigitsRev
    split
    · exact ⟨[], digitChar n, rfl, digitChar_ne_zero n h0 (by assumption), isDigit_digitChar n (by assumption)⟩
    · obtain ⟨ds, c, h1, h2, h3⟩ := ih (n / 10) (by omega) (by omega)
      exact ⟨digitChar (n % 10) :: ds, c, by simp [h1], h2, h3⟩

theorem natDigits_pos (n : Nat) (h0 : 0 < n) :
    ∃ c t, natDigits n = c :: t ∧ c ≠ '0' ∧ isDigit c = true := by
  obtain ⟨ds, c, h1, h2, h3⟩ := natDigitsRev_last n n h0 (Nat.le_refl _)
  exact ⟨c, ds.reverse, by simp [natDigits, h1], h2, h3⟩

theorem natDigits_zero : natDigits 0 = ['0'] := by decide

theorem natDigits_head (n : Nat) : ∃ c t, natDigits n = c :: t ∧ isDigit c = true := by
  rcases Nat.eq_zero_or_pos n with h | h
  · subst h; exact ⟨'0', [], natDigits_zero, by decide⟩
  · obtain ⟨c, t, h1, _, h3⟩ := natDigits_pos n h
    exact ⟨c, t, h1, h3⟩

/-! ## Rounding to a double -/

theorem bitLenAux_spec : ∀ (f n : Nat), n ≤ f → 0 < n →
    0 < bitLenAux f n ∧ 2 ^ (bitLenAux f n - 1) ≤ n ∧ n < 2 ^ bitLenAux f n := by
  intro f
  induction f with
  | zero => intro n h1 h2; omega
  | succ f ih =>
    intro n h1 h2
    have hn : n ≠ 0 := by omega
    by_cases hsmall : n < 4294967296
    · simp only [bitLenAux, hn, hsmall, if_false, if_true, Nat.add_sub_cancel]
      by_cases h : n / 2 = 0
      · have hn1 : n = 1 := by omega
        subst hn1
        cases f with
        | zero => simp [bitLenAux]
        | succ f => simp [bitLenAux]
      · obtain ⟨hpos, ih1, ih2⟩ := ih (n / 2) (by omega) (by omega)
        refine ⟨by omega, ?_, ?_⟩
        · have : 2 ^ bitLenAux f (n / 2) = 2 ^ (bitLenAux f (n / 2) - 1) * 2 := by
            rw [← pow_succ]; congr 1; omega
          rw [this]
          omega
        · rw [pow_succ]
          omega
    · simp only [bitLenAux, hn, hsmall, if_false]
      obtain ⟨hpos, ih1, ih2⟩ := ih (n / 4294967296) (by omega) (by omega)
      have e1 : bitLenAux f (n / 4294967296) + 32 - 1 = (bitLenAux f (n / 4294967296) - 1) + 32 := by
        omega
      refine ⟨by omega, ?_, ?_⟩
      · rw [e1, pow_add]
        have : (2 : Nat) ^ 32 = 4294967296 := by norm_num
        rw [this]
        omega
      · rw [pow_add]
        have : (2 : Nat) ^ 32 = 4294967296 := by norm_num
        rw [this]
        omega

theorem bitLen_zero : bitLen 0 = 0 := by rfl

theorem bitLen_spec (n : Nat) (h : 0 < n) : 2 ^ (bitLen n - 1) ≤ n ∧ n < 2 ^ bitLen n :=
  (bitLenAux_spec n n (Nat.le_refl _) h).2

theorem bitLen_pos (n : Nat) (h : 0 < n) : 0 < bitLen n := by
  rcases Nat.eq_zero_or_pos (bitLen n) with h0 | h0
  · have := (bitLen_spec n h).2
    rw [h0] at this
    simp at this
    omega
  · exact h0

theorem lt_pow_bitLen (n : Nat) : n < 2 ^ bitLen n := by
  rcases Nat.eq_zero_or_pos n with h | h
  · subst h; simp
  · exact (bitLen_spec n h).2

theorem bitLen_unique (n a : Nat) (h1 : 2 ^ a ≤ n) (h2 : n < 2 ^ (a + 1)) : bitLen n = a + 1 := by
  have hn : 0 < n := lt_of_lt_of_le (by positivity) h1
  obtain ⟨s1, s2⟩ := bitLen_spec n hn
  have hp := bitLen_pos n hn
  have hlt1 : 2 ^ a < 2 ^ bitLen n := lt_of_le_of_lt h1 s2
  have hlt2 : 2 ^ (bitLen n - 1) < 2 ^ (a + 1) := lt_of_le_of_lt s1 h2
  have e1 := (Nat.pow_lt_pow_iff_right (by norm_num : 1 < 2)).mp hlt1
  have e2 := (Nat.pow_lt_pow_iff_right (by norm_num : 1 < 2)).mp hlt2
  omega

theorem bitLen_le (n a : Nat) (h : n < 2 ^ a) : bitLen n ≤ a := by
  rcases Nat.eq_zero_or_pos n with h0 | h0
  · subst h0; simp [bitLen_zero]
  · obtain ⟨s1, _⟩ := bitLen_spec n h0
    have hp := bitLen_pos n h0
    have hlt : 2 ^ (bitLen n - 1) < 2 ^ a := lt_of_le_of_lt s1 h
    have e1 := (Nat.pow_lt_pow_iff_right (by norm_num : 1 < 2)).mp hlt
    omega

theorem bitLen_mul_pow (n j : Nat) (h : 0 < n) : bitLen (n * 2 ^ j) = bitLen n + j := by
  obtain ⟨s1, s2⟩ := bitLen_spec n h
  have hp := bitLen_pos n h
  have e : bitLen n + j = (bitLen n - 1 + j) + 1 := by omega
  rw [e]
  apply bitLen_unique
  · rw [pow_add]
    exact Nat.mul_le_mul_right _ s1
  · have : bitLen n - 1 + j + 1 = bitLen n + j := by omega
    rw [this, pow_add]
    exact Nat.mul_lt_mul_of_pos_right s2 (by positivity)

theorem roundScaled_cases (P q : Nat) :
    ∃ m0 : Nat, m0 = P / (q * 2 ^ (bitLen (P / q) - 53)) ∧
      ((roundScaled P q = (m0, bitLen (P / q) - 53) ∧ m0 ≠ 2 ^ 53)
      ∨ (roundScaled P q = (m0 + 1, bitLen (P / q) - 53) ∧ m0 + 1 ≠ 2 ^ 53)
      ∨ (roundScaled P q = (2 ^ 52, bitLen (P / q) - 53 + 1) ∧ (m0 = 2 ^ 53 ∨ m0 + 1 = 2 ^ 53))) := by
  refine ⟨_, rfl, ?_⟩
  unfold roundScaled
  simp only [Nat.shiftLeft_eq]
  split_ifs with h1 h2 h2
  · exact Or.inr (Or.inr ⟨rfl, Or.inr h2⟩)
  · exact Or.inr (Or.inl ⟨rfl, h2⟩)
  · exact Or.inr (Or.inr ⟨rfl, Or.inl h2⟩)
  · exact Or.inl ⟨rfl, h2⟩

theorem quotient_bounds (P q : Nat) :
    P / (q * 2 ^ (bitLen (P / q) - 53)) < 2 ^ 53
    ∧ (2 ^ 52 ≤ P / (q * 2 ^ (bitLen (P / q) - 53)) ∨ bitLen (P / q) - 53 = 0) := by
  rw [← Nat.div_div_eq_div_mul]
  generalize hF : P / q = F
  have hlt := lt_pow_bitLen F
  by_cases hL : bitLen F ≤ 53
  · have hk : bitLen F - 53 = 0 := by omega
    rw [hk]
    simp only [pow_zero, Nat.div_one]
    refine ⟨lt_of_lt_of_le hlt (Nat.pow_le_pow_right (by norm_num) hL), Or.inr trivial⟩
  · have hFpos : 0 < F := by
      rcases Nat.eq_zero_or_pos F with h0 | h0
      · subst h0; simp [bitLen_zero] at hL
      · exact h0
    obtain ⟨s1, s2⟩ := bitLen_spec F hFpos
    have hpk : (0 : Nat) < 2 ^ (bitLen F - 53) := by positivity
    constructor
    · rw [Nat.div_lt_iff_lt_mul hpk, ← pow_add]
      have : 53 + (bitLen F - 53) = bitLen F := by omega
      rw [this]
      exact s2
    · left
      rw [Nat.le_div_iff_mul_le hpk, ← pow_add]
      have : 52 + (bitLen F - 53) = bitLen F - 1 := by omega
      rw [this]
      exact s1

theorem roundScaled_isFloat (P q : Nat) :
    (roundScaled P q).1 < 2 ^ 53
    ∧ (2 ^ 52 ≤ (roundScaled P q).1 ∨ (roundScaled P q).2 = 0) := by
  obtain ⟨m0, hm0, hc⟩ := roundScaled_cases P q
  obtain ⟨b1, b2⟩ := quotient_bounds P q
  rw [← hm0] at b1 b2
  rcases hc with ⟨h, hne⟩ | ⟨h, hne⟩ | ⟨h, _⟩
  · rw [h]
    exact ⟨b1, b2⟩
  · rw [h]
    refine ⟨by omega, ?_⟩
    rcases b2 with b2 | b2
    · left; simp only; omega
    · right; exact b2
  · rw [h]
    exact ⟨by norm_num, Or.inl (le_refl _)⟩

theorem roundScaled_exact (mant j q : Nat) (hq : 0 < q) (h1 : mant < 2 ^ 53)
    (h2 : 2 ^ 52 ≤ mant ∨ j = 0) : roundScaled (mant * 2 ^ j * q) q = (mant, j) := by
  have hF : mant * 2 ^ j * q / q = mant * 2 ^ j := Nat.mul_div_cancel _ hq
  have hk : bitLen (mant * 2 ^ j) - 53 = j := by
    rcases Nat.eq_zero_or_pos mant with h0 | h0
    · subst h0
      rcases h2 with h2 | h2
      · norm_num at h2
      · subst h2; simp [bitLen_zero]
    · rw [bitLen_mul_pow mant j h0]
      rcases h2 with h2 | h2
      · have : bitLen mant = 53 := bitLen_unique mant 52 h2 h1
        omega
      · subst h2
        have : bitLen mant ≤ 53 := bitLen_le mant 53 h1
        omega
  have hd : 0 < q * 2 ^ j := by positivity
  have hP : mant * 2 ^ j * q = mant * (q * 2 ^ j) := by ring
  unfold roundScaled
  simp only [hF, hk, Nat.shiftLeft_eq]
  rw [hP, Nat.mul_div_cancel _ hd, Nat.mul_mod_left]
  have hne : mant ≠ 2 ^ 53 := by omega
  have hc : ¬ (q * 2 ^ j < 2 * 0 ∨ (2 * 0 = q * 2 ^ j ∧ mant % 2 = 1)) := by
    rintro (h | ⟨h, _⟩) <;> omega
  simp only [hc, if_false, hne]

theorem stripZeros_value : ∀ (f m : Nat) (e : Int),
    decNum (stripZeros f m e).1 (stripZeros f m e).2 * decDen e
      = decNum m e * decDen (stripZeros f m e).2 := by
  intro f
  induction f with
  | zero => intro m e; simp [stripZeros]
  | succ f ih =>
    intro m e
    unfold stripZeros
    split
    · rename_i hmod
      have ih2 := ih (m / 10) (e + 1)
      generalize stripZeros f (m / 10) (e + 1) = r at ih2 ⊢
      have hm : m = m / 10 * 10 := by omega
      have key : decNum (m / 10) (e + 1) * decDen e = decNum m e * decDen (e + 1) := by
        unfold decNum decDen
        by_cases he : 0 ≤ e
        · have t1 : (e + 1).toNat = e.toNat + 1 := by omega
          have t2 : (-e).toNat = 0 := by omega
          have t3 : (-(e + 1)).toNat = 0 := by omega
          rw [t1, t2, t3, pow_succ]
          nth_rewrite 2 [hm]
          ring
        · have t1 : (e + 1).toNat = 0 := by omega
          have t2 : e.toNat = 0 := by omega
          have t3 : (-e).toNat = (-(e + 1)).toNat + 1 := by omega
          rw [t1, t2, t3, pow_succ]
          nth_rewrite 2 [hm]
          ring
      have hpos : 0 < decDen (e + 1) := by unfold decDen; positivity
      have : decNum r.1 r.2 * decDen e * decDen (e + 1)
          = decNum m e * decDen r.2 * decDen (e + 1) := by
        calc decNum r.1 r.2 * decDen e * decDen (e + 1)
            = (decNum r.1 r.2 * decDen (e + 1)) * decDen e := by ring
          _ = (decNum (m / 10) (e + 1) * decDen r.2) * decDen e := by rw [ih2]
          _ = (decNum (m / 10) (e + 1) * decDen e) * decDen r.2 := by ring
          _ = (decNum m e * decDen (e + 1)) * decDen r.2 := by rw [key]
          _ = decNum m e * decDen r.2 * decDen (e + 1) := by ring
      exact Nat.eq_of_mul_eq_mul_right hpos this
    · rfl

theorem normDecimal_value (m : Nat) (e : Int) :
    decNum (normDecimal m e).1 (normDecimal m e).2 * decDen e
      = decNum m e * decDen (normDecimal m e).2 := by
  unfold normDecimal
  split
  · rename_i h
    subst h
    simp [decNum]
  · exact stripZeros_value m m e

theorem scaled_decimal_value (S mant j : Nat) :
    decNum (normDecimal (mant * 2 ^ (j - S) * 5 ^ (S - j)) (-((S - j : Nat) : Int))).1
        (normDecimal (mant * 2 ^ (j - S) * 5 ^ (S - j)) (-((S - j : Nat) : Int))).2 * 2 ^ S
      = mant * 2 ^ j
        * decDen (normDecimal (mant * 2 ^ (j - S) * 5 ^ (S - j)) (-((S - j : Nat) : Int))).2 := by
  have hv := normDecimal_value (mant * 2 ^ (j - S) * 5 ^ (S - j)) (-((S - j : Nat) : Int))
  generalize normDecimal (mant * 2 ^ (j - S) * 5 ^ (S - j)) (-((S - j : Nat) : Int)) = r at hv ⊢
  have hq0 : 0 < decDen (-((S - j : Nat) : Int)) := by unfold decDen; positivity
  have base : decNum (mant * 2 ^ (j - S) * 5 ^ (S - j)) (-((S - j : Nat) : Int)) * 2 ^ S
      = mant * 2 ^ j * decDen (-((S - j : Nat) : Int)) := by
    unfold decNum decDen
    have t1 : (-((S - j : Nat) : Int)).toNat = 0 := by omega
    have t2 : (-(-((S - j : Nat) : Int))).toNat = S - j := by omega
    rw [t1, t2]
    by_cases hj : S ≤ j
    · have a1 : S - j = 0 := by omega
      have a2 : (2 : Nat) ^ j = 2 ^ (j - S) * 2 ^ S := by
        rw [← pow_add]
        congr 1
        omega
      rw [a1, a2]
      ring
    · have a1 : j - S = 0 := by omega
      have a2 : (2 : Nat) ^ S = 2 ^ j * 2 ^ (S - j) := by
        rw [← pow_add]
        congr 1
        omega
      have ten : (10 : Nat) ^ (S - j) = 2 ^ (S - j) * 5 ^ (S - j) := by
        rw [← Nat.mul_pow]
      rw [a1, ten, a2]
      ring
  have : decNum r.1 r.2 * 2 ^ S * decDen (-((S - j : Nat) : Int))
      = mant * 2 ^ j * decDen r.2 * decDen (-((S - j : Nat) : Int)) := by
    calc decNum r.1 r.2 * 2 ^ S * decDen (-((S - j : Nat) : Int))
        = (decNum r.1 r.2 * decDen (-((S - j : Nat) : Int))) * 2 ^ S := by ring
      _ = (decNum (mant * 2 ^ (j - S) * 5 ^ (S - j)) (-((S - j : Nat) : Int))
            * decDen r.2) * 2 ^ S := by rw [hv]
      _ = (decNum (mant * 2 ^ (j - S) * 5 ^ (S - j)) (-((S - j : Nat) : Int))
            * 2 ^ S) * decDen r.2 := by ring
      _ = (mant * 2 ^ j * decDen (-((S - j : Nat) : Int))) * decDen r.2 := by rw [base]
      _ = mant * 2 ^ j * decDen r.2 * decDen (-((S - j : Nat) : Int)) := by ring
  exact Nat.eq_of_mul_eq_mul_right hq0 this

theorem floatDecimal_value (mant j : Nat) :
    decNum (floatDecimal mant j).1 (floatDecimal mant j).2 * 2 ^ scaleBits
      = mant * 2 ^ j * decDen (floatDecimal mant j).2 := by
  have h := scaled_decimal_value scaleBits mant j
  unfold floatDecimal
  split
  · rename_i h0
    subst h0
    simp [decNum]
  · rw [Nat.shiftLeft_eq]
    exact h

theorem roundFloat_floatDecimal (mant j : Nat) (h : IsFloat mant j) :
    roundFloat (floatDecimal mant j).1 (floatDecimal mant j).2 = some (mant, j) := by
  obtain ⟨h1, h2, h3⟩ := h
  have hq : 0 < decDen (floatDecimal mant j).2 := by unfold decDen; positivity
  unfold roundFloat
  rw [Nat.shiftLeft_eq, floatDecimal_value, roundScaled_exact mant j _ hq h1 h2]
  simp only [h3, if_true]

theorem roundFloat_isFloat (m : Nat) (e : Int) (f : Nat × Nat) (h : roundFloat m e = some f) :
    IsFloat f.1 f.2 := by
  unfold roundFloat at h
  split at h
  · rename_i hr
    injection h with h
    subst h
    obtain ⟨a, b⟩ := roundScaled_isFloat (decNum m e <<< scaleBits) (decDen e)
    exact ⟨a, b, hr⟩
  · cases h

theorem normNumber_idem (m : Nat) (e : Int) (f : Nat × Nat) (h : roundFloat m e = some f) :
    normNumber m e = floatDecimal f.1 f.2
    ∧ roundFloat (normNumber m e).1 (normNumber m e).2 = some f
    ∧ normNumber (normNumber m e).1 (normNumber m e).2 = normNumber m e := by
  have hn : normNumber m e = floatDecimal f.1 f.2 := by
    unfold normNumber
    rw [h]
  have hr := roundFloat_floatDecimal f.1 f.2 (roundFloat_isFloat m e f h)
  refine ⟨hn, ?_, ?_⟩
  · rw [hn]; exact hr
  · rw [hn]
    unfold normNumber
    rw [hr]

/-! ## Numbers are decoded from their text -/

theorem NumEnd.digitsEnd {rest : List Char} (h : NumEnd rest) : DigitsEnd rest :=
  fun c t hc => (h c t hc).1

theorem isDigit_ne {c x : Char} (h : isDigit c = true) (hx : isDigit x = false) : c ≠ x := by
  rintro rfl
  simp [h] at hx

theorem readDigits_natDigits (n : Nat) (rest : List Char) (hrest : DigitsEnd rest) :
    readDigits (natDigits n ++ rest) 0 0 = (n, (natDigits n).length, rest) := by
  rw [readDigits_append _ (natDigits_digits n) rest 0 0 hrest, natDigits_value n 0 rfl]
  simp

theorem readExponent_expText (e : Int) (rest : List Char) (hrest : NumEnd rest) :
    readExponent (expText e ++ rest) = some (e, rest) := by
  unfold expText
  by_cases he : e = 0
  · subst he
    cases rest with
    | nil => simp [readExponent]
    | cons c t =>
      obtain ⟨_, _, h3, h4⟩ := hrest c t rfl
      simp [readExponent, h3, h4]
  · simp only [he, if_false]
    unfold intDigits
    by_cases hneg : e < 0
    · obtain ⟨d, t, hd, hdig⟩ := natDigits_head e.natAbs
      have hr := readDigits_natDigits e.natAbs rest hrest.digitsEnd
      rw [hd] at hr
      simp only [List.cons_append] at hr
      simp [readExponent, hneg, hd, hdig, hr]
      have := abs_of_neg hneg
      omega
    · obtain ⟨d, t, hd, hdig⟩ := natDigits_head e.natAbs
      have hr := readDigits_natDigits e.natAbs rest hrest.digitsEnd
      rw [hd] at hr
      simp only [List.cons_append] at hr
      have h1 : d ≠ '-' := isDigit_ne hdig (by decide)
      have h2 : d ≠ '+' := isDigit_ne hdig (by decide)
      simp [readExponent, hneg, hd, hdig, hr, h1, h2]
      omega

theorem readExponent_end (rest : List Char) (hrest : NumEnd rest) :
    readExponent rest = some (0, rest) := by
  have h := readExponent_expText 0 rest hrest
  simpa [expText] using h

theorem readExponent_signed (x : Int) (rest : List Char) (hrest : DigitsEnd rest) :
    readExponent ('e' :: (if x < 0 then '-' else '+') :: (natDigits x.natAbs ++ rest))
      = some (x, rest) := by
  obtain ⟨d, t, hd, hdig⟩ := natDigits_head x.natAbs
  have hr := readDigits_natDigits x.natAbs rest hrest
  rw [hd] at hr
  simp only [List.cons_append] at hr
  by_cases hneg : x < 0
  · simp [readExponent, hneg, hd, hdig, hr]
    have := abs_of_neg hneg
    omega
  · simp [readExponent, hneg, hd, hdig, hr]
    omega

theorem readFraction_end (ip : Nat) (rest : List Char)
    (hrest : ∀ c t, rest = c :: t → c ≠ '.') :
    readFraction ip rest = some (ip, 0, rest) := by
  cases rest with
  | nil => simp [readFraction]
  | cons c t => simp [readFraction, hrest c t rfl]

theorem expText_numTail (e : Int) (rest : List Char) (hrest : NumEnd rest) :
    ∀ c t, expText e ++ rest = c :: t → isDigit c = false ∧ c ≠ '.' := by
  intro c t h
  unfold expText at h
  by_cases he : e = 0
  · simp [he] at h
    exact ⟨(hrest c t h).1, (hrest c t h).2.1⟩
  · simp [he] at h
    obtain ⟨h1, _⟩ := h
    subst h1
    exact ⟨by decide, by decide⟩

/-- The steps of the decoder on the text of a number without its sign. -/
theorem parseUnsigned_steps (neg : Bool) (c : Char) (r r2 r3 : List Char) (ip mant fl : Nat)
    (rip : List Char) (ex : Int) (hdig : isDigit c = true)
    (hip : (if c = '0' then ((0 : Nat), r)
        else ((readDigits (c :: r) 0 0).1, (readDigits (c :: r) 0 0).2.2)) = (ip, rip))
    (hfrac : readFraction ip rip = some (mant, fl, r2))
    (hexp : readExponent r2 = some (ex, r3)) :
    parseUnsigned neg (c :: r) = some (JVal.num neg mant (ex - (fl : Int)), r3) := by
  simp only [parseUnsigned, hdig, if_true]
  rw [hip]
  simp [hfrac, hexp]

theorem parseUnsigned_print (neg : Bool) (n : Nat) (e : Int) (rest : List Char)
    (hrest : NumEnd rest) :
    parseUnsigned neg (natDigits n ++ (expText e ++ rest))
      = some (JVal.num neg n e, rest) := by
  have htail := expText_numTail e rest hrest
  have hde : DigitsEnd (expText e ++ rest) := fun c t h => (htail c t h).1
  have hfrac : ∀ ip : Nat, readFraction ip (expText e ++ rest) = some (ip, 0, expText e ++ rest) :=
    fun ip => readFraction_end ip _ (fun c t h => (htail c t h).2)
  have hip : (if (natDigits n ++ (expText e ++ rest)).head? = some '0'
      then ((0 : Nat), (natDigits n ++ (expText e ++ rest)).tail)
      else ((readDigits (natDigits n ++ (expText e ++ rest)) 0 0).1,
            (readDigits (natDigits n ++ (expText e ++ rest)) 0 0).2.2)) = (n, expText e ++ rest) := by
    rcases Nat.eq_zero_or_pos n with h0 | h0
    · subst h0
      simp [natDigits_zero]
    · obtain ⟨c, t, hc, hne, _⟩ := natDigits_pos n h0
      rw [readDigits_natDigits n _ hde]
      simp [hc, hne]
  obtain ⟨c, t, hc, hdig⟩ := natDigits_head n
  rw [hc] at hip ⊢
  simp only [List.cons_append, List.head?_cons, List.tail_cons, Option.some.injEq] at hip
  simp only [List.cons_append, parseUnsigned, hdig, if_true]
  rw [hip]
  simp [hfrac, readExponent_expText e rest hrest]

theorem foldl_zeros (z acc : Nat) :
    (List.replicate z '0').foldl (fun a c => a * 10 + digitVal c) acc = acc * 10 ^ z := by
  induction z generalizing acc with
  | zero => simp
  | succ z ih =>
    simp only [List.replicate_succ, List.foldl_cons]
    rw [ih]
    have : digitVal '0' = 0 := by decide
    rw [this, pow_succ]
    ring

theorem zeros_digits (z : Nat) : ∀ c ∈ List.replicate z '0', isDigit c = true := by
  intro c hc
  rw [List.eq_of_mem_replicate hc]
  decide

theorem digits_append {a b : List Char} (ha : ∀ c ∈ a, isDigit c = true)
    (hb : ∀ c ∈ b, isDigit c = true) : ∀ c ∈ a ++ b, isDigit c = true := by
  intro c hc
  rcases List.mem_append.mp hc with h | h
  · exact ha c h
  · exact hb c h

/-- The digits of a number that is not zero: they are digits, the first one
is not `0`, and they make up the number. -/
theorem natDigits_facts (n : Nat) (h0 : n ≠ 0) :
    ∃ d t, natDigits n = d :: t ∧ d ≠ '0' ∧ isDigit d = true
      ∧ (∀ c ∈ t, isDigit c = true)
      ∧ t.foldl (fun a c => a * 10 + digitVal c) (digitVal d) = n := by
  obtain ⟨d, t, hd, hne, hdig⟩ := natDigits_pos n (Nat.pos_of_ne_zero h0)
  refine ⟨d, t, hd, hne, hdig, ?_, ?_⟩
  · intro c hc
    exact natDigits_digits n c (by rw [hd]; exact List.mem_cons_of_mem _ hc)
  · have hv := natDigits_value n 0 rfl
    rw [hd] at hv
    simpa using hv

theorem digitsEnd_of_head {l : List Char} {c : Char} {t : List Char} (h : l = c :: t)
    (hc : isDigit c = false) : DigitsEnd l := by
  intro c1 t1 h1
  rw [h] at h1
  injection h1 with h2 _
  rw [← h2]
  exact hc

/-- The decoder on the layout `f`, when the digits follow zeros after the point. -/
theorem parseUnsigned_pointFirst (neg : Bool) (n z : Nat) (rest : List Char)
    (hrest : NumEnd rest) :
    parseUnsigned neg ('0' :: '.' :: (List.replicate z '0' ++ natDigits n) ++ rest)
      = some (JVal.num neg n (0 - ((z + (natDigits n).length : Nat) : Int)), rest) := by
  obtain ⟨d, t, hd, hdig⟩ := natDigits_head n
  have hz : ∀ c ∈ List.replicate z '0' ++ natDigits n, isDigit c = true :=
    digits_append (zeros_digits _) (natDigits_digits n)
  have hrd := readDigits_append _ hz rest 0 0 hrest.digitsEnd
  rw [List.foldl_append, foldl_zeros, natDigits_value n _ (by simp)] at hrd
  obtain ⟨c1, t1, hc1, hd1⟩ : ∃ c1 t1, (List.replicate z '0' ++ natDigits n) ++ rest = c1 :: t1
      ∧ isDigit c1 = true := by
    cases z with
    | zero => exact ⟨d, t ++ rest, by simp [hd], hdig⟩
    | succ z => exact ⟨'0', List.replicate z '0' ++ natDigits n ++ rest,
        by simp [List.replicate_succ], by decide⟩
  have hfrac : readFraction 0 ('.' :: ((List.replicate z '0' ++ natDigits n) ++ rest))
      = some (n, z + (natDigits n).length, rest) := by
    simp only [readFraction, if_true]
    rw [hc1]
    simp only [hd1, if_true]
    rw [← hc1, hrd]
    simp
  have hip : (if '0' = '0' then ((0 : Nat), '.' :: ((List.replicate z '0' ++ natDigits n) ++ rest))
      else ((readDigits ('0' :: '.' :: ((List.replicate z '0' ++ natDigits n) ++ rest)) 0 0).1,
        (readDigits ('0' :: '.' :: ((List.replicate z '0' ++ natDigits n) ++ rest)) 0 0).2.2))
      = (0, '.' :: ((List.replicate z '0' ++ natDigits n) ++ rest)) := by
    simp
  have := parseUnsigned_steps neg '0' _ rest rest 0 n _ _ 0 (by decide) hip hfrac
    (readExponent_end rest hrest)
  simp only [List.cons_append, List.append_assoc] at this ⊢
  rw [this]

/-- The decoder on the layout `f`, when the point stands inside the digits. -/
theorem parseUnsigned_pointInside (neg : Bool) (n k : Nat) (rest : List Char) (h0 : n ≠ 0)
    (hk0 : 0 < k) (hk : k < (natDigits n).length) (hrest : NumEnd rest) :
    parseUnsigned neg ((natDigits n).take k ++ '.' :: (natDigits n).drop k ++ rest)
      = some (JVal.num neg n (0 - (((natDigits n).length - k : Nat) : Int)), rest) := by
  obtain ⟨d, t, hd, hne, hdig, ht, hv⟩ := natDigits_facts n h0
  have hall : ∀ c ∈ natDigits n, isDigit c = true := natDigits_digits n
  have htake : (natDigits n).take k = d :: t.take (k - 1) := by
    rw [hd]
    cases k with
    | zero => omega
    | succ k => simp
  have hsplit : natDigits n = (natDigits n).take k ++ (natDigits n).drop k :=
    (List.take_append_drop k _).symm
  have h1d : ∀ c ∈ (natDigits n).take k, isDigit c = true :=
    fun c hc => hall c (List.mem_of_mem_take hc)
  have h2d : ∀ c ∈ (natDigits n).drop k, isDigit c = true :=
    fun c hc => hall c (List.mem_of_mem_drop hc)
  obtain ⟨c2, t2, hc2⟩ : ∃ c2 t2, (natDigits n).drop k = c2 :: t2 := by
    cases hdr : (natDigits n).drop k with
    | nil =>
      have := congrArg List.length hdr
      simp at this
      omega
    | cons c2 t2 => exact ⟨c2, t2, rfl⟩
  have hc2d : isDigit c2 = true := h2d c2 (by rw [hc2]; exact List.mem_cons_self _ _)
  have hlen2 : ((natDigits n).drop k).length = (natDigits n).length - k := List.length_drop _ _
  generalize hA : (natDigits n).take k = A at htake h1d hsplit
  generalize hB : (natDigits n).drop k = B at hc2 h2d hsplit hlen2
  have hend1 : DigitsEnd ('.' :: (B ++ rest)) := digitsEnd_of_head rfl (by decide)
  have hrd1 := readDigits_append A h1d _ 0 0 hend1
  have hrd2 := readDigits_append B h2d rest
    (A.foldl (fun a c => a * 10 + digitVal c) 0) 0 hrest.digitsEnd
  rw [← List.foldl_append, ← hsplit, natDigits_value n 0 rfl] at hrd2
  have hfrac : readFraction (A.foldl (fun a c => a * 10 + digitVal c) 0) ('.' :: (B ++ rest))
      = some (n, B.length, rest) := by
    simp only [readFraction, if_true]
    rw [hc2]
    simp only [List.cons_append, hc2d, if_true]
    rw [← List.cons_append, ← hc2, hrd2]
    simp
  have hip : (if d = '0' then ((0 : Nat), t.take (k - 1) ++ '.' :: (B ++ rest))
      else ((readDigits (d :: (t.take (k - 1) ++ '.' :: (B ++ rest))) 0 0).1,
        (readDigits (d :: (t.take (k - 1) ++ '.' :: (B ++ rest))) 0 0).2.2))
      = (A.foldl (fun a c => a * 10 + digitVal c) 0, '.' :: (B ++ rest)) := by
    simp only [hne, if_false]
    rw [← List.cons_append, ← htake, hrd1]
  have := parseUnsigned_steps neg d _ rest rest _ n _ _ 0 hdig hip hfrac
    (readExponent_end rest hrest)
  rw [htake]
  simp only [List.cons_append, List.append_assoc] at this ⊢
  rw [this, hlen2]

/-- The decoder on the layout `f`, when zeros follow the digits. -/
theorem parseUnsigned_zerosLast (neg : Bool) (n z : Nat) (rest : List Char) (h0 : n ≠ 0)
    (hrest : NumEnd rest) :
    parseUnsigned neg (natDigits n ++ List.replicate z '0' ++ rest)
      = some (JVal.num neg (n * 10 ^ z) 0, rest) := by
  obtain ⟨d, t, hd, hne, hdig, ht, hv⟩ := natDigits_facts n h0
  have hndot : ∀ c t1, rest = c :: t1 → c ≠ '.' := fun c t1 h => (hrest c t1 h).2.1
  have hz : ∀ c ∈ natDigits n ++ List.replicate z '0', isDigit c = true :=
    digits_append (natDigits_digits n) (zeros_digits _)
  have hrd := readDigits_append _ hz rest 0 0 hrest.digitsEnd
  rw [List.foldl_append, foldl_zeros, natDigits_value n 0 rfl] at hrd
  have e1 : natDigits n ++ List.replicate z '0' ++ rest
      = d :: (t ++ (List.replicate z '0' ++ rest)) := by
    rw [hd]
    simp
  have hip : (if d = '0' then ((0 : Nat), t ++ (List.replicate z '0' ++ rest))
      else ((readDigits (d :: (t ++ (List.replicate z '0' ++ rest))) 0 0).1,
        (readDigits (d :: (t ++ (List.replicate z '0' ++ rest))) 0 0).2.2))
      = (n * 10 ^ z, rest) := by
    simp only [hne, if_false]
    rw [← e1, hrd]
  have := parseUnsigned_steps neg d _ rest rest _ _ 0 _ 0 hdig hip
    (readFraction_end _ rest hndot) (readExponent_end rest hrest)
  rw [e1, this]
  simp

/-- The decoder on the layout `f` of the digits of `n`, with the decimal
point `dp` digits after the first digit's place. -/
theorem parseUnsigned_formatF (neg : Bool) (n : Nat) (e : Int) (rest : List Char)
    (h0 : n ≠ 0) (hrest : NumEnd rest) :
    parseUnsigned neg (formatF (natDigits n) (((natDigits n).length : Int) + e) ++ rest)
      = some (if 0 ≤ e then JVal.num neg (n * 10 ^ e.toNat) 0 else JVal.num neg n e, rest) := by
  have hlenpos : 0 < (natDigits n).length := by
    obtain ⟨d, t, hd, _⟩ := natDigits_head n
    rw [hd]
    simp
  unfold formatF
  by_cases h1 : ((natDigits n).length : Int) + e ≤ 0
  · have hneg : ¬ 0 ≤ e := by omega
    simp only [h1, if_true, hneg, if_false]
    rw [parseUnsigned_pointFirst neg n _ rest hrest]
    congr 3
    omega
  · simp only [h1, if_false]
    by_cases h2 : (((natDigits n).length : Int) + e).toNat < (natDigits n).length
    · have hneg : ¬ 0 ≤ e := by omega
      simp only [h2, if_true, hneg, if_false]
      rw [parseUnsigned_pointInside neg n _ rest h0 (by omega) h2 hrest]
      congr 3
      omega
    · have hpos : 0 ≤ e := by omega
      simp only [h2, if_false, hpos, if_true]
      rw [parseUnsigned_zerosLast neg n _ rest h0 hrest]
      have e3 : (((natDigits n).length : Int) + e).toNat - (natDigits n).length = e.toNat := by
        omega
      rw [e3]

/-- The decoder on the layout `e` of one digit. -/
theorem parseUnsigned_expOne (neg : Bool) (d : Char) (x : Int) (rest : List Char)
    (hne : d ≠ '0') (hdig : isDigit d = true) (hrest : NumEnd rest) :
    parseUnsigned neg (d :: 'e' :: (if x < 0 then '-' else '+') :: (natDigits x.natAbs ++ rest))
      = some (JVal.num neg (digitVal d) x, rest) := by
  have hexp := readExponent_signed x rest hrest.digitsEnd
  generalize hX : 'e' :: (if x < 0 then '-' else '+') :: (natDigits x.natAbs ++ rest) = X
    at hexp
  have hXe : ∃ t1, X = 'e' :: t1 := ⟨_, hX.symm⟩
  obtain ⟨t1, ht1⟩ := hXe
  have hend : DigitsEnd X := digitsEnd_of_head ht1 (by decide)
  have hrd := readDigits_append [d] (by simpa using hdig) X 0 0 hend
  have hip : (if d = '0' then ((0 : Nat), X)
      else ((readDigits (d :: X) 0 0).1, (readDigits (d :: X) 0 0).2.2))
      = (digitVal d, X) := by
    simp only [hne, if_false]
    have e1 : d :: X = [d] ++ X := rfl
    rw [e1, hrd]
    simp
  have hfr := readFraction_end (digitVal d) X (fun c t2 h => by
    rw [ht1] at h
    injection h with h2 _
    rw [← h2]
    decide)
  have := parseUnsigned_steps neg d _ _ rest _ _ 0 _ _ hdig hip hfr hexp
  rw [this]
  simp

/-- The decoder on the layout `e` of several digits. -/
theorem parseUnsigned_expMany (neg : Bool) (d : Char) (t : List Char) (x : Int)
    (rest : List Char) (hne : d ≠ '0') (hdig : isDigit d = true)
    (ht : ∀ c ∈ t, isDigit c = true) (htn : t ≠ []) (hrest : NumEnd rest) :
    parseUnsigned neg (d :: '.' :: (t ++ 'e' :: (if x < 0 then '-' else '+')
        :: (natDigits x.natAbs ++ rest)))
      = some (JVal.num neg (t.foldl (fun a c => a * 10 + digitVal c) (digitVal d))
          (x - (t.length : Int)), rest) := by
  have hexp := readExponent_signed x rest hrest.digitsEnd
  generalize hX : 'e' :: (if x < 0 then '-' else '+') :: (natDigits x.natAbs ++ rest) = X
    at hexp
  obtain ⟨t1, ht1⟩ : ∃ t1, X = 'e' :: t1 := ⟨_, hX.symm⟩
  obtain ⟨c2, t2, hc2⟩ : ∃ c2 t2, t = c2 :: t2 := by
    cases t with
    | nil => exact absurd rfl htn
    | cons c2 t2 => exact ⟨c2, t2, rfl⟩
  have hc2d : isDigit c2 = true := ht c2 (by rw [hc2]; exact List.mem_cons_self _ _)
  have hend0 : DigitsEnd ('.' :: (t ++ X)) := digitsEnd_of_head rfl (by decide)
  have hend : DigitsEnd X := digitsEnd_of_head ht1 (by decide)
  have hrd0 := readDigits_append [d] (by simpa using hdig) _ 0 0 hend0
  have hrd := readDigits_append t ht X (digitVal d) 0 hend
  have hip : (if d = '0' then ((0 : Nat), '.' :: (t ++ X))
      else ((readDigits (d :: '.' :: (t ++ X)) 0 0).1,
        (readDigits (d :: '.' :: (t ++ X)) 0 0).2.2))
      = (digitVal d, '.' :: (t ++ X)) := by
    simp only [hne, if_false]
    have e1 : d :: '.' :: (t ++ X) = [d] ++ '.' :: (t ++ X) := rfl
    rw [e1, hrd0]
    simp
  have hfrac : readFraction (digitVal d) ('.' :: (t ++ X))
      = some (t.foldl (fun a c => a * 10 + digitVal c) (digitVal d), t.length, X) := by
    simp only [readFraction, if_true]
    rw [hrd]
    rw [hc2]
    simp [hc2d]
  have := parseUnsigned_steps neg d _ _ rest _ _ t.length _ _ hdig hip hfrac hexp
  rw [this]

/-- The decoder on the layout `e` of the digits of `n`. -/
theorem parseUnsigned_formatE (neg : Bool) (n : Nat) (e : Int) (rest : List Char)
    (h0 : n ≠ 0) (hrest : NumEnd rest) :
    parseUnsigned neg (formatE (natDigits n) (((natDigits n).length : Int) + e) ++ rest)
      = some (JVal.num neg n e, rest) := by
  obtain ⟨d, t, hd, hne, hdig, ht, hv⟩ := natDigits_facts n h0
  rw [hd]
  unfold formatE
  simp only
  by_cases htn : t = []
  · subst htn
    simp only [if_true, List.nil_append, List.cons_append, List.length_cons, List.length_nil]
    rw [parseUnsigned_expOne neg d _ rest hne hdig hrest]
    simp only [List.foldl_nil] at hv
    rw [hv]
    congr 3
    omega
  · simp only [htn, if_false, List.cons_append, List.append_assoc, List.length_cons]
    rw [parseUnsigned_expMany neg d t _ rest hne hdig ht htn hrest, hv]
    congr 3
    omega

theorem printNumber_eq (neg : Bool) (m : Nat) (e : Int) :
    printNumber neg m e = (if neg then ['-'] else []) ++ unsignedText m e := by
  unfold printNumber
  exact rfl

theorem shortestDecimal_spec (m : Nat) (e : Int) (f : Nat × Nat) (hm : m ≠ 0)
    (hf : roundFloat m e = some f) :
    ∀ k, (shortestDecimal m e f k).1 ≠ 0
      ∧ roundFloat (shortestDecimal m e f k).1 (shortestDecimal m e f k).2 = some f := by
  intro k
  induction k with
  | zero => exact ⟨hm, hf⟩
  | succ k ih =>
    unfold shortestDecimal
    simp only
    split
    · rename_i h
      simp only [Bool.and_eq_true, decide_eq_true_eq] at h
      split
      · exact ⟨h.1.1, h.1.2⟩
      · exact ⟨Nat.succ_ne_zero _, h.2⟩
    · split
      · rename_i h
        simp only [Bool.and_eq_true, decide_eq_true_eq] at h
        exact ⟨h.1, h.2⟩
      · split
        · rename_i h
          simp only [decide_eq_true_eq] at h
          exact ⟨Nat.succ_ne_zero _, h⟩
        · exact ih

theorem roundFloat_mul_pow (c : Nat) (e : Int) (he : 0 ≤ e) :
    roundFloat (c * 10 ^ e.toNat) 0 = roundFloat c e := by
  have h1 : decNum (c * 10 ^ e.toNat) 0 = decNum c e := by
    unfold decNum
    simp
  have h2 : decDen 0 = decDen e := by
    unfold decDen
    have : (-e).toNat = 0 := by omega
    rw [this]
    simp
  unfold roundFloat
  rw [h1, h2]

theorem floatDecimal_ne_zero (mant j : Nat) (h : mant ≠ 0) : (floatDecimal mant j).1 ≠ 0 := by
  intro h0
  have hv := floatDecimal_value mant j
  rw [h0] at hv
  have hpos : 0 < mant * 2 ^ j * decDen (floatDecimal mant j).2 := by
    have h1 : 0 < decDen (floatDecimal mant j).2 := by unfold decDen; positivity
    have h2 : 0 < mant := Nat.pos_of_ne_zero h
    positivity
  have hz : decNum 0 (floatDecimal mant j).2 * 2 ^ scaleBits = 0 := by
    unfold decNum
    simp
  rw [hz] at hv
  rw [← hv] at hpos
  exact absurd hpos (lt_irrefl 0)

/-- The decimal read from the text of a double rounds to that double. -/
theorem readBack_spec (f : Nat × Nat) (hf : IsFloat f.1 f.2) (h0 : f.1 ≠ 0) :
    roundFloat (readBack f).1 (readBack f).2 = some f := by
  have hx := roundFloat_floatDecimal f.1 f.2 hf
  have hne := floatDecimal_ne_zero f.1 f.2 h0
  obtain ⟨_, hs⟩ := shortestDecimal_spec _ _ f hne hx (natDigits (floatDecimal f.1 f.2).1).length
  unfold readBack
  split
  · exact hs
  · split
    · rename_i hpos
      simp only
      rw [roundFloat_mul_pow _ _ hpos]
      exact hs
    · exact hs

theorem parseUnsigned_zero (neg : Bool) (rest : List Char) (hrest : NumEnd rest) :
    parseUnsigned neg ('0' :: rest) = some (JVal.num neg 0 0, rest) := by
  have h := parseUnsigned_print neg 0 0 rest hrest
  simpa [natDigits_zero, expText] using h

/-- The decoder reads the text of a double back. -/
theorem parseUnsigned_printFloat (neg : Bool) (f : Nat × Nat) (rest : List Char)
    (hf : IsFloat f.1 f.2) (h0 : f.1 ≠ 0) (hrest : NumEnd rest) :
    parseUnsigned neg (printFloat f ++ rest)
      = some (JVal.num neg (readBack f).1 (readBack f).2, rest) := by
  have hx := roundFloat_floatDecimal f.1 f.2 hf
  have hne := floatDecimal_ne_zero f.1 f.2 h0
  obtain ⟨hc, _⟩ := shortestDecimal_spec _ _ f hne hx (natDigits (floatDecimal f.1 f.2).1).length
  unfold printFloat readBack
  simp only
  split
  · exact parseUnsigned_formatE neg _ _ rest hc hrest
  · rw [parseUnsigned_formatF neg _ _ rest hc hrest]
    split <;> rfl

theorem parseUnsigned_unsignedText (neg : Bool) (m : Nat) (e : Int) (rest : List Char)
    (hrest : NumEnd rest) :
    parseUnsigned neg (unsignedText m e ++ rest)
      = some (JVal.num neg (rereadNumber m e).1 (rereadNumber m e).2, rest) := by
  unfold unsignedText rereadNumber
  cases hr : roundFloat m e with
  | none =>
    have h := parseUnsigned_print neg m e rest hrest
    simp only [expText, List.append_assoc] at h ⊢
    exact h
  | some f =>
    simp only
    by_cases h0 : f.1 = 0
    · simp only [h0, if_true]
      exact parseUnsigned_zero neg rest hrest
    · simp only [h0, if_false]
      exact parseUnsigned_printFloat neg f rest (roundFloat_isFloat m e f hr) h0 hrest

theorem parseUnsigned_head {neg : Bool} {l : List Char} {r : JVal × List Char}
    (h : parseUnsigned neg l = some r) : ∃ c t, l = c :: t ∧ isDigit c = true := by
  cases l with
  | nil => simp [parseUnsigned] at h
  | cons c t =>
    refine ⟨c, t, rfl, ?_⟩
    by_contra hc
    simp [parseUnsigned, hc] at h

theorem numEnd_nil : NumEnd [] := by
  intro c t h
  cases h

theorem unsignedText_head (m : Nat) (e : Int) :
    ∃ c t, unsignedText m e = c :: t ∧ isDigit c = true := by
  have h := parseUnsigned_unsignedText false m e [] numEnd_nil
  rw [List.append_nil] at h
  exact parseUnsigned_head h

theorem parseNumber_print (neg : Bool) (m : Nat) (e : Int) (rest : List Char)
    (hrest : NumEnd rest) :
    parseNumber (printNumber neg m e ++ rest)
      = some (JVal.num neg (rereadNumber m e).1 (rereadNumber m e).2, rest) := by
  rw [printNumber_eq, List.append_assoc]
  have hu := parseUnsigned_unsignedText neg m e rest hrest
  cases neg with
  | true =>
    simp only [if_true, List.cons_append, List.nil_append, parseNumber]
    exact hu
  | false =>
    obtain ⟨c, t, hc, hdig⟩ := unsignedText_head m e
    have h1 : c ≠ '-' := isDigit_ne hdig (by decide)
    simp only [Bool.false_eq_true, if_false, List.nil_append]
    rw [hc] at hu ⊢
    simp only [List.cons_append, parseNumber, h1, if_false] at hu ⊢
    exact hu

theorem roundFloat_zero : roundFloat 0 0 = some (0, 0) := by decide

theorem floatDecimal_zero (j : Nat) : floatDecimal 0 j = (0, 0) := by
  unfold floatDecimal
  simp

theorem normNumber_of_some {m : Nat} {e : Int} {f : Nat × Nat} (h : roundFloat m e = some f) :
    normNumber m e = floatDecimal f.1 f.2 ∧ inRange m e = true := by
  refine ⟨(normNumber_idem m e f h).1, ?_⟩
  unfold inRange
  exact Option.isSome_iff_exists.mpr ⟨f, h⟩

/-- The decimal read from the text of a number stands for the same double;
a decimal out of range is read as it is. -/
theorem rereadNumber_spec (m : Nat) (e : Int) :
    (roundFloat m e = none ∧ rereadNumber m e = (m, e))
    ∨ (∃ f, roundFloat m e = some f ∧ f.1 = 0 ∧ rereadNumber m e = (0, 0))
    ∨ (∃ f, roundFloat m e = some f
        ∧ roundFloat (rereadNumber m e).1 (rereadNumber m e).2 = some f) := by
  unfold rereadNumber
  cases hr : roundFloat m e with
  | none => exact Or.inl ⟨rfl, rfl⟩
  | some f =>
    simp only
    by_cases h0 : f.1 = 0
    · rw [if_pos h0]
      exact Or.inr (Or.inl ⟨f, rfl, h0, rfl⟩)
    · rw [if_neg h0]
      exact Or.inr (Or.inr ⟨f, rfl, readBack_spec f (roundFloat_isFloat m e f hr) h0⟩)

theorem normNumber_reread (m : Nat) (e : Int) :
    normNumber (rereadNumber m e).1 (rereadNumber m e).2 = normNumber m e
    ∧ inRange (rereadNumber m e).1 (rereadNumber m e).2 = inRange m e := by
  rcases rereadNumber_spec m e with ⟨_, hz⟩ | ⟨f, hf, h0, hz⟩ | ⟨f, hf, hr⟩
  · rw [hz]
    exact ⟨rfl, rfl⟩
  · rw [hz]
    obtain ⟨a1, a2⟩ := normNumber_of_some roundFloat_zero
    obtain ⟨b1, b2⟩ := normNumber_of_some hf
    simp only at a1 a2
    rw [a1, a2, b1, b2, h0, floatDecimal_zero, floatDecimal_zero]
    exact ⟨rfl, rfl⟩
  · obtain ⟨a1, a2⟩ := normNumber_of_some hr
    obtain ⟨b1, b2⟩ := normNumber_of_some hf
    rw [a1, a2, b1, b2]
    exact ⟨rfl, rfl⟩

/-! ## Strings are decoded from their text -/

theorem hexVal_hexDigit (d : Nat) (h : d < 16) : hexVal (hexDigit d) = some d := by
  interval_cases d <;> decide

theorem hex4_digits (n : Nat) (h : n < 65536) :
    hex4 (hexDigit (n / 4096)) (hexDigit (n / 256 % 16)) (hexDigit (n / 16 % 16))
      (hexDigit (n % 16)) = some n := by
  unfold hex4
  rw [hexVal_hexDigit _ (by omega), hexVal_hexDigit _ (by omega), hexVal_hexDigit _ (by omega),
    hexVal_hexDigit _ (by omega)]
  simp only [Option.some.injEq]
  omega

theorem char_ofNat_toNat (c : Char) : Char.ofNat c.toNat = c := by
  exact Char.ofNat_toNat c

theorem escapeChar_length (c : Char) : 1 ≤ (escapeChar c).length := by
  unfold escapeChar
  repeat' split
  all_goals simp

theorem flatMap_escape_length (s : List Char) : s.length ≤ (s.flatMap escapeChar).length := by
  induction s with
  | nil => simp
  | cons c s ih =>
    have := escapeChar_length c
    simp only [List.flatMap_cons, List.length_cons, List.length_append]
    omega

theorem parseStringBody_unicode (f : Nat) (c : Char) (t : List Char) (h : c.toNat < 0xD800) :
    parseStringBody (f + 1)
      ('\\' :: 'u' :: hexDigit (c.toNat / 4096) :: hexDigit (c.toNat / 256 % 16)
        :: hexDigit (c.toNat / 16 % 16) :: hexDigit (c.toNat % 16) :: t)
      = consChar c (parseStringBody f t) := by
  have h4 := hex4_digits c.toNat (by omega)
  have h1 : ¬ (0xD800 ≤ c.toNat ∧ c.toNat < 0xDC00) := by omega
  have h2 : ¬ (0xDC00 ≤ c.toNat ∧ c.toNat < 0xE000) := by omega
  have h3 : ('\\' : Char) ≠ '"' := by decide
  simp only [parseStringBody, h3, if_false, if_true, h4, h1, h2, char_ofNat_toNat]

theorem parseStringBody_escape (f : Nat) (c : Char) (t : List Char) :
    parseStringBody (f + 1) (escapeChar c ++ t) = consChar c (parseStringBody f t) := by
  unfold escapeChar
  by_cases h1 : c = '"'
  · subst h1; rfl
  by_cases h2 : c = '\\'
  · subst h2; rfl
  by_cases h3 : c = '\n'
  · subst h3; rfl
  by_cases h4 : c = '\r'
  · subst h4; rfl
  by_cases h5 : c = '\t'
  · subst h5; rfl
  simp only [h1, h2, h3, h4, h5, if_false]
  by_cases h6 : c.toNat < 32 ∨ c = '<' ∨ c = '>' ∨ c = '&' ∨ c.toNat = 0x2028 ∨ c.toNat = 0x2029
  · simp only [h6, if_true, List.cons_append, List.nil_append]
    apply parseStringBody_unicode
    rcases h6 with h | h | h | h | h | h
    · omega
    · subst h; decide
    · subst h; decide
    · subst h; decide
    · omega
    · omega
  · simp only [h6, if_false, List.cons_append, List.nil_append]
    have h7 : ¬ c.toNat < 32 := fun h => h6 (Or.inl h)
    simp only [parseStringBody, h1, h2, h7, if_false]

theorem parseStringBody_print (s : List Char) :
    ∀ (f : Nat) (rest : List Char), s.length < f →
      parseStringBody f (s.flatMap escapeChar ++ '"' :: rest) = some (s, rest) := by
  induction s with
  | nil =>
    intro f rest hf
    cases f with
    | zero => omega
    | succ f => simp [parseStringBody]
  | cons c s ih =>
    intro f rest hf
    cases f with
    | zero => omega
    | succ f =>
      simp only [List.flatMap_cons, List.append_assoc]
      rw [parseStringBody_escape, ih f rest (by simpa using hf)]
      rfl

theorem parseString_print (s : List Char) (rest : List Char) :
    parseStringBody ((s.flatMap escapeChar ++ '"' :: rest).length + 1)
      (s.flatMap escapeChar ++ '"' :: rest) = some (s, rest) := by
  apply parseStringBody_print
  have := flatMap_escape_length s
  simp only [List.length_append, List.length_cons]
  omega

/-! ## Values are decoded from their text -/

theorem printElems_cons (v : JVal) (vs : List JVal) :
    printElems (v :: vs) = printVal v ++ elemsTail vs := by
  cases vs <;> simp [printElems, elemsTail]

theorem printMembers_cons (k : String) (v : JVal) (kvs : List (String × JVal)) :
    printMembers ((k, v) :: kvs) = printString k.data ++ ':' :: (printVal v ++ membersTail kvs) := by
  cases kvs <;> simp [printMembers, membersTail]

theorem elemsTail_head (vs : List JVal) (rest : List Char) :
    ∃ c t, elemsTail vs ++ rest = c :: t ∧ (c = ',' ∨ c = ']') := by
  cases vs with
  | nil => exact ⟨']', rest, rfl, Or.inr rfl⟩
  | cons w ws => exact ⟨',', printElems (w :: ws) ++ rest, rfl, Or.inl rfl⟩

theorem membersTail_head (kvs : List (String × JVal)) (rest : List Char) :
    ∃ c t, membersTail kvs ++ rest = c :: t ∧ (c = ',' ∨ c = '}') := by
  cases kvs with
  | nil => exact ⟨'}', rest, rfl, Or.inr rfl⟩
  | cons w ws => exact ⟨',', printMembers (w :: ws) ++ rest, rfl, Or.inl rfl⟩

theorem numEnd_of_head {l : List Char} {c : Char} {t : List Char} (h : l = c :: t)
    (hc : c = ',' ∨ c = ']' ∨ c = '}') : NumEnd l := by
  intro c1 t1 h1
  rw [h] at h1
  have : c1 = c := by injection h1 with h2 _; exact h2.symm
  subst this
  rcases hc with hc | hc | hc <;> subst hc <;> decide

theorem ValueStart.notSpace {c : Char} (h : ValueStart c) : isSpace c = false := by
  rcases h with h | h | h | h | h | h | h | h
  any_goals (subst h; decide)
  unfold isDigit at h
  unfold isSpace
  simp only [Bool.and_eq_true, decide_eq_true_eq] at h
  simp
  omega

theorem ValueStart.ne_close {c : Char} (h : ValueStart c) : c ≠ ']' ∧ c ≠ '}' := by
  rcases h with h | h | h | h | h | h | h | h
  any_goals (subst h; decide)
  exact ⟨isDigit_ne h (by decide), isDigit_ne h (by decide)⟩

theorem printNumber_head (neg : Bool) (m : Nat) (e : Int) :
    ∃ c t, printNumber neg m e = c :: t ∧ (c = '-' ∨ isDigit c = true) := by
  rw [printNumber_eq]
  cases neg with
  | true => exact ⟨'-', _, rfl, Or.inl rfl⟩
  | false =>
    obtain ⟨c, t, h1, h2⟩ := unsignedText_head m e
    rw [h1]
    exact ⟨c, t, rfl, Or.inr h2⟩

theorem printVal_head (v : JVal) : ∃ c t, printVal v = c :: t ∧ ValueStart c := by
  cases v with
  | null => exact ⟨'n', ['u', 'l', 'l'], by simp [printVal], by unfold ValueStart; simp⟩
  | bool b =>
    cases b
    · exact ⟨'f', ['a', 'l', 's', 'e'], by simp [printVal], by unfold ValueStart; simp⟩
    · exact ⟨'t', ['r', 'u', 'e'], by simp [printVal], by unfold ValueStart; simp⟩
  | num neg m e =>
    obtain ⟨c, t, h1, h2⟩ := printNumber_head neg m e
    refine ⟨c, t, by simp [printVal, h1], ?_⟩
    unfold ValueStart
    rcases h2 with h2 | h2 <;> simp [h2]
  | str s =>
    exact ⟨'"', s.data.flatMap escapeChar ++ ['"'], by simp [printVal, printString],
      by unfold ValueStart; simp⟩
  | arr xs => exact ⟨'[', printElems xs, by simp [printVal], by unfold ValueStart; simp⟩
  | obj kvs => exact ⟨'{', printMembers kvs, by simp [printVal], by unfold ValueStart; simp⟩

theorem skipSpace_cons {c : Char} (t : List Char) (h : isSpace c = false) :
    skipSpace (c :: t) = c :: t := by
  simp [skipSpace, h]

theorem skipSpace_printVal (v : JVal) (rest : List Char) :
    skipSpace (printVal v ++ rest) = printVal v ++ rest := by
  obtain ⟨c, t, h1, h2⟩ := printVal_head v
  rw [h1]
  exact skipSpace_cons _ h2.notSpace

theorem parseValue_number (f : Nat) (neg : Bool) (m : Nat) (e : Int) (rest : List Char)
    (hrest : NumEnd rest) :
    parseValue (f + 1) (printNumber neg m e ++ rest)
      = some (JVal.num neg (rereadNumber m e).1 (rereadNumber m e).2, rest) := by
  have hp := parseNumber_print neg m e rest hrest
  obtain ⟨c, t, h1, h2⟩ := printNumber_head neg m e
  rw [h1] at hp ⊢
  have hne : ∀ x : Char, isDigit x = false → x ≠ '-' → c ≠ x := by
    intro x hx hx2
    rcases h2 with h2 | h2
    · subst h2; exact fun h => hx2 h.symm
    · exact isDigit_ne h2 hx
  simp only [List.cons_append] at hp ⊢
  simp only [parseValue, hne '"' (by decide) (by decide), hne '[' (by decide) (by decide),
    hne '{' (by decide) (by decide), hne 't' (by decide) (by decide),
    hne 'f' (by decide) (by decide), hne 'n' (by decide) (by decide), if_false]
  exact hp

theorem skipSpace_elemsTail (vs : List JVal) (rest : List Char) :
    skipSpace (elemsTail vs ++ rest) = elemsTail vs ++ rest := by
  obtain ⟨c, t, h1, h2⟩ := elemsTail_head vs rest
  rw [h1]
  apply skipSpace_cons
  rcases h2 with h2 | h2 <;> subst h2 <;> decide

theorem skipSpace_membersTail (kvs : List (String × JVal)) (rest : List Char) :
    skipSpace (membersTail kvs ++ rest) = membersTail kvs ++ rest := by
  obtain ⟨c, t, h1, h2⟩ := membersTail_head kvs rest
  rw [h1]
  apply skipSpace_cons
  rcases h2 with h2 | h2 <;> subst h2 <;> decide

theorem numEnd_elemsTail (vs : List JVal) (rest : List Char) : NumEnd (elemsTail vs ++ rest) := by
  obtain ⟨c, t, h1, h2⟩ := elemsTail_head vs rest
  exact numEnd_of_head h1 (by rcases h2 with h2 | h2 <;> simp [h2])

theorem numEnd_membersTail (kvs : List (String × JVal)) (rest : List Char) :
    NumEnd (membersTail kvs ++ rest) := by
  obtain ⟨c, t, h1, h2⟩ := membersTail_head kvs rest
  exact numEnd_of_head h1 (by rcases h2 with h2 | h2 <;> simp [h2])

theorem printElems_head (v : JVal) (vs : List JVal) (rest : List Char) :
    ∃ c t, printElems (v :: vs) ++ rest = c :: t ∧ ValueStart c := by
  obtain ⟨c, t, h1, h2⟩ := printVal_head v
  exact ⟨c, t ++ (elemsTail vs ++ rest), by simp [printElems_cons, h1], h2⟩

theorem printMembers_head (kv : String × JVal) (kvs : List (String × JVal)) (rest : List Char) :
    ∃ t, printMembers (kv :: kvs) ++ rest = '"' :: t := by
  obtain ⟨k, v⟩ := kv
  exact ⟨_, by simp [printMembers_cons, printString]; rfl⟩

mutual
theorem parseValue_print : ∀ (v : JVal) (f : Nat) (rest : List Char), jsize v ≤ f → NumEnd rest →
    parseValue f (printVal v ++ rest) = some (reread v, rest)
  | JVal.null, f, rest, hf, _ => by
    cases f with
    | zero => simp [jsize] at hf
    | succ f => simp [printVal, parseValue, stripLit, reread]
  | JVal.bool b, f, rest, hf, _ => by
    cases f with
    | zero => simp [jsize] at hf
    | succ f => cases b <;> simp [printVal, parseValue, stripLit, reread]
  | JVal.num neg m e, f, rest, hf, hrest => by
    cases f with
    | zero => simp [jsize] at hf
    | succ f =>
      simp only [printVal, reread]
      exact parseValue_number f neg m e rest hrest
  | JVal.str s, f, rest, hf, _ => by
    cases f with
    | zero => simp [jsize] at hf
    | succ f =>
      have h := parseString_print s.data rest
      simp only [printVal, printString, List.cons_append, List.append_assoc, List.nil_append,
        parseValue, if_true, h, reread]
  | JVal.arr [], f, rest, hf, _ => by
    cases f with
    | zero => simp [jsize] at hf
    | succ f => simp [printVal, printElems, parseValue, skipSpace, isSpace, reread, rereadElems]
  | JVal.arr (v :: vs), f, rest, hf, _ => by
    cases f with
    | zero => simp [jsize] at hf
    | succ f =>
      have ih := parseElems_print v vs f rest (by simp only [jsize] at hf; omega)
      obtain ⟨c, t, h1, h2⟩ := printElems_head v vs rest
      rw [h1] at ih
      have h3 : ('[' : Char) ≠ '"' := by decide
      simp only [printVal, List.cons_append, parseValue, h3, if_false, if_true, h1,
        skipSpace_cons _ h2.notSpace, h2.ne_close.1, ih, reread]
  | JVal.obj [], f, rest, hf, _ => by
    cases f with
    | zero => simp [jsize] at hf
    | succ f =>
      simp [printVal, printMembers, parseValue, skipSpace, isSpace, reread, rereadMembers]
  | JVal.obj (kv :: kvs), f, rest, hf, _ => by
    cases f with
    | zero => simp [jsize] at hf
    | succ f =>
      have ih := parseMembers_print kv kvs f rest (by simp only [jsize] at hf; omega)
      obtain ⟨t, h1⟩ := printMembers_head kv kvs rest
      rw [h1] at ih
      have h3 : ('{' : Char) ≠ '"' := by decide
      have h4 : ('{' : Char) ≠ '[' := by decide
      have h5 : ('"' : Char) ≠ '}' := by decide
      have h6 : isSpace '"' = false := by decide
      simp only [printVal, List.cons_append, parseValue, h3, h4, if_false, if_true, h1,
        skipSpace_cons _ h6, h5, ih, reread]
theorem parseElems_print : ∀ (v : JVal) (vs : List JVal) (f : Nat) (rest : List Char),
    jsizeElems (v :: vs) ≤ f →
    parseElems f (printElems (v :: vs) ++ rest) = some (rereadElems (v :: vs), rest)
  | v, [], f, rest, hf => by
    cases f with
    | zero => simp [jsizeElems] at hf
    | succ f =>
      have ih := parseValue_print v f ([']'] ++ rest) (by simp only [jsizeElems] at hf; omega)
        (numEnd_elemsTail [] rest)
      simp only [printElems, List.append_assoc, parseElems, ih]
      simp [skipSpace, isSpace, rereadElems]
  | v, w :: ws, f, rest, hf => by
    cases f with
    | zero => simp [jsizeElems] at hf
    | succ f =>
      have ih := parseValue_print v f (elemsTail (w :: ws) ++ rest)
        (by simp only [jsizeElems] at hf; omega) (numEnd_elemsTail (w :: ws) rest)
      have ih2 := parseElems_print w ws f rest (by simp only [jsizeElems] at hf ⊢; omega)
      obtain ⟨c, t, h1, h2⟩ := printElems_head w ws rest
      rw [printElems_cons, List.append_assoc]
      simp only [parseElems, ih]
      have h3 : isSpace ',' = false := by decide
      simp only [elemsTail, List.cons_append, skipSpace_cons _ h3, if_true]
      rw [h1, skipSpace_cons _ h2.notSpace, ← h1, ih2]
      simp only [rereadElems]
theorem parseMembers_print : ∀ (kv : String × JVal) (kvs : List (String × JVal)) (f : Nat)
    (rest : List Char), jsizeMembers (kv :: kvs) ≤ f →
    parseMembers f (printMembers (kv :: kvs) ++ rest) = some (rereadMembers (kv :: kvs), rest)
  | (k, v), kvs, f, rest, hf => by
    cases f with
    | zero => simp [jsizeMembers] at hf
    | succ f =>
      have ih := parseValue_print v f (membersTail kvs ++ rest)
        (by simp only [jsizeMembers] at hf; omega) (numEnd_membersTail kvs rest)
      have hs := parseString_print k.data (':' :: (printVal v ++ (membersTail kvs ++ rest)))
      have h3 : isSpace ':' = false := by decide
      have e1 : printMembers ((k, v) :: kvs) ++ rest
          = '"' :: (k.data.flatMap escapeChar
              ++ '"' :: ':' :: (printVal v ++ (membersTail kvs ++ rest))) := by
        simp [printMembers_cons, printString]
      rw [e1]
      simp only [parseMembers, if_true, hs, skipSpace_cons _ h3, skipSpace_printVal, ih,
        skipSpace_membersTail]
      cases kvs with
      | nil => simp [membersTail, rereadMembers]
      | cons kv2 kvs2 =>
        have ih2 := parseMembers_print kv2 kvs2 f rest
          (by simp only [jsizeMembers] at hf ⊢; omega)
        obtain ⟨t, h1⟩ := printMembers_head kv2 kvs2 rest
        have h6 : isSpace '"' = false := by decide
        simp only [membersTail, List.cons_append, if_true]
        rw [h1, skipSpace_cons _ h6, ← h1, ih2]
        simp only [rereadMembers]
end

/-! ## Whole documents -/

mutual
theorem jsize_le_length : ∀ (v : JVal), jsize v ≤ (printVal v).length
  | JVal.null => by simp [jsize, printVal]
  | JVal.bool b => by cases b <;> simp [jsize, printVal]
  | JVal.num neg m e => by
    obtain ⟨c, t, h1, _⟩ := printNumber_head neg m e
    simp [jsize, printVal, h1]
  | JVal.str s => by simp [jsize, printVal, printString]
  | JVal.arr xs => by
    have := jsizeElems_le_length xs
    simp only [jsize, printVal, List.length_cons]
    omega
  | JVal.obj kvs => by
    have := jsizeMembers_le_length kvs
    simp only [jsize, printVal, List.length_cons]
    omega
theorem jsizeElems_le_length : ∀ (xs : List JVal), jsizeElems xs ≤ (printElems xs).length
  | [] => by simp [jsizeElems]
  | [v] => by
    have := jsize_le_length v
    simp only [jsizeElems, printElems, List.length_append, List.length_cons, List.length_nil]
    omega
  | v :: w :: rest => by
    have := jsize_le_length v
    have h2 := jsizeElems_le_length (w :: rest)
    simp only [jsizeElems] at h2 ⊢
    simp only [printElems, List.length_append, List.length_cons]
    omega
theorem jsizeMembers_le_length : ∀ (kvs : List (String × JVal)),
    jsizeMembers kvs ≤ (printMembers kvs).length
  | [] => by simp [jsizeMembers]
  | [(k, v)] => by
    have := jsize_le_length v
    simp only [jsizeMembers, printMembers, List.length_append, List.length_cons, List.length_nil]
    omega
  | (k, v) :: kv :: rest => by
    have := jsize_le_length v
    have h2 := jsizeMembers_le_length (kv :: rest)
    simp only [jsizeMembers] at h2 ⊢
    simp only [printMembers, List.length_append, List.length_cons]
    omega
end

theorem mem_putField (k : String) (v : JVal) (x : String × JVal) :
    ∀ (l : List (String × JVal)), x ∈ putField k v l → x = (k, v) ∨ x ∈ l := by
  intro l
  induction l with
  | nil => intro h; simp [putField] at h; exact Or.inl h
  | cons a t ih =>
    obtain ⟨k1, v1⟩ := a
    intro h
    unfold putField at h
    split at h
    · simp only [List.mem_cons] at h ⊢
      tauto
    · split at h
      · simp only [List.mem_cons] at h ⊢
        tauto
      · simp only [List.mem_cons] at h ⊢
        rcases h with h | h
        · tauto
        · rcases ih h with h2 | h2 <;> tauto

theorem sorted_putField (k : String) (v : JVal) :
    ∀ (l : List (String × JVal)), SortedKeys l → SortedKeys (putField k v l) := by
  intro l
  induction l with
  | nil => intro _; simp [putField, SortedKeys]
  | cons a t ih =>
    obtain ⟨k1, v1⟩ := a
    intro hs
    unfold SortedKeys at hs ih ⊢
    rw [List.pairwise_cons] at hs
    obtain ⟨h1, h2⟩ := hs
    unfold putField
    split
    · rename_i hlt
      rw [List.pairwise_cons]
      refine ⟨?_, List.pairwise_cons.mpr ⟨h1, h2⟩⟩
      intro b hb
      rcases List.mem_cons.mp hb with hb | hb
      · subst hb; exact hlt
      · exact lt_trans hlt (h1 b hb)
    · split
      · rename_i heq
        subst heq
        exact List.pairwise_cons.mpr ⟨h1, h2⟩
      · rename_i hnlt hne
        rw [List.pairwise_cons]
        refine ⟨?_, ih h2⟩
        intro b hb
        rcases mem_putField k v b t hb with hb | hb
        · subst hb
          have hne2 : k.data ≠ k1.data := fun h => hne (String.ext h)
          exact lt_of_le_of_ne (not_lt.mp hnlt) (Ne.symm hne2)
        · exact h1 b hb

theorem canonMembers_putField (k : String) (v : JVal) (hv : Canon v) :
    ∀ (l : List (String × JVal)), CanonMembers l → CanonMembers (putField k v l) := by
  intro l
  induction l with
  | nil => intro _; simp [putField, CanonMembers, hv]
  | cons a t ih =>
    obtain ⟨k1, v1⟩ := a
    intro hl
    simp only [CanonMembers] at hl
    unfold putField
    split
    · simp only [CanonMembers]; exact ⟨hv, hl.1, hl.2⟩
    · split
      · simp only [CanonMembers]; exact ⟨hv, hl.2⟩
      · simp only [CanonMembers]; exact ⟨hl.1, ih hl.2⟩

theorem putField_append (k : String) (v : JVal) :
    ∀ (acc : List (String × JVal)), (∀ a ∈ acc, a.1.data < k.data) →
      putField k v acc = acc ++ [(k, v)] := by
  intro acc
  induction acc with
  | nil => intro _; rfl
  | cons a t ih =>
    obtain ⟨k1, v1⟩ := a
    intro h
    have h1 : k1.data < k.data := h (k1, v1) (List.mem_cons_self _ _)
    have h2 : ¬ k.data < k1.data := lt_asymm h1
    have h3 : ¬ k = k1 := by
      intro heq
      subst heq
      exact lt_irrefl _ h1
    simp only [putField, h2, h3, if_false, List.cons_append]
    rw [ih (fun a ha => h a (List.mem_cons_of_mem _ ha))]

theorem canon_number (m : Nat) (e : Int) (h : inRange m e = true) :
    CanonNumber (normNumber m e).1 (normNumber m e).2 := by
  unfold inRange at h
  obtain ⟨f, hf⟩ := Option.isSome_iff_exists.mp h
  obtain ⟨_, h2, h3⟩ := normNumber_idem m e f hf
  unfold CanonNumber inRange
  refine ⟨Option.isSome_iff_exists.mpr ⟨f, h2⟩, ?_⟩
  rw [h3]

theorem allInRange_append {a b : List (Nat × Int)} :
    AllInRange (a ++ b) ↔ AllInRange a ∧ AllInRange b := by
  unfold AllInRange
  constructor
  · intro h
    exact ⟨fun n hn => h n (List.mem_append_left _ hn), fun n hn => h n (List.mem_append_right _ hn)⟩
  · rintro ⟨h1, h2⟩ n hn
    rcases List.mem_append.mp hn with hn | hn
    · exact h1 n hn
    · exact h2 n hn

mutual
theorem canon_normVal : ∀ (v : JVal), AllInRange (numbersOf v) → Canon (normVal v)
  | JVal.null, _ => by simp [normVal, Canon]
  | JVal.bool _, _ => by simp [normVal, Canon]
  | JVal.num _ m e, h => by
    simp only [numbersOf] at h
    simp only [normVal, Canon]
    exact canon_number m e (h (m, e) (List.mem_singleton.mpr rfl))
  | JVal.str _, _ => by simp [normVal, Canon]
  | JVal.arr xs, h => by
    simp only [numbersOf] at h
    simp only [normVal, Canon]
    exact canon_normElems xs h
  | JVal.obj kvs, h => by
    simp only [numbersOf] at h
    simp only [normVal, Canon]
    exact canon_normMembers kvs [] h (by simp [CanonMembers]) (by simp [SortedKeys])
theorem canon_normElems : ∀ (xs : List JVal), AllInRange (numbersOfElems xs) →
    CanonElems (normElems xs)
  | [], _ => by simp [normElems, CanonElems]
  | v :: vs, h => by
    simp only [numbersOfElems, allInRange_append] at h
    simp only [normElems, CanonElems]
    exact ⟨canon_normVal v h.1, canon_normElems vs h.2⟩
theorem canon_normMembers : ∀ (kvs acc : List (String × JVal)),
    AllInRange (numbersOfMembers kvs) → CanonMembers acc → SortedKeys acc →
    CanonMembers (normMembers kvs acc) ∧ SortedKeys (normMembers kvs acc)
  | [], acc, _, h1, h2 => by simp only [normMembers]; exact ⟨h1, h2⟩
  | (k, v) :: rest, acc, h, h1, h2 => by
    simp only [numbersOfMembers, allInRange_append] at h
    simp only [normMembers]
    exact canon_normMembers rest (putField k (normVal v) acc) h.2
      (canonMembers_putField k _ (canon_normVal v h.1) acc h1) (sorted_putField k _ acc h2)
end

mutual
theorem allInRange_of_canon : ∀ (v : JVal), Canon v → AllInRange (numbersOf v)
  | JVal.null, _ => by simp [numbersOf, AllInRange]
  | JVal.bool _, _ => by simp [numbersOf, AllInRange]
  | JVal.num _ m e, h => by
    simp only [Canon] at h
    simp only [numbersOf]
    intro n hn
    rw [List.mem_singleton.mp hn]
    exact h.1
  | JVal.str _, _ => by simp [numbersOf, AllInRange]
  | JVal.arr xs, h => by
    simp only [Canon] at h
    simp only [numbersOf]
    exact allInRange_of_canonElems xs h
  | JVal.obj kvs, h => by
    simp only [Canon] at h
    simp only [numbersOf]
    exact allInRange_of_canonMembers kvs h.1
theorem allInRange_of_canonElems : ∀ (xs : List JVal), CanonElems xs →
    AllInRange (numbersOfElems xs)
  | [], _ => by simp [numbersOfElems, AllInRange]
  | v :: vs, h => by
    simp only [CanonElems] at h
    simp only [numbersOfElems, allInRange_append]
    exact ⟨allInRange_of_canon v h.1, allInRange_of_canonElems vs h.2⟩
theorem allInRange_of_canonMembers : ∀ (kvs : List (String × JVal)), CanonMembers kvs →
    AllInRange (numbersOfMembers kvs)
  | [], _ => by simp [numbersOfMembers, AllInRange]
  | (_, v) :: kvs, h => by
    simp only [CanonMembers] at h
    simp only [numbersOfMembers, allInRange_append]
    exact ⟨allInRange_of_canon v h.1, allInRange_of_canonMembers kvs h.2⟩
end

theorem depthMembers_putField (k : String) (v : JVal) :
    ∀ (l : List (String × JVal)), depthMembers (putField k v l) ≤ max (depth v) (depthMembers l) := by
  intro l
  induction l with
  | nil => simp [putField, depthMembers]
  | cons a t ih =>
    obtain ⟨k1, v1⟩ := a
    unfold putField
    split
    · simp [depthMembers]
    · split
      · simp only [depthMembers]
        omega
      · simp only [depthMembers]
        omega

mutual
theorem depth_normVal : ∀ (v : JVal), depth (normVal v) ≤ depth v
  | JVal.null => by simp [normVal, depth]
  | JVal.bool _ => by simp [normVal, depth]
  | JVal.num _ _ _ => by simp [normVal, depth]
  | JVal.str _ => by simp [normVal, depth]
  | JVal.arr xs => by
    have := depth_normElems xs
    simp only [normVal, depth]
    omega
  | JVal.obj kvs => by
    have := depth_normMembers kvs []
    simp only [depthMembers] at this
    simp only [normVal, depth]
    omega
theorem depth_normElems : ∀ (xs : List JVal), depthElems (normElems xs) ≤ depthElems xs
  | [] => by simp [normElems]
  | v :: vs => by
    have h1 := depth_normVal v
    have h2 := depth_normElems vs
    simp only [normElems, depthElems]
    omega
theorem depth_normMembers : ∀ (kvs acc : List (String × JVal)),
    depthMembers (normMembers kvs acc) ≤ max (depthMembers kvs) (depthMembers acc)
  | [], acc => by simp [normMembers]
  | (k, v) :: rest, acc => by
    have h1 := depth_normVal v
    have h2 := depth_normMembers rest (putField k (normVal v) acc)
    have h3 := depthMembers_putField k (normVal v) acc
    simp only [normMembers, depthMembers]
    omega
end

mutual
theorem normVal_of_canon : ∀ (v : JVal), Canon v → normVal v = v
  | JVal.null, _ => by simp [normVal]
  | JVal.bool _, _ => by simp [normVal]
  | JVal.num _ m e, h => by
    simp only [Canon] at h
    simp only [normVal]
    rw [h.2]
  | JVal.str _, _ => by simp [normVal]
  | JVal.arr xs, h => by
    simp only [Canon] at h
    simp only [normVal, normElems_of_canon xs h]
  | JVal.obj kvs, h => by
    simp only [Canon] at h
    have := normMembers_of_canon kvs [] h.1 (by simpa using h.2)
    simp only [normVal, this, List.nil_append]
theorem normElems_of_canon : ∀ (xs : List JVal), CanonElems xs → normElems xs = xs
  | [], _ => by simp [normElems]
  | v :: vs, h => by
    simp only [CanonElems] at h
    simp only [normElems, normVal_of_canon v h.1, normElems_of_canon vs h.2]
theorem normMembers_of_canon : ∀ (kvs acc : List (String × JVal)), CanonMembers kvs →
    SortedKeys (acc ++ kvs) → normMembers kvs acc = acc ++ kvs
  | [], acc, _, _ => by simp [normMembers]
  | (k, v) :: rest, acc, h1, h2 => by
    simp only [CanonMembers] at h1
    have hlt : ∀ a ∈ acc, a.1.data < k.data := by
      intro a ha
      unfold SortedKeys at h2
      rw [List.pairwise_append] at h2
      exact h2.2.2 a ha (k, v) (List.mem_cons_self _ _)
    have h3 : SortedKeys ((acc ++ [(k, v)]) ++ rest) := by simpa using h2
    simp only [normMembers, normVal_of_canon v h1.1, putField_append k v acc hlt]
    rw [normMembers_of_canon rest (acc ++ [(k, v)]) h1.2 h3]
    simp
end

theorem parseJSON_eq {s : String} {v : JVal} (h : parseJSON s = some v) :
    ∃ raw, parseRaw s = some raw ∧ depth raw ≤ maxNestingDepth ∧ rangeOk raw = true
      ∧ v = normVal raw := by
  unfold parseJSON at h
  split at h
  · cases h
  · rename_i raw hraw
    split at h
    · rename_i hc
      injection h with h
      exact ⟨raw, hraw, hc.1, hc.2, h.symm⟩
    · cases h

theorem parseJSON_of_raw {s : String} {raw : JVal} (h : parseRaw s = some raw)
    (hd : depth raw ≤ maxNestingDepth) (hr : rangeOk raw = true) :
    parseJSON s = some (normVal raw) := by
  unfold parseJSON
  rw [h]
  simp only [hd, hr, and_self, if_true]

mutual
theorem normVal_reread : ∀ (v : JVal), normVal (reread v) = normVal v
  | JVal.null => by simp only [reread]
  | JVal.bool _ => by simp only [reread]
  | JVal.num _ m e => by
    simp only [reread, normVal]
    rw [(normNumber_reread m e).1]
  | JVal.str _ => by simp only [reread]
  | JVal.arr xs => by simp only [reread, normVal, normElems_reread xs]
  | JVal.obj kvs => by simp only [reread, normVal, normMembers_reread kvs []]
theorem normElems_reread : ∀ (xs : List JVal), normElems (rereadElems xs) = normElems xs
  | [] => by simp only [rereadElems]
  | v :: vs => by simp only [rereadElems, normElems, normVal_reread v, normElems_reread vs]
theorem normMembers_reread : ∀ (kvs acc : List (String × JVal)),
    normMembers (rereadMembers kvs) acc = normMembers kvs acc
  | [], _ => by simp only [rereadMembers]
  | (k, v) :: rest, acc => by
    simp only [rereadMembers, normMembers, normVal_reread v]
    exact normMembers_reread rest _
end

mutual
theorem depth_reread : ∀ (v : JVal), depth (reread v) = depth v
  | JVal.null => by simp only [reread]
  | JVal.bool _ => by simp only [reread]
  | JVal.num _ _ _ => by simp only [reread, depth]
  | JVal.str _ => by simp only [reread]
  | JVal.arr xs => by simp only [reread, depth, depthElems_reread xs]
  | JVal.obj kvs => by simp only [reread, depth, depthMembers_reread kvs]
theorem depthElems_reread : ∀ (xs : List JVal), depthElems (rereadElems xs) = depthElems xs
  | [] => by simp only [rereadElems]
  | v :: vs => by simp only [rereadElems, depthElems, depth_reread v, depthElems_reread vs]
theorem depthMembers_reread : ∀ (kvs : List (String × JVal)),
    depthMembers (rereadMembers kvs) = depthMembers kvs
  | [] => by simp only [rereadMembers]
  | (_, v) :: rest => by
    simp only [rereadMembers, depthMembers, depth_reread v, depthMembers_reread rest]
end

mutual
theorem allInRange_reread : ∀ (v : JVal), AllInRange (numbersOf v) →
    AllInRange (numbersOf (reread v))
  | JVal.null, h => by simpa only [reread] using h
  | JVal.bool _, h => by simpa only [reread] using h
  | JVal.num _ m e, h => by
    simp only [numbersOf] at h
    simp only [reread, numbersOf]
    intro n hn
    rw [List.mem_singleton.mp hn]
    have := h (m, e) (List.mem_singleton.mpr rfl)
    simp only at this ⊢
    rw [(normNumber_reread m e).2]
    exact this
  | JVal.str _, h => by simpa only [reread] using h
  | JVal.arr xs, h => by
    simp only [numbersOf] at h
    simp only [reread, numbersOf]
    exact allInRange_rereadElems xs h
  | JVal.obj kvs, h => by
    simp only [numbersOf] at h
    simp only [reread, numbersOf]
    exact allInRange_rereadMembers kvs h
theorem allInRange_rereadElems : ∀ (xs : List JVal), AllInRange (numbersOfElems xs) →
    AllInRange (numbersOfElems (rereadElems xs))
  | [], h => by simpa only [rereadElems] using h
  | v :: vs, h => by
    simp only [numbersOfElems, allInRange_append] at h
    simp only [rereadElems, numbersOfElems, allInRange_append]
    exact ⟨allInRange_reread v h.1, allInRange_rereadElems vs h.2⟩
theorem allInRange_rereadMembers : ∀ (kvs : List (String × JVal)),
    AllInRange (numbersOfMembers kvs) → AllInRange (numbersOfMembers (rereadMembers kvs))
  | [], h => by simpa only [rereadMembers] using h
  | (_, v) :: rest, h => by
    simp only [numbersOfMembers, allInRange_append] at h
    simp only [rereadMembers, numbersOfMembers, allInRange_append]
    exact ⟨allInRange_reread v h.1, allInRange_rereadMembers rest h.2⟩
end

theorem encodeSource_eq (src : DeclaredSource) (script : Script) :
    encodeSource src script
      = match fieldValue (populated src.search_template) with
        | Except.error err => Except.error (Failure.error err)
        | Except.ok tv =>
          Except.ok
            { Lang := script.Lang
              ScriptSource := (match src.script with
                | some s => some s
                | none => script.ScriptSource)
              SearchTemplateSource := (match tv with
                | some v => some v
                | none => script.SearchTemplateSource)
              Params := script.Params } := by
  obtain ⟨lit, tmpl⟩ := src
  cases tmpl with
  | none => cases lit <;> rfl
  | some t =>
    by_cases ht : t = ""
    · subst ht
      cases lit <;> simp [encodeSource, populated, fieldValue]
    · cases hj : jsonUnmarshalMap t <;> cases lit <;>
        simp [encodeSource, populated, fieldValue, ht, hj]

theorem encodeParams_eq (d : DeclaredScript) (script : Script) :
    encodeParams d script
      = match fieldValue (paramsOf d) with
        | Except.error err => Except.error (Failure.error err)
        | Except.ok pv =>
          Except.ok
            { Lang := script.Lang
              ScriptSource := script.ScriptSource
              SearchTemplateSource := script.SearchTemplateSource
              Params := (match pv with
                | some v => some v
                | none => script.Params) } := by
  obtain ⟨lang, source, params⟩ := d
  cases params with
  | none => rfl
  | some p =>
    by_cases hp : p = ""
    · subst hp
      simp [encodeParams, paramsOf, populated, fieldValue]
    · cases hj : jsonUnmarshalMap p <;>
        simp [encodeParams, paramsOf, populated, fieldValue, hp, hj]

theorem encodeScript_eq_encodeFields (d : DeclaredScript) : encodeScript d = encodeFields d := by
  obtain ⟨lang, source, params⟩ := d
  cases source with
  | none =>
    simp only [encodeScript, encodeParams_eq, encodeFields, sourceFailure, templateOf, literalOf,
      sourceMap]
    generalize fieldValue (paramsOf { lang := lang, source := none, params := params }) = r
    cases r with
    | error e => rfl
    | ok pv => cases pv <;> cases lang <;> rfl
  | some source =>
    cases source with
    | nil => rfl
    | cons b rest =>
      cases b with
      | none => rfl
      | some src =>
        simp only [encodeScript, firstBlock, encodeSource_eq, encodeParams_eq, encodeFields,
          sourceFailure, templateOf, literalOf, sourceMap]
        generalize fieldValue (paramsOf
          { lang := lang, source := some (some src :: rest), params := params }) = r
        generalize fieldValue (populated src.search_template) = q
        cases q with
        | error e => rfl
        | ok tv =>
          cases r with
          | error e => rfl
          | ok pv =>
            obtain ⟨lit, tmpl⟩ := src
            cases pv <;> cases tv <;> cases lang <;> cases lit <;> rfl

/-! ## Decoding into a map -/

theorem normVal_obj_inv {raw : JVal} {kvs : List (String × JVal)}
    (h : JVal.obj kvs = normVal raw) : ∃ kvs0, raw = JVal.obj kvs0 := by
  cases raw with
  | obj kvs0 => exact ⟨kvs0, rfl⟩
  | null => simp [normVal] at h
  | bool b => simp [normVal] at h
  | num neg m e => simp [normVal] at h
  | str s => simp [normVal] at h
  | arr xs => simp [normVal] at h

theorem normVal_null_inv {raw : JVal} (h : JVal.null = normVal raw) : raw = JVal.null := by
  cases raw with
  | null => rfl
  | obj kvs0 => simp [normVal] at h
  | bool b => simp [normVal] at h
  | num neg m e => simp [normVal] at h
  | str s => simp [normVal] at h
  | arr xs => simp [normVal] at h

theorem jsonUnmarshalMap_ok {s : String} {v : JVal} (h : jsonUnmarshalMap s = Except.ok v) :
    parseJSON s = some v ∧ (v = JVal.null ∨ ∃ kvs, v = JVal.obj kvs) := by
  unfold jsonUnmarshalMap at h
  cases hraw : parseRaw s with
  | none => simp [hraw] at h
  | some raw =>
    simp only [hraw] at h
    by_cases hd : maxNestingDepth < depth raw
    · simp [hd] at h
    · simp only [hd, if_false] at h
      have hd2 : depth raw ≤ maxNestingDepth := Nat.le_of_not_lt hd
      cases raw with
      | null =>
        injection h with h
        subst h
        exact ⟨parseJSON_of_raw hraw hd2 (by simp [rangeOk, numbersOf]), Or.inl rfl⟩
      | obj kvs =>
        by_cases hr : rangeOk (JVal.obj kvs) = true
        · simp only [hr, if_true] at h
          injection h with h
          subst h
          exact ⟨parseJSON_of_raw hraw hd2 hr, Or.inr ⟨normMembers kvs [], by simp only [normVal]⟩⟩
        · simp [hr] at h
      | bool b => cases h
      | num neg m e => cases h
      | str t => cases h
      | arr xs => cases h

theorem jsonUnmarshalMap_obj {s : String} {kvs : List (String × JVal)}
    (h : parseJSON s = some (JVal.obj kvs)) : jsonUnmarshalMap s = Except.ok (JVal.obj kvs) := by
  obtain ⟨raw, hraw, hd, hr, hv⟩ := parseJSON_eq h
  obtain ⟨kvs0, h0⟩ := normVal_obj_inv hv
  subst h0
  unfold jsonUnmarshalMap
  rw [hraw]
  simp only [Nat.not_lt.mpr hd, if_false, hr, if_true]
  rw [hv]

theorem jsonUnmarshalMap_null {s : String} (h : parseJSON s = some JVal.null) :
    jsonUnmarshalMap s = Except.ok JVal.null := by
  obtain ⟨raw, hraw, hd, _, hv⟩ := parseJSON_eq h
  have h0 := normVal_null_inv hv
  subst h0
  unfold jsonUnmarshalMap
  rw [hraw]
  simp only [Nat.not_lt.mpr hd, if_false]

theorem jsonUnmarshalMap_ok_iff (s : String) :
    (∃ v, jsonUnmarshalMap s = Except.ok v) ↔ DecodesToMap s := by
  constructor
  · rintro ⟨v, hv⟩
    obtain ⟨hp, hk⟩ := jsonUnmarshalMap_ok hv
    rcases hk with hk | ⟨kvs, hk⟩
    · subst hk; exact Or.inl hp
    · subst hk; exact Or.inr ⟨kvs, hp⟩
  · rintro (h | ⟨kvs, h⟩)
    · exact ⟨_, jsonUnmarshalMap_null h⟩
    · exact ⟨_, jsonUnmarshalMap_obj h⟩

theorem fieldValue_cases (o : Option String) :
    (o = none ∧ fieldValue o = Except.ok none)
    ∨ (∃ t v, o = some t ∧ fieldValue o = Except.ok (some v) ∧ parseJSON t = some v
        ∧ DecodesToMap t)
    ∨ (∃ t err, o = some t ∧ fieldValue o = Except.error err ∧ ¬ DecodesToMap t
        ∧ jsonUnmarshalMap t = Except.error err) := by
  cases o with
  | none => exact Or.inl ⟨rfl, rfl⟩
  | some t =>
    cases h : jsonUnmarshalMap t with
    | error e =>
      refine Or.inr (Or.inr ⟨t, e, rfl, by simp [fieldValue, h], ?_, h⟩)
      intro hd
      obtain ⟨v, hv⟩ := (jsonUnmarshalMap_ok_iff t).mpr hd
      rw [h] at hv
      cases hv
    | ok v =>
      exact Or.inr (Or.inl ⟨t, v, rfl, by simp [fieldValue, h], (jsonUnmarshalMap_ok h).1,
        (jsonUnmarshalMap_ok_iff t).mp ⟨v, h⟩⟩)

theorem sourceFailure_of_shape {d : DeclaredScript}
    (hshape : d.source = none ∨ ∃ src rest, d.source = some (some src :: rest)) :
    sourceFailure d = none := by
  unfold sourceFailure
  rcases hshape with h | ⟨src, rest, h⟩
  · rw [h]
  · rw [h]
    rfl

/-- The outcome of the encoding of a block whose source block is absent or a
map, by the two strings it decodes. -/
theorem encodeFields_cases (d : DeclaredScript)
    (hshape : d.source = none ∨ ∃ src rest, d.source = some (some src :: rest)) :
    (∃ tv pv, encodeScript d = Except.ok
        { Lang := d.lang, ScriptSource := literalOf d, SearchTemplateSource := tv, Params := pv }
        ∧ fieldValue (templateOf d) = Except.ok tv ∧ fieldValue (paramsOf d) = Except.ok pv)
    ∨ (∃ err, encodeScript d = Except.error (Failure.error err)
        ∧ (fieldValue (templateOf d) = Except.error err
          ∨ fieldValue (paramsOf d) = Except.error err)) := by
  rw [encodeScript_eq_encodeFields]
  unfold encodeFields
  rw [sourceFailure_of_shape hshape]
  cases ht : fieldValue (templateOf d) with
  | error e => exact Or.inr ⟨e, rfl, Or.inl rfl⟩
  | ok tv =>
    cases hp : fieldValue (paramsOf d) with
    | error e => exact Or.inr ⟨e, rfl, Or.inr rfl⟩
    | ok pv => exact Or.inl ⟨tv, pv, rfl, rfl, rfl⟩

theorem fieldValue_error {o : Option String} {err : String}
    (h : fieldValue o = Except.error err) :
    ∃ t, o = some t ∧ ¬ DecodesToMap t ∧ jsonUnmarshalMap t = Except.error err := by
  rcases fieldValue_cases o with ⟨_, h2⟩ | ⟨t, v, _, h2, _, _⟩ | ⟨t, e, h1, h2, h3, h4⟩
  · rw [h2] at h; cases h
  · rw [h2] at h; cases h
  · rw [h2] at h
    injection h with h
    subst h
    exact ⟨t, h1, h3, h4⟩

theorem fieldValue_ok {o : Option String} {ov : Option JVal}
    (h : fieldValue o = Except.ok ov) :
    (∀ t, o = some t → DecodesToMap t ∧ ov = parseJSON t) := by
  intro t ht
  rcases fieldValue_cases o with ⟨h1, _⟩ | ⟨t1, v, h1, h2, h3, h4⟩ | ⟨t1, e, _, h2, _, _⟩
  · rw [h1] at ht; cases ht
  · rw [h1] at ht
    injection ht with ht
    subst ht
    rw [h2] at h
    injection h with h
    subst h
    exact ⟨h4, h3.symm⟩
  · rw [h2] at h; cases h

/-- C7 (amended): for a declared block whose source block is absent or
present as a map, the encoding step returns a decode error exactly when a
populated `search_template` or `params` string does not decode into a
`map[string]interface{}`: when it is malformed, nested deeper than the
decoder allows, holds a number outside the range of `float64`, or is an
array, a string, a number or a boolean.  Otherwise the encoding returns a
script, and each populated field is stored as the value its string parses
to. -/
theorem encode_error_iff_not_map (d : DeclaredScript)
    (hshape : d.source = none ∨ ∃ src rest, d.source = some (some src :: rest)) :
    ((∃ err, encodeScript d = Except.error (Failure.error err)) ↔
      ((∃ t, templateOf d = some t ∧ ¬ DecodesToMap t)
        ∨ (∃ p, paramsOf d = some p ∧ ¬ DecodesToMap p)))
    ∧ ((∃ sc, encodeScript d = Except.ok sc) ↔
      ((∀ t, templateOf d = some t → DecodesToMap t)
        ∧ (∀ p, paramsOf d = some p → DecodesToMap p)))
    ∧ (∀ sc, encodeScript d = Except.ok sc →
        (∀ t, templateOf d = some t → sc.SearchTemplateSource = parseJSON t)
        ∧ (∀ p, paramsOf d = some p → sc.Params = parseJSON p)) := by
  rcases encodeFields_cases d hshape with ⟨tv, pv, henc, ht, hp⟩ | ⟨err, henc, herr⟩
  · have h1 := fieldValue_ok ht
    have h2 := fieldValue_ok hp
    refine ⟨?_, ?_, ?_⟩
    · constructor
      · rintro ⟨e, he⟩
        rw [henc] at he
        cases he
      · rintro (⟨t, h, hn⟩ | ⟨p, h, hn⟩)
        · exact absurd (h1 t h).1 hn
        · exact absurd (h2 p h).1 hn
    · constructor
      · intro _
        exact ⟨fun t h => (h1 t h).1, fun p h => (h2 p h).1⟩
      · intro _
        exact ⟨_, henc⟩
    · intro sc hsc
      rw [henc] at hsc
      injection hsc with hsc
      subst hsc
      exact ⟨fun t h => (h1 t h).2, fun p h => (h2 p h).2⟩
  · have hbad : (∃ t, templateOf d = some t ∧ ¬ DecodesToMap t)
        ∨ (∃ p, paramsOf d = some p ∧ ¬ DecodesToMap p) := by
      rcases herr with h | h
      · obtain ⟨t, h1, h2, _⟩ := fieldValue_error h
        exact Or.inl ⟨t, h1, h2⟩
      · obtain ⟨p, h1, h2, _⟩ := fieldValue_error h
        exact Or.inr ⟨p, h1, h2⟩
    refine ⟨?_, ?_, ?_⟩
    · exact ⟨fun _ => hbad, fun _ => ⟨err, henc⟩⟩
    · constructor
      · rintro ⟨sc, hsc⟩
        rw [henc] at hsc
        cases hsc
      · rintro ⟨ha, hb⟩
        rcases hbad with ⟨t, h, hn⟩ | ⟨p, h, hn⟩
        · exact absurd (ha t h) hn
        · exact absurd (hb p h) hn
    · intro sc hsc
      rw [henc] at hsc
      cases hsc

theorem not_decodesToMap_of_none {s : String} (h : parseJSON s = none) : ¬ DecodesToMap s := by
  rintro (h1 | ⟨kvs, h1⟩) <;> rw [h] at h1 <;> cases h1

theorem not_decodesToMap_of_arr {s : String} {xs : List JVal}
    (h : parseJSON s = some (JVal.arr xs)) : ¬ DecodesToMap s := by
  rintro (h1 | ⟨kvs, h1⟩) <;> rw [h] at h1 <;> cases h1

theorem eq_of_some_eq {a b : String} (h : some a = some b) : b = a := by
  injection h with h
  exact h.symm

/-- C7 (witness): a search template that is an array and params that hold a
number beyond the largest double are rejected; a search template that is an
object is accepted and stored as the value it parses to. -/
theorem encode_error_iff_not_map_witness :
    (∃ err, encodeScript arrayTemplateBlock = Except.error (Failure.error err))
    ∧ (∃ err, encodeScript hugeNumberBlock = Except.error (Failure.error err))
    ∧ (∃ sc, encodeScript templateBlock = Except.ok sc
        ∧ sc.SearchTemplateSource = parseJSON "\x7b\"query\":\x7b\"match\":\x7b\"f\":\"\x7b\x7bv\x7d\x7d\"\x7d\x7d\x7d"
        ∧ sc.Params = parseJSON "\x7b\x7d") := by
  refine ⟨?_, ?_, ?_⟩
  · exact (encode_error_iff_not_map arrayTemplateBlock (Or.inr ⟨_, _, rfl⟩)).1.mpr
      (Or.inl ⟨"[1]", rfl,
        not_decodesToMap_of_arr (rfl : parseJSON "[1]" = some (JVal.arr [JVal.num false 1 0]))⟩)
  · exact (encode_error_iff_not_map hugeNumberBlock (Or.inr ⟨_, _, rfl⟩)).1.mpr
      (Or.inr ⟨"\x7b\"a\":1e400\x7d", rfl,
        not_decodesToMap_of_none (rfl : parseJSON "\x7b\"a\":1e400\x7d" = none)⟩)
  · have h := encode_error_iff_not_map templateBlock (Or.inr ⟨_, _, rfl⟩)
    have ht : templateOf templateBlock = some "\x7b\"query\":\x7b\"match\":\x7b\"f\":\"\x7b\x7bv\x7d\x7d\"\x7d\x7d\x7d" := rfl
    have hp : paramsOf templateBlock = some "\x7b\x7d" := rfl
    obtain ⟨sc, hsc⟩ := h.2.1.mpr
      ⟨fun t h1 => by
          rw [ht] at h1
          rw [eq_of_some_eq h1]
          exact Or.inr ⟨_, rfl⟩,
        fun p h1 => by
          rw [hp] at h1
          rw [eq_of_some_eq h1]
          exact Or.inr ⟨_, rfl⟩⟩
    exact ⟨sc, hsc, (h.2.2 sc hsc).1 _ ht, (h.2.2 sc hsc).2 _ hp⟩

/-- C7 (counterexample): `[1]` and `{"size":1e400}` are well-formed JSON
documents, and the encoding of a block whose `search_template` holds one of
them returns a decode error: the first is not an object, the second holds a
number beyond the largest double. -/
theorem encode_rejects_array_template :
    parseRaw "[1]" = some (JVal.arr [JVal.num false 1 0])
    ∧ encodeScript arrayTemplateBlock
        = Except.error (Failure.error
            "json: cannot unmarshal array into Go value of type map[string]interface \x7b\x7d")
    ∧ parseRaw "\x7b\"size\":1e400\x7d" = some (JVal.obj [("size", JVal.num false 1 400)])
    ∧ encodeScript hugeTemplateBlock
        = Except.error (Failure.error
            "json: cannot unmarshal number 1e400 into Go value of type float64") := by
  exact ⟨by rfl, by rfl, by rfl, by rfl⟩

/-! ## Rendering an encoded script -/

theorem populated_of_ne {t : String} (h : t ≠ "") : populated (some t) = some t := by
  simp [populated, h]

theorem sourceMap_of_block {d : DeclaredScript} {src : DeclaredSource}
    {rest : List (Option DeclaredSource)} (h : d.source = some (some src :: rest)) :
    sourceMap d = some src ∧ sourceFailure d = none := by
  unfold sourceMap sourceFailure
  rw [h]
  exact ⟨rfl, rfl⟩

/-- The text `json.Marshal` gives numbers: the shortest decimal that reads
back to the double, in the layouts of `encoding/json`. -/
theorem marshalText_numbers :
    marshalText (JVal.arr [JVal.num false 1 (-1), JVal.num false 100 0, JVal.num false 1 21,
      JVal.num true 0 0, JVal.num false 1 (-7), JVal.num false 123456789 (-4),
      JVal.num false 5 (-324), JVal.num false 1 20, JVal.num false 15 (-1)])
    = "[0.1,100,1e+21,-0,1e-7,12345.6789,5e-324,100000000000000000000,1.5]" := by
  rfl

/-- The rendering of the script encoded from a block with numbers among its
params: the params come back with sorted keys and no blanks. -/
theorem render_rate_block :
    ∃ sc, encodeScript rateBlock = Except.ok sc
      ∧ renderScript sc = Except.ok
          { lang := some "painless"
            source := some [some { script := some "doc['price'].value * params.rate",
                                   search_template := none }]
            params := some "\x7b\"rate\":0.1,\"size\":100\x7d" } :=
  ⟨_, rfl, rfl⟩

/-! ## Source variants and defaults -/

theorem encodeScript_error_is_decode_error (d : DeclaredScript) (err : String)
    (h : encodeScript d = Except.error (Failure.error err)) :
    (∃ t, templateOf d = some t ∧ jsonUnmarshalMap t = Except.error err)
    ∨ (∃ p, paramsOf d = some p ∧ jsonUnmarshalMap p = Except.error err) := by
  rw [encodeScript_eq_encodeFields] at h
  unfold encodeFields at h
  cases hf : sourceFailure d with
  | some f =>
    rw [hf] at h
    simp only at h
    injection h with h
    subst h
    unfold sourceFailure at hf
    cases hs : d.source with
    | none => rw [hs] at hf; cases hf
    | some source =>
      rw [hs] at hf
      simp only at hf
      cases source with
      | nil =>
        simp only [firstBlock] at hf
        injection hf with hf
        cases hf
      | cons b rest =>
        cases b with
        | none =>
          simp only [firstBlock] at hf
          injection hf with hf
          cases hf
        | some src =>
          simp only [firstBlock] at hf
          cases hf
  | none =>
    rw [hf] at h
    simp only at h
    cases ht : fieldValue (templateOf d) with
    | error e =>
      rw [ht] at h
      simp only at h
      injection h with h
      injection h with h
      subst h
      obtain ⟨t, h1, _, h3⟩ := fieldValue_error ht
      exact Or.inl ⟨t, h1, h3⟩
    | ok tv =>
      rw [ht] at h
      simp only at h
      cases hp : fieldValue (paramsOf d) with
      | error e =>
        rw [hp] at h
        simp only at h
        injection h with h
        injection h with h
        subst h
        obtain ⟨p, h1, _, h3⟩ := fieldValue_error hp
        exact Or.inr ⟨p, h1, h3⟩
      | ok pv =>
        rw [hp] at h
        cases h

/-- C5 (amended): the encoding step does not reject a source block for the
variants it supplies.  A block whose source block supplies both a non-empty
script and a non-empty search template is encoded, when the search template
and the populated params decode into a map, into a script with both
`ScriptSource` and `SearchTemplateSource` set.  For every block, an error
returned by the encoding is the decode error of the populated search template
or of the populated params. -/
theorem encode_accepts_both_variants (d : DeclaredScript) (src : DeclaredSource)
    (rest : List (Option DeclaredSource)) (s t : String) (tv : JVal) (pv : Option JVal)
    (hsrc : d.source = some (some src :: rest))
    (hs : src.script = some s) (hsne : s ≠ "")
    (ht : src.search_template = some t) (htne : t ≠ "")
    (htv : jsonUnmarshalMap t = Except.ok tv)
    (hpv : fieldValue (paramsOf d) = Except.ok pv) :
    encodeScript d = Except.ok
        { Lang := d.lang, ScriptSource := some s, SearchTemplateSource := some tv, Params := pv }
    ∧ (∀ (d1 : DeclaredScript) (err : String),
        encodeScript d1 = Except.error (Failure.error err) →
        (∃ t1, templateOf d1 = some t1 ∧ jsonUnmarshalMap t1 = Except.error err)
        ∨ (∃ p1, paramsOf d1 = some p1 ∧ jsonUnmarshalMap p1 = Except.error err)) := by
  obtain ⟨hmap, hfail⟩ := sourceMap_of_block hsrc
  have hlit : literalOf d = some s := by simp [literalOf, hmap, hs]
  have htmpl : templateOf d = some t := by simp [templateOf, hmap, ht, populated_of_ne htne]
  have _ := hsne
  refine ⟨?_, encodeScript_error_is_decode_error⟩
  rw [encodeScript_eq_encodeFields]
  unfold encodeFields
  rw [hfail]
  simp only
  rw [hpv, htmpl, hlit]
  simp only [fieldValue, htv]

/-- C5 (witness): a block that supplies both variants, with the default params. -/
theorem encode_accepts_both_variants_witness :
    encodeScript bothBlock = Except.ok
        { Lang := bothBlock.lang, ScriptSource := some "1 + 1",
          SearchTemplateSource := some (JVal.obj [("query", JVal.obj [])]),
          Params := some (JVal.obj []) }
    ∧ (∀ (d1 : DeclaredScript) (err : String),
        encodeScript d1 = Except.error (Failure.error err) →
        (∃ t1, templateOf d1 = some t1 ∧ jsonUnmarshalMap t1 = Except.error err)
        ∨ (∃ p1, paramsOf d1 = some p1 ∧ jsonUnmarshalMap p1 = Except.error err)) :=
  encode_accepts_both_variants bothBlock
    { script := some "1 + 1", search_template := some "\x7b\"query\":\x7b\x7d\x7d" } []
    "1 + 1" "\x7b\"query\":\x7b\x7d\x7d" (JVal.obj [("query", JVal.obj [])]) (some (JVal.obj []))
    rfl rfl (by decide) rfl (by decide) rfl rfl

/-- C5 (counterexample): no error diagnostic comes from the encoding of a
block that supplies both a non-empty script and a non-empty search template,
which is encoded with both fields set, nor from that of a block that supplies
neither: a source block in which nothing is set reaches the encoding as a nil
element and makes it panic, and a source block that holds two empty strings
is encoded. -/
theorem encode_does_not_reject_both_or_neither :
    encodeScript bothBlock = Except.ok
        { Lang := some "mustache", ScriptSource := some "1 + 1",
          SearchTemplateSource := some (JVal.obj [("query", JVal.obj [])]),
          Params := some (JVal.obj []) }
    ∧ encodeScript emptySourceBlock = Except.error
        (Failure.panic "interface conversion: interface \x7b\x7d is nil, not map[string]interface \x7b\x7d")
    ∧ (∃ sc, encodeScript neitherBlock = Except.ok sc) :=
  ⟨rfl, rfl, ⟨_, rfl⟩⟩

theorem encodeFields_params {d : DeclaredScript} {sc : Script}
    (h : encodeScript d = Except.ok sc) : fieldValue (paramsOf d) = Except.ok sc.Params := by
  rw [encodeScript_eq_encodeFields] at h
  unfold encodeFields at h
  cases hf : sourceFailure d with
  | some f => rw [hf] at h; cases h
  | none =>
    rw [hf] at h
    simp only at h
    cases hft : fieldValue (templateOf d) with
    | error e => rw [hft] at h; cases h
    | ok tv =>
      rw [hft] at h
      cases hfp : fieldValue (paramsOf d) with
      | error e => rw [hfp] at h; cases h
      | ok pv =>
        rw [hfp] at h
        injection h with h
        subst h
        rfl

/-- C6 (amended): when params is unspecified (the key is absent or holds the
empty string) the script the encoding returns has `Params` unset; when params
holds the schema default `{}` it has `Params` equal to the empty JSON
object. -/
theorem encode_params_unspecified (d : DeclaredScript) (sc : Script)
    (henc : encodeScript d = Except.ok sc)
    (hp : d.params = none ∨ d.params = some "" ∨ d.params = some "\x7b\x7d") :
    sc.Params = if d.params = some "\x7b\x7d" then some (JVal.obj []) else none := by
  have h := encodeFields_params henc
  rcases hp with hp | hp | hp
  · have h1 : fieldValue (paramsOf d) = Except.ok none := by
      simp [paramsOf, hp, populated, fieldValue]
    rw [h1] at h
    injection h with h
    rw [← h, hp]
    simp
  · have h1 : fieldValue (paramsOf d) = Except.ok none := by
      simp [paramsOf, hp, populated, fieldValue]
    rw [h1] at h
    injection h with h
    rw [← h, hp]
    simp
  · have h1 : fieldValue (paramsOf d) = Except.ok (some (JVal.obj [])) := by
      have h2 : paramsOf d = some "\x7b\x7d" := by
        rw [paramsOf, hp]
        rfl
      rw [h2]
      rfl
    rw [h1] at h
    injection h with h
    rw [← h, hp]
    simp

/-- C6 (witness): a block whose params string is empty, and a block with the
default params. -/
theorem encode_params_unspecified_witness :
    (encodeScript noParamsBlock = Except.ok
        { Lang := some "painless", ScriptSource := some "1 + 1",
          SearchTemplateSource := none, Params := none }
      ∧ (noParamsBlock.params = none ∨ noParamsBlock.params = some ""
          ∨ noParamsBlock.params = some "\x7b\x7d")
      ∧ (none : Option JVal)
          = if noParamsBlock.params = some "\x7b\x7d" then some (JVal.obj []) else none)
    ∧ (encodeScript bothBlock = Except.ok
        { Lang := some "mustache", ScriptSource := some "1 + 1",
          SearchTemplateSource := some (JVal.obj [("query", JVal.obj [])]),
          Params := some (JVal.obj []) }
      ∧ (bothBlock.params = none ∨ bothBlock.params = some "" ∨ bothBlock.params = some "\x7b\x7d")
      ∧ some (JVal.obj [])
          = if bothBlock.params = some "\x7b\x7d" then some (JVal.obj []) else none) :=
  ⟨⟨rfl, Or.inr (Or.inl rfl),
      encode_params_unspecified noParamsBlock
        { Lang := some "painless", ScriptSource := some "1 + 1",
          SearchTemplateSource := none, Params := none }
        rfl (Or.inr (Or.inl rfl))⟩,
    ⟨rfl, Or.inr (Or.inr rfl),
      encode_params_unspecified bothBlock
        { Lang := some "mustache", ScriptSource := some "1 + 1",
          SearchTemplateSource := some (JVal.obj [("query", JVal.obj [])]),
          Params := some (JVal.obj []) }
        rfl (Or.inr (Or.inr rfl))⟩⟩

/-- C6 (counterexample): a block whose params string is empty is encoded with
`Params` unset, not with the empty JSON object. -/
theorem encode_empty_params_unset :
    encodeScript noParamsBlock = Except.ok
      { Lang := some "painless", ScriptSource := some "1 + 1",
        SearchTemplateSource := none, Params := none } :=
  rfl

/-- C4 (failing input): for a block whose search template is populated and
whose `script` key holds the empty string, the encoded script has both
`ScriptSource` and `SearchTemplateSource` set. -/
theorem encode_empty_script_is_set :
    encodeScript templateBlock = Except.ok
      { Lang := some "mustache", ScriptSource := some "",
        SearchTemplateSource := some
          (JVal.obj [("query", JVal.obj [("match", JVal.obj [("f", JVal.str "\x7b\x7bv\x7d\x7d")])])]),
        Params := some (JVal.obj []) } :=
  rfl

theorem encode_keeps_script_key (d : DeclaredScript) (sc : Script)
    (h : encodeScript d = Except.ok sc) : sc.ScriptSource = literalOf d := by
  rw [encodeScript_eq_encodeFields] at h
  unfold encodeFields at h
  cases hf : sourceFailure d with
  | some f => rw [hf] at h; cases h
  | none =>
    rw [hf] at h
    simp only at h
    cases hft : fieldValue (templateOf d) with
    | error e => rw [hft] at h; cases h
    | ok tv =>
      rw [hft] at h
      cases hfp : fieldValue (paramsOf d) with
      | error e => rw [hfp] at h; cases h
      | ok pv =>
        rw [hfp] at h
        injection h with h
        subst h
        rfl

/-! ## Put, Read and Delete -/

theorem hasError_fromErr (err : String) : HasError (FromErr err) = true := by
  simp [HasError, FromErr]

theorem buildStoredScript_ok {d : ResourceData} {st : StoredScript}
    (h : buildStoredScript d = Except.ok st) : st = { Name := d.name, Script := none } := by
  unfold buildStoredScript at h
  cases hs : d.script with
  | nil =>
    simp only [hs] at h
    injection h with h
    exact h.symm
  | cons b rest =>
    simp only [hs] at h
    cases b with
    | none => simp [firstBlock] at h
    | some block =>
      simp only [firstBlock] at h
      cases he : encodeScript block with
      | error e => simp [he] at h
      | ok sc =>
        simp only [he] at h
        injection h with h
        exact h.symm

theorem buildStoredScript_of_block {d : ResourceData} {block : DeclaredScript}
    {rest : List (Option DeclaredScript)} (hs : d.script = some block :: rest) :
    buildStoredScript d
      = match encodeScript block with
        | Except.error f => Except.error f
        | Except.ok _ => Except.ok { Name := d.name, Script := none } := by
  unfold buildStoredScript
  simp only [hs, firstBlock]

/-- The client's fetch adds its request to the log, and yields no stored
script only together with an error diagnostic. -/
theorem get_result (env : Env) (a : ApiClient) (scriptId : String) (log : List Call) :
    (GetElasticsearchStoredScript env a scriptId log).2 = log ++ [Call.get scriptId]
    ∧ ((GetElasticsearchStoredScript env a scriptId log).1.1 = none →
        HasError (GetElasticsearchStoredScript env a scriptId log).1.2 = true) := by
  unfold GetElasticsearchStoredScript
  cases hg : a.GetScript log scriptId with
  | error e => exact ⟨rfl, fun _ => hasError_fromErr e⟩
  | ok res =>
    by_cases h404 : res.StatusCode = 404
    · simp [h404, HasError]
    · by_cases hc : HasError (env.CheckError res "Unable to get a stored script.") = true
      · simp [h404, hc]
      · cases hd : env.decodeStoredScript res.Body with
        | error e => simp [h404, hc, hd, hasError_fromErr]
        | ok st => simp [h404, hc, hd]

theorem hasError_ne_nil {diags : List Diagnostic} (h : HasError diags = true) :
    diags.isEmpty = false := by
  cases diags with
  | nil => simp [HasError] at h
  | cons a t => rfl

/-- The function `resourceStoredScriptRead` leaves the id as it finds it and
extends the log of requests: the branch that clears the id is behind a fetch
that yields neither a stored script nor a diagnostic, which the client never
does. -/
theorem read_keeps_id (env : Env) (d : ResourceData) (log : List Call) :
    (resourceStoredScriptRead env d log).2.1.id = d.id
    ∧ ∃ rest, (resourceStoredScriptRead env d log).2.2 = log ++ rest := by
  unfold resourceStoredScriptRead
  cases hc : env.NewApiClient with
  | error e => exact ⟨rfl, [], by simp⟩
  | ok client =>
    by_cases hp : HasError (env.CompositeIdFromStr d.id).2 = true
    · refine ⟨by simp [hp], [], by simp [hp]⟩
    · simp only [hp]
      obtain ⟨hlog, hnone⟩ :=
        get_result env client (env.CompositeIdFromStr d.id).1.ResourceId log
      generalize GetElasticsearchStoredScript env client
        (env.CompositeIdFromStr d.id).1.ResourceId log = r at hlog hnone ⊢
      obtain ⟨⟨st, diags⟩, log1⟩ := r
      simp only at hlog hnone
      subst hlog
      cases st with
      | none =>
        have he := hnone rfl
        have hne := hasError_ne_nil he
        refine ⟨by simp [hp, hne, he],
          [Call.get (env.CompositeIdFromStr d.id).1.ResourceId], by simp [hp, hne, he]⟩
      | some stored =>
        by_cases hd : HasError diags = true
        · refine ⟨by simp [hp, hd],
            [Call.get (env.CompositeIdFromStr d.id).1.ResourceId], by simp [hp, hd]⟩
        · cases hs : stored.Script with
          | none =>
            refine ⟨by simp [hp, hd, hs],
              [Call.get (env.CompositeIdFromStr d.id).1.ResourceId], by simp [hp, hd, hs]⟩
          | some script =>
            cases hr : renderScript script with
            | error e =>
              refine ⟨by simp [hp, hd, hs, hr],
                [Call.get (env.CompositeIdFromStr d.id).1.ResourceId], by simp [hp, hd, hs, hr]⟩
            | ok rendered =>
              refine ⟨by simp [hp, hd, hs, hr],
                [Call.get (env.CompositeIdFromStr d.id).1.ResourceId], by simp [hp, hd, hs, hr]⟩

theorem put_eq (env : Env) (client : ApiClient) (d : ResourceData) (log : List Call)
    (hclient : env.NewApiClient = Except.ok client)
    (hid : HasError (client.ID d.name).2 = false) :
    resourceStoredScriptPut env d log
      = match buildStoredScript d with
        | Except.error (Failure.error err) => Run.returned (FromErr err, d, log)
        | Except.error (Failure.panic msg) => Run.panicked msg log
        | Except.ok storedScript =>
          if HasError (PutElasticsearchStoredScript env client storedScript log).1 then
            Run.returned ((PutElasticsearchStoredScript env client storedScript log).1, d,
              (PutElasticsearchStoredScript env client storedScript log).2)
          else
            Run.returned
              (resourceStoredScriptRead env { d with id := (client.ID d.name).1.String }
                (PutElasticsearchStoredScript env client storedScript log).2) := by
  unfold resourceStoredScriptPut
  simp only [hclient, hid]
  rfl

/-- C8: with a client and a composed id at hand, `resourceStoredScriptPut`
assigns the resource id only after the remote write has succeeded.  When the
encoding of the declared block returns an error, that error is returned, no
request is issued and the resource data is unchanged; when it panics, no
request has been issued.  When the stored script cannot be marshalled, the
error is returned and no request is issued.  When the transport of the write
fails, or the response of the store is not a success for `CheckError`, that
error is returned, the write is the only request issued and the resource data
is unchanged.  When the store accepts the write, the outcome is that of
`resourceStoredScriptRead` on the resource data whose id is the composed id,
after the write, and the id stays the composed id.  Conversely, whenever the
function returns with an id other than the one it found, the write was issued
and accepted, and the id is the composed id. -/
theorem put_assigns_id_after_write (env : Env) (client : ApiClient) (d : ResourceData)
    (log : List Call) (hclient : env.NewApiClient = Except.ok client)
    (hid : HasError (client.ID d.name).2 = false) :
    (∀ block rest err, d.script = some block :: rest →
        encodeScript block = Except.error (Failure.error err) →
        resourceStoredScriptPut env d log = Run.returned (FromErr err, d, log))
    ∧ (∀ msg, buildStoredScript d = Except.error (Failure.panic msg) →
        resourceStoredScriptPut env d log = Run.panicked msg log)
    ∧ (∀ st, buildStoredScript d = Except.ok st →
        (∀ err, env.marshalStoredScript st = Except.error err →
          resourceStoredScriptPut env d log = Run.returned (FromErr err, d, log))
        ∧ (∀ body, env.marshalStoredScript st = Except.ok body →
          (∀ err, client.PutScript log d.name body = Except.error err →
            resourceStoredScriptPut env d log
              = Run.returned (FromErr err, d, log ++ [Call.put d.name body]))
          ∧ (∀ res, client.PutScript log d.name body = Except.ok res →
            (HasError (env.CheckError res "Unable to create or update a stored script") = true →
              resourceStoredScriptPut env d log
                = Run.returned (env.CheckError res "Unable to create or update a stored script",
                    d, log ++ [Call.put d.name body]))
            ∧ (HasError (env.CheckError res "Unable to create or update a stored script") = false →
              resourceStoredScriptPut env d log
                = Run.returned
                    (resourceStoredScriptRead env { d with id := (client.ID d.name).1.String }
                      (log ++ [Call.put d.name body]))
              ∧ (resourceStoredScriptRead env { d with id := (client.ID d.name).1.String }
                    (log ++ [Call.put d.name body])).2.1.id = (client.ID d.name).1.String))))
    ∧ (∀ r, resourceStoredScriptPut env d log = Run.returned r → r.2.1.id ≠ d.id →
        ∃ st body res, buildStoredScript d = Except.ok st
          ∧ env.marshalStoredScript st = Except.ok body
          ∧ client.PutScript log d.name body = Except.ok res
          ∧ HasError (env.CheckError res "Unable to create or update a stored script") = false
          ∧ r.2.1.id = (client.ID d.name).1.String
          ∧ ∃ rest, r.2.2 = log ++ Call.put d.name body :: rest) := by
  have hput := put_eq env client d log hclient hid
  have hcases : ∀ st : StoredScript,
      (∀ err, env.marshalStoredScript st = Except.error err →
          PutElasticsearchStoredScript env client st log = (FromErr err, log))
      ∧ (∀ body, env.marshalStoredScript st = Except.ok body →
          (∀ err, client.PutScript log st.Name body = Except.error err →
            PutElasticsearchStoredScript env client st log
              = (FromErr err, log ++ [Call.put st.Name body]))
          ∧ (∀ res, client.PutScript log st.Name body = Except.ok res →
            (HasError (env.CheckError res "Unable to create or update a stored script") = true →
              PutElasticsearchStoredScript env client st log
                = (env.CheckError res "Unable to create or update a stored script",
                    log ++ [Call.put st.Name body]))
            ∧ (HasError (env.CheckError res "Unable to create or update a stored script") = false →
              PutElasticsearchStoredScript env client st log
                = ([], log ++ [Call.put st.Name body])))) := by
    intro st
    unfold PutElasticsearchStoredScript
    refine ⟨?_, ?_⟩
    · intro err h
      simp only [h]
    · intro body h
      simp only [h]
      refine ⟨?_, ?_⟩
      · intro err h2
        simp only [h2]
      · intro res h2
        simp only [h2]
        exact ⟨fun h3 => by simp only [h3, if_true], fun h3 => by simp [h3]⟩
  refine ⟨?_, ?_, ?_, ?_⟩
  · intro block rest err hb he
    have hbuild : buildStoredScript d = Except.error (Failure.error err) := by
      rw [buildStoredScript_of_block hb, he]
    rw [hput, hbuild]
  · intro msg hbuild
    rw [hput, hbuild]
  · intro st hst
    have hname : st.Name = d.name := by rw [buildStoredScript_ok hst]
    obtain ⟨c1, c2⟩ := hcases st
    rw [hname] at c2
    rw [hput, hst]
    simp only
    refine ⟨?_, ?_⟩
    · intro err hm
      rw [c1 err hm]
      simp only [hasError_fromErr, if_true]
    · intro body hm
      obtain ⟨c3, c4⟩ := c2 body hm
      refine ⟨?_, ?_⟩
      · intro err hp
        rw [c3 err hp]
        simp only [hasError_fromErr, if_true]
      · intro res hp
        obtain ⟨c5, c6⟩ := c4 res hp
        refine ⟨?_, ?_⟩
        · intro hc
          rw [c5 hc]
          simp only [hc, if_true]
        · intro hc
          rw [c6 hc]
          exact ⟨by simp [HasError], (read_keeps_id env _ _).1⟩
  · intro r hr hne
    rw [hput] at hr
    cases hbuild : buildStoredScript d with
    | error f =>
      rw [hbuild] at hr
      cases f with
      | error err =>
        simp only at hr
        injection hr with hr
        subst hr
        exact absurd rfl hne
      | panic msg => cases hr
    | ok st =>
      rw [hbuild] at hr
      simp only at hr
      have hname : st.Name = d.name := by rw [buildStoredScript_ok hbuild]
      obtain ⟨c1, c2⟩ := hcases st
      rw [hname] at c2
      cases hm : env.marshalStoredScript st with
      | error err =>
        rw [c1 err hm] at hr
        simp only [hasError_fromErr, if_true] at hr
        injection hr with hr
        subst hr
        exact absurd rfl hne
      | ok body =>
        obtain ⟨c3, c4⟩ := c2 body hm
        cases hp : client.PutScript log d.name body with
        | error err =>
          rw [c3 err hp] at hr
          simp only [hasError_fromErr, if_true] at hr
          injection hr with hr
          subst hr
          exact absurd rfl hne
        | ok res =>
          obtain ⟨c5, c6⟩ := c4 res hp
          by_cases hc : HasError (env.CheckError res "Unable to create or update a stored script")
              = true
          · rw [c5 hc] at hr
            simp only [hc, if_true] at hr
            injection hr with hr
            subst hr
            exact absurd rfl hne
          · have hc2 : HasError (env.CheckError res "Unable to create or update a stored script")
                = false := by simpa using hc
            rw [c6 hc2] at hr
            have hnil : HasError ([] : List Diagnostic) = false := rfl
            simp only [hnil] at hr
            injection hr with hr
            subst hr
            obtain ⟨h1, rest, h2⟩ := read_keeps_id env
              { d with id := (client.ID d.name).1.String } (log ++ [Call.put d.name body])
            exact ⟨st, body, res, rfl, hm, hp, hc2, h1, rest, by rw [h2]; simp⟩

/-- C8 (witness): a configuration that has not been created, on a store that
accepts the write, on a store that refuses it with status 500, and on a store
that cannot be reached; and a configuration whose search template is an
array, which the encoding rejects. -/
theorem put_assigns_id_after_write_witness :
    resourceStoredScriptPut demoEnv newData []
        = Run.returned
            (resourceStoredScriptRead demoEnv { newData with id := "cluster/sum_script" }
              [Call.put "sum_script" "\x7b\"script\":null\x7d"])
    ∧ resourceStoredScriptPut refusingEnv newData []
        = Run.returned
            ([{ Severity := Severity.Error
                Summary := "Unable to create or update a stored script"
                Detail := "\x7b\"error\":\"rejected\"\x7d" }],
              newData, [Call.put "sum_script" "\x7b\"script\":null\x7d"])
    ∧ resourceStoredScriptPut unreachableEnv newData []
        = Run.returned
            (FromErr "dial tcp: connection refused", newData,
              [Call.put "sum_script" "\x7b\"script\":null\x7d"])
    ∧ resourceStoredScriptPut demoEnv { newData with script := [some arrayTemplateBlock] } []
        = Run.returned
            (FromErr "json: cannot unmarshal array into Go value of type map[string]interface \x7b\x7d",
              { newData with script := [some arrayTemplateBlock] }, []) :=
  ⟨(((((put_assigns_id_after_write demoEnv demoClient newData [] rfl rfl).2.2.1
        { Name := "sum_script", Script := none } rfl).2 "\x7b\"script\":null\x7d" rfl).2
        { StatusCode := 200, Body := "\x7b\"acknowledged\":true\x7d" } rfl).2 rfl).1,
    ((((put_assigns_id_after_write refusingEnv refusingClient newData [] rfl rfl).2.2.1
        { Name := "sum_script", Script := none } rfl).2 "\x7b\"script\":null\x7d" rfl).2
        { StatusCode := 500, Body := "\x7b\"error\":\"rejected\"\x7d" } rfl).1 rfl,
    (((put_assigns_id_after_write unreachableEnv unreachableClient newData [] rfl rfl).2.2.1
        { Name := "sum_script", Script := none } rfl).2 "\x7b\"script\":null\x7d" rfl).1
        "dial tcp: connection refused" rfl,
    (put_assigns_id_after_write demoEnv demoClient
        { newData with script := [some arrayTemplateBlock] } [] rfl rfl).1
        arrayTemplateBlock [] _ rfl rfl⟩

/-- C9: with a client at hand, for an id that `CompositeIdFromStr` cannot
parse, `resourceStoredScriptRead` and `resourceStoredScriptDelete` each
return the diagnostics of the parse, issue no request and leave the resource
data unchanged. -/
theorem unparseable_id_aborts (env : Env) (client : ApiClient) (d : ResourceData)
    (log : List Call) (hclient : env.NewApiClient = Except.ok client)
    (hbad : HasError (env.CompositeIdFromStr d.id).2 = true) :
    resourceStoredScriptRead env d log = ((env.CompositeIdFromStr d.id).2, d, log)
    ∧ resourceStoredScriptDelete env d log = ((env.CompositeIdFromStr d.id).2, d, log) := by
  constructor
  · simp [resourceStoredScriptRead, hclient, hbad]
  · simp [resourceStoredScriptDelete, hclient, hbad]

/-- C9 (witness): an id without a separator, on the concrete store. -/
theorem unparseable_id_aborts_witness :
    resourceStoredScriptRead demoEnv brokenData []
        = ((demoEnv.CompositeIdFromStr brokenData.id).2, brokenData, [])
    ∧ resourceStoredScriptDelete demoEnv brokenData []
        = ((demoEnv.CompositeIdFromStr brokenData.id).2, brokenData, []) :=
  unparseable_id_aborts demoEnv demoClient brokenData [] rfl rfl

/-- C10: with a client at hand, for an id that parses,
`resourceStoredScriptDelete` issues one delete, for the resource name parsed
from the id.  When that delete reports no error the id is cleared to the
empty string; when it reports an error the error is returned and the resource
data is unchanged; so a non-empty id is cleared if and only if the delete
reports no error. -/
theorem delete_clears_id_iff_no_error (env : Env) (client : ApiClient) (d : ResourceData)
    (log : List Call) (hclient : env.NewApiClient = Except.ok client)
    (hok : HasError (env.CompositeIdFromStr d.id).2 = false) :
    (resourceStoredScriptDelete env d log).2.2
        = log ++ [Call.delete (env.CompositeIdFromStr d.id).1.ResourceId]
    ∧ (HasError (client.DeleteElasticsearchStoredScript log
          (env.CompositeIdFromStr d.id).1.ResourceId) = false →
        (resourceStoredScriptDelete env d log).1 = (env.CompositeIdFromStr d.id).2
        ∧ (resourceStoredScriptDelete env d log).2.1 = { d with id := "" })
    ∧ (HasError (client.DeleteElasticsearchStoredScript log
          (env.CompositeIdFromStr d.id).1.ResourceId) = true →
        (resourceStoredScriptDelete env d log).1
            = client.DeleteElasticsearchStoredScript log
                (env.CompositeIdFromStr d.id).1.ResourceId
        ∧ (resourceStoredScriptDelete env d log).2.1 = d)
    ∧ (d.id ≠ "" →
        ((resourceStoredScriptDelete env d log).2.1.id = "" ↔
          HasError (client.DeleteElasticsearchStoredScript log
            (env.CompositeIdFromStr d.id).1.ResourceId) = false)) := by
  cases hdel : HasError (client.DeleteElasticsearchStoredScript log
      (env.CompositeIdFromStr d.id).1.ResourceId) with
  | false =>
    have hres : resourceStoredScriptDelete env d log
        = ((env.CompositeIdFromStr d.id).2, { d with id := "" },
            log ++ [Call.delete (env.CompositeIdFromStr d.id).1.ResourceId]) := by
      simp [resourceStoredScriptDelete, hclient, hok, hdel]
    rw [hres]
    simp
  | true =>
    have hres : resourceStoredScriptDelete env d log
        = (client.DeleteElasticsearchStoredScript log (env.CompositeIdFromStr d.id).1.ResourceId,
            d, log ++ [Call.delete (env.CompositeIdFromStr d.id).1.ResourceId]) := by
      simp [resourceStoredScriptDelete, hclient, hok, hdel]
    rw [hres]
    simp

/-- C10 (witness): a recorded resource on the concrete store. -/
theorem delete_clears_id_iff_no_error_witness :
    (resourceStoredScriptDelete demoEnv knownData []).2.2
        = [] ++ [Call.delete (demoEnv.CompositeIdFromStr knownData.id).1.ResourceId]
    ∧ (HasError (demoClient.DeleteElasticsearchStoredScript []
          (demoEnv.CompositeIdFromStr knownData.id).1.ResourceId) = false →
        (resourceStoredScriptDelete demoEnv knownData []).1
            = (demoEnv.CompositeIdFromStr knownData.id).2
        ∧ (resourceStoredScriptDelete demoEnv knownData []).2.1 = { knownData with id := "" })
    ∧ (HasError (demoClient.DeleteElasticsearchStoredScript []
          (demoEnv.CompositeIdFromStr knownData.id).1.ResourceId) = true →
        (resourceStoredScriptDelete demoEnv knownData []).1
            = demoClient.DeleteElasticsearchStoredScript []
                (demoEnv.CompositeIdFromStr knownData.id).1.ResourceId
        ∧ (resourceStoredScriptDelete demoEnv knownData []).2.1 = knownData)
    ∧ (knownData.id ≠ "" →
        ((resourceStoredScriptDelete demoEnv knownData []).2.1.id = "" ↔
          HasError (demoClient.DeleteElasticsearchStoredScript []
            (demoEnv.CompositeIdFromStr knownData.id).1.ResourceId) = false)) :=
  delete_clears_id_iff_no_error demoEnv demoClient knownData [] rfl rfl

/-- C1 (failing input): for a declared configuration with a script block, the
encoded script carries the declared lang, source and params, and the
`StoredScript` handed to the client has no script; the request body is
marshalled from it. -/
theorem put_sends_no_script :
    encodeScript literalBlock = Except.ok
        { Lang := some "painless", ScriptSource := some "Math.log(_score * 2) + params.my_modifier",
          SearchTemplateSource := none,
          Params := some (JVal.obj [("my_modifier", JVal.num false 2 0)]) }
    ∧ buildStoredScript newData = Except.ok { Name := "sum_script", Script := none }
    ∧ resourceStoredScriptPut demoEnv newData []
        = Run.returned
            ([], { id := "cluster/sum_script", name := "sum_script", script := [some literalBlock] },
              [Call.put "sum_script" "\x7b\"script\":null\x7d", Call.get "sum_script"]) :=
  ⟨rfl, rfl, rfl⟩

theorem read_not_found (env : Env) (client : ApiClient) (d : ResourceData) (log : List Call)
    (res : Response) (hclient : env.NewApiClient = Except.ok client)
    (hok : HasError (env.CompositeIdFromStr d.id).2 = false)
    (hget : client.GetScript log (env.CompositeIdFromStr d.id).1.ResourceId = Except.ok res)
    (h404 : res.StatusCode = 404) :
    HasError (resourceStoredScriptRead env d log).1 = true
    ∧ (resourceStoredScriptRead env d log).2.1 = d := by
  have hres : resourceStoredScriptRead env d log
      = ([{ Severity := Severity.Error
            Summary := "Unable to find a stored script in the cluster."
            Detail := "Unable to get stored script: '"
              ++ (env.CompositeIdFromStr d.id).1.ResourceId ++ "' from the cluster." }],
          d, log ++ [Call.get (env.CompositeIdFromStr d.id).1.ResourceId]) := by
    simp [resourceStoredScriptRead, hclient, hok, GetElasticsearchStoredScript, hget, h404]
    intro h
    exact absurd h (by simp [HasError])
  rw [hres]
  exact ⟨rfl, rfl⟩

/-- C2 (failing input): the id parses, the remote store answers the GET with
status 404, and `resourceStoredScriptRead` returns an error diagnostic and
leaves the resource id as it was. -/
theorem read_not_found_reports_error :
    demoClient.GetScript [] "sum_script"
        = Except.ok { StatusCode := 404, Body := "\x7b\"found\":false\x7d" }
    ∧ resourceStoredScriptRead demoEnv knownData []
        = ([{ Severity := Severity.Error
              Summary := "Unable to find a stored script in the cluster."
              Detail := "Unable to get stored script: 'sum_script' from the cluster." }],
            knownData, [Call.get "sum_script"])
    ∧ HasError (resourceStoredScriptRead demoEnv knownData []).1 = true
    ∧ (resourceStoredScriptRead demoEnv knownData []).2.1.id = "cluster/sum_script" :=
  ⟨rfl, rfl, rfl, rfl⟩

end Elasticstack
